import Mathlib

/-!
Verification of the mobile-device automation agent backend
(`backend/app/agent/…`) against its natural-language specification.

The Python sources are shallowly embedded: pure functions become Lean
functions, stateful methods become explicit state passing, external
collaborators (device bridge, LLM stream) become explicit inputs, and
fallible operations return `Option`.  Python integers are modelled by
`Nat`/`Int`; Python strings by Lean `String`/`List Char` (both are
sequences of unicode code points).
-/

/-! ## Decimal printing (model of Python `str` on integers)

Python `str(n)`/f-string interpolation of an `int` prints the decimal
digits.  `pyNatRepr` reimplements that printing directly so that parsing
lemmas can be proved about it. -/

/-- Character for a single decimal digit `n < 10`. -/
def digitCh (n : Nat) : Char := Char.ofNat (48 + n)

/-- Fuel-driven digit expansion (structural recursion, so that proofs by
`decide`/`rfl` can evaluate it); `fuel ≥ n + 1` is always sufficient. -/
def natDigitsAux : Nat → Nat → List Char
  | 0, _ => []
  | fuel + 1, n =>
    if n < 10 then [digitCh n]
    else natDigitsAux fuel (n / 10) ++ [digitCh (n % 10)]

/-- Decimal digit characters of `n`, most significant first. -/
def natDigits (n : Nat) : List Char := natDigitsAux (n + 1) n

/-- Model of Python `str` on a nonnegative integer. -/
def pyNatRepr (n : Nat) : String := String.mk (natDigits n)

/-! ## Step Executor tap dispatch (`MobileAgentV2._execute_action`, `"tap"` branch)

Embeds `backend/app/agent/mobile_agent.py` lines 911-933.  The two device
calls are explicit inputs: `screenSize` is the result of
`device._get_screen_size` and `tapOk` the boolean returned by
`device.tap` at the dispatched coordinates.  Coordinates are `Nat`
(normalized coordinates are nonnegative); for the magnitudes involved,
Python `int(nx * w / 1000)` (float division then truncation) equals
floor division `nx * w / 1000`. -/

/-- Result of dispatching a tap action: the pixel coordinates passed to
`device.tap` (`none` when the element list was rejected), the reported
success flag and the result message. -/
structure TapDispatch where
  tapped : Option (Nat × Nat)
  success : Bool
  message : String
  deriving Repr, DecidableEq

/-- The `"tap"` branch of `MobileAgentV2._execute_action`: take the first
two entries of `element` as normalized coordinates; if the screen size is
available, scale by `extent / 1000` (no clamping in the source); otherwise
pass the raw normalized coordinates through unchanged. -/
def executeActionTap (element : List Nat) (screenSize : Option (Nat × Nat))
    (tapOk : Bool) : TapDispatch :=
  match element with
  | nx :: ny :: _ =>
    match screenSize with
    | some (w, h) =>
      let ax := nx * w / 1000
      let ay := ny * h / 1000
      ⟨some (ax, ay), tapOk, "点击 (" ++ pyNatRepr ax ++ ", " ++ pyNatRepr ay ++ ")"⟩
    | none =>
      ⟨some (nx, ny), tapOk, "点击 (" ++ pyNatRepr nx ++ ", " ++ pyNatRepr ny ++ ")"⟩
  | _ => ⟨none, false, "无效的坐标"⟩

/-- C1 counterexample: the source applies no clamping.  With the adapter
scale S = 1000, the normalized point (1000, 1000) lies in [0, S], yet on a
1080×2400 screen the coordinates passed to `tap` are (1080, 2400), and
1080 < 1080 fails — the claimed invariant `0 ≤ px < W` does not hold. -/
theorem C1_counterexample :
    (executeActionTap [1000, 1000] (some (1080, 2400)) true).tapped = some (1080, 2400)
      ∧ ¬((1080 : Nat) < 1080 ∧ (2400 : Nat) < 2400) := by
  constructor
  · rfl
  · decide

/-- C1 amended: the pixel coordinates are `⌊nx·W/1000⌋`, `⌊ny·H/1000⌋`
with no clamping; they satisfy `px < W` and `py < H` whenever the
normalized inputs are at most 999 (and the device extents are positive).
At a normalized coordinate of exactly 1000 the pixel equals the extent
and leaves the device bounds (see the counterexample). -/
theorem C1_amended (nx ny w h : Nat) (tapOk : Bool) (rest : List Nat)
    (hx : nx ≤ 999) (hy : ny ≤ 999) (hw : 0 < w) (hh : 0 < h) :
    (executeActionTap (nx :: ny :: rest) (some (w, h)) tapOk).tapped
        = some (nx * w / 1000, ny * h / 1000)
      ∧ nx * w / 1000 < w ∧ ny * h / 1000 < h := by
  refine ⟨rfl, ?_, ?_⟩
  · have : nx * w < w * 1000 := by
      calc nx * w ≤ 999 * w := Nat.mul_le_mul_right w hx
        _ < 1000 * w := by omega
        _ = w * 1000 := Nat.mul_comm 1000 w
    exact (Nat.div_lt_iff_lt_mul (by omega)).mpr this
  · have : ny * h < h * 1000 := by
      calc ny * h ≤ 999 * h := Nat.mul_le_mul_right h hy
        _ < 1000 * h := by omega
        _ = h * 1000 := Nat.mul_comm 1000 h
    exact (Nat.div_lt_iff_lt_mul (by omega)).mpr this

/-- Witness for `C1_amended` at the spec's own example: scale 1000, device
1080×2400, normalized (500, 500) taps pixel (540, 1200). -/
theorem C1_amended_witness :
    (executeActionTap [500, 500] (some (1080, 2400)) true).tapped = some (540, 1200)
      ∧ 540 < 1080 ∧ 1200 < 2400 :=
  C1_amended 500 500 1080 2400 true [] (by decide) (by decide) (by decide) (by decide)

/-- C10: when the screen size cannot be obtained, the tap is issued at
the raw normalized coordinates — no scaling and no clamping — and the
step's success flag is exactly the `device.tap` result. -/
theorem C10_raw_coords_without_screen_size (nx ny : Nat) (rest : List Nat) (tapOk : Bool) :
    (executeActionTap (nx :: ny :: rest) none tapOk).tapped = some (nx, ny)
      ∧ (executeActionTap (nx :: ny :: rest) none tapOk).success = tapOk :=
  ⟨rfl, rfl⟩

/-! ## History store and loop detector (`backend/app/agent/history.py`)

`HistoryEntry.get_fingerprint()` is a (stdlib) md5 digest of the action
kind and canonicalized params, and `LoopDetector.add_entry` additionally
derives the counter key `f"{kind}:{params-json}"`.  Both are
deterministic strings computed from the action; the detector and the
counters only ever compare them for equality, so the embedding carries
the two derived strings (`fp`, `key`) on each entry instead of the hash
computation itself. -/

/-- History entry: step number and the two strings derived from the
action (`get_fingerprint()` result and the `action_counts` key), plus the
observation text. -/
structure HEntry where
  step : Nat
  fp : String
  key : String
  observation : String
  deriving Repr, DecidableEq

/-- Python list slice `l[-n:]` (note `l[-0:]` is the whole list). -/
def pyLastSlice (n : Nat) (l : List String) : List String :=
  if n = 0 then l else l.drop (l.length - n)

/-- Last `n` elements (used for the deque and for stating claims). -/
def lastSeg (n : Nat) (l : List String) : List String :=
  l.drop (l.length - n)

/-- Append to a `deque` of maxlen `m`: push right, dropping from the left
once the length exceeds `m`. -/
def dequePush (m : Nat) (l : List String) (x : String) : List String :=
  let l2 := l ++ [x]
  if m < l2.length then l2.drop (l2.length - m) else l2

/-- Increment a counter key in an insertion-ordered dict
(`d[k] = d.get(k, 0) + 1`). -/
def bumpCount : List (String × Nat) → String → List (String × Nat)
  | [], k => [(k, 1)]
  | (k', n) :: t, k => if k' = k then (k', n + 1) :: t else (k', n) :: bumpCount t k

/-- Insertion-ordered dict lookup with default 0 (`d.get(k, 0)`). -/
def countGet (k : String) : List (String × Nat) → Nat
  | [] => 0
  | (k', n) :: t => if k' = k then n else countGet k t

/-- State of `LoopDetector`: configuration, the `fingerprints` deque
(maxlen `window_size * 2`) and the `action_counts` dict. -/
structure LoopDetectorState where
  windowSize : Nat
  simThreshold : Nat
  maxRepetitions : Nat
  fingerprints : List String
  actionCounts : List (String × Nat)
  deriving Repr, DecidableEq

/-- Fresh `LoopDetector(window_size, similarity_threshold, max_repetitions)`. -/
def detectorNew (w t m : Nat) : LoopDetectorState := ⟨w, t, m, [], []⟩

/-- Embedding of `LoopDetector.add_entry`. -/
def detectorAdd (st : LoopDetectorState) (e : HEntry) : LoopDetectorState :=
  { st with
    fingerprints := dequePush (st.windowSize * 2) st.fingerprints e.fp,
    actionCounts := bumpCount st.actionCounts e.key }

/-- Embedding of `LoopDetector.reset`. -/
def detectorReset (st : LoopDetectorState) : LoopDetectorState :=
  { st with fingerprints := [], actionCounts := [] }

/-- First counter entry strictly above `max_repetitions * 3` (the dict
iteration order of method 3 of `detect_loop`). -/
def findOverCount (m : Nat) : List (String × Nat) → Option (String × Nat)
  | [] => none
  | (k, c) :: t => if m * 3 < c then some (k, c) else findOverCount m t

/-- Method-1 message of `detect_loop`. -/
def repeatPatternMsg (n : Nat) : String :=
  "检测到重复动作模式（" ++ pyNatRepr n ++ " 个重复动作）"

/-- Method-3 message of `detect_loop`. -/
def repeatCountMsg (k : String) (c : Nat) : String :=
  "动作 \x27" ++ k ++ "\x27 重复执行 " ++ pyNatRepr c ++ " 次"

/-- Embedding of `LoopDetector.detect_loop`: sliding-window repetition,
then exact sequence repetition, then per-action counters. -/
def detectLoop (st : LoopDetectorState) : Bool × Option String :=
  if st.fingerprints.length < st.windowSize then (false, none)
  else
    let recent := pyLastSlice st.windowSize st.fingerprints
    let uniqueCount := recent.dedup.length
    if uniqueCount < st.simThreshold then
      (true, some (repeatPatternMsg (st.windowSize - uniqueCount)))
    else if st.windowSize * 2 ≤ st.fingerprints.length
        ∧ ((st.fingerprints.take (st.fingerprints.length - st.windowSize)).drop
              (st.fingerprints.length - st.windowSize * 2)
            = pyLastSlice st.windowSize st.fingerprints) then
      (true, some "检测到完全相同的动作序列重复")
    else
      match findOverCount st.maxRepetitions st.actionCounts with
      | some (k, c) => (true, some (repeatCountMsg k c))
      | none => (false, none)

/-- Fold `add_entry` over a list of entries. -/
def detectorAddAll (st : LoopDetectorState) (es : List HEntry) : LoopDetectorState :=
  es.foldl detectorAdd st

/-- State of `HistoryManager` (loop detection enabled, as the agent
configures it). -/
structure HistoryState where
  maxHistory : Nat
  entries : List HEntry
  stepCounter : Nat
  detector : LoopDetectorState
  deriving Repr, DecidableEq

/-- Embedding of `HistoryManager.add_entry`: bump the step counter,
append the entry, evict the oldest entry (`entries.pop(0)`) once
`max_history` is exceeded, then feed the entry to the loop detector. -/
def historyAddEntry (hm : HistoryState) (fp key observation : String) : HistoryState :=
  let step := hm.stepCounter + 1
  let e : HEntry := ⟨step, fp, key, observation⟩
  let es := hm.entries ++ [e]
  let es2 := if hm.maxHistory < es.length then es.drop 1 else es
  { hm with stepCounter := step, entries := es2, detector := detectorAdd hm.detector e }

/-- Embedding of `HistoryManager.clear` (which calls `LoopDetector.reset`). -/
def historyClear (hm : HistoryState) : HistoryState :=
  { hm with entries := [], stepCounter := 0, detector := detectorReset hm.detector }

/-- Embedding of `HistoryManager.check_loop` with detection enabled. -/
def historyCheckLoop (hm : HistoryState) : Bool × Option String :=
  detectLoop hm.detector

/-! ### Loop detector lemmas and claims C4, C9 -/

/-- Pushing onto the deque view of the last `m` recorded fingerprints
tracks the last `m` of the extended record. -/
theorem dequePush_lastSeg (m : Nat) (l : List String) (x : String) :
    dequePush m (lastSeg m l) x = lastSeg m (l ++ [x]) := by
  unfold dequePush lastSeg
  by_cases hm : m = 0
  · subst hm
    simp
  · by_cases hn : m ≤ l.length
    · have hlen : (l.drop (l.length - m)).length = m := by
        simp [List.length_drop]; omega
      have hcond : m < (l.drop (l.length - m) ++ [x]).length := by
        simp [hlen]
      simp only [hcond, if_pos]
      have hlen2 : (l.drop (l.length - m) ++ [x]).length - m = 1 := by
        simp [hlen]
      rw [hlen2]
      have h1 : (1 : Nat) ≤ (l.drop (l.length - m)).length := by omega
      rw [List.drop_append_of_le_length h1, List.drop_drop]
      have h2 : l.length - m + 1 = l.length + 1 - m := by omega
      have h3 : l.length + 1 - m ≤ l.length := by omega
      rw [h2, ← List.drop_append_of_le_length h3]
      simp
    · have hx : l.length - m = 0 := by omega
      have hy : (l ++ [x]).length - m = 0 := by simp; omega
      have hcond : ¬ (m < (List.drop (l.length - m) l ++ [x]).length) := by
        simp [hx]; omega
      simp [hx, hy, hcond]
      intro _
      have hz : l.length + 1 - m = 0 := by omega
      rw [hz, List.drop_zero]

/-- Folding `dequePush` from an aligned start stays aligned with the last
`m` elements of the whole record. -/
theorem foldl_dequePush_lastSeg (m : Nat) (xs : List String) :
    ∀ acc : List String, xs.foldl (dequePush m) (lastSeg m acc) = lastSeg m (acc ++ xs) := by
  induction xs with
  | nil => intro acc; simp
  | cons x t ih =>
    intro acc
    rw [List.foldl_cons, dequePush_lastSeg, ih (acc ++ [x])]
    simp

/-- Unfolds `detectorAddAll`: the configuration is untouched, the deque
holds the last `2·W` recorded fingerprints and the counters are the fold
of the per-entry increments. -/
theorem detectorAddAll_spec (w t m : Nat) (es : List HEntry) :
    (detectorAddAll (detectorNew w t m) es).windowSize = w
      ∧ (detectorAddAll (detectorNew w t m) es).simThreshold = t
      ∧ (detectorAddAll (detectorNew w t m) es).maxRepetitions = m
      ∧ (detectorAddAll (detectorNew w t m) es).fingerprints
          = lastSeg (w * 2) (es.map HEntry.fp)
      ∧ (detectorAddAll (detectorNew w t m) es).actionCounts
          = (es.map HEntry.key).foldl bumpCount [] := by
  have main : ∀ (st : LoopDetectorState) (es : List HEntry),
      (detectorAddAll st es).windowSize = st.windowSize
        ∧ (detectorAddAll st es).simThreshold = st.simThreshold
        ∧ (detectorAddAll st es).maxRepetitions = st.maxRepetitions
        ∧ (detectorAddAll st es).fingerprints
            = (es.map HEntry.fp).foldl (dequePush (st.windowSize * 2)) st.fingerprints
        ∧ (detectorAddAll st es).actionCounts
            = (es.map HEntry.key).foldl bumpCount st.actionCounts := by
    intro st es
    induction es generalizing st with
    | nil => simp [detectorAddAll]
    | cons e t ih =>
      have h := ih (detectorAdd st e)
      simpa [detectorAddAll, detectorAdd] using h
  have h := main (detectorNew w t m) es
  have hfp : ((es.map HEntry.fp).foldl (dequePush (w * 2)) ([] : List String))
      = lastSeg (w * 2) (es.map HEntry.fp) := by
    have : lastSeg (w * 2) ([] : List String) = [] := by simp [lastSeg]
    rw [← this, foldl_dequePush_lastSeg]
    simp
  simpa [detectorNew, hfp] using h

/-- Nested last segments collapse. -/
theorem lastSeg_lastSeg (a b : Nat) (l : List String) (h : a ≤ b) :
    lastSeg a (lastSeg b l) = lastSeg a l := by
  unfold lastSeg
  rw [List.drop_drop, List.length_drop]
  congr 1
  omega

/-- C4: with window size W > 0 and threshold T, once at least W
fingerprints have been recorded and the last W recorded fingerprints have
fewer than T distinct values, `detect_loop` reports looping with the
method-1 "repeating action pattern" reason. -/
theorem C4_window_low_distinct (w t m : Nat) (es : List HEntry)
    (hw : 0 < w) (hlen : w ≤ es.length)
    (hdist : (lastSeg w (es.map HEntry.fp)).dedup.length < t) :
    detectLoop (detectorAddAll (detectorNew w t m) es)
      = (true, some (repeatPatternMsg
          (w - (lastSeg w (es.map HEntry.fp)).dedup.length))) := by
  obtain ⟨hws, hst, _, hfp, _⟩ := detectorAddAll_spec w t m es
  unfold detectLoop
  rw [hws, hst, hfp]
  have hmaplen : (es.map HEntry.fp).length = es.length := by simp
  have hseglen : (lastSeg (w * 2) (es.map HEntry.fp)).length
      = (es.map HEntry.fp).length - ((es.map HEntry.fp).length - w * 2) := by
    simp [lastSeg, List.length_drop]
  have hnotlt : ¬ ((lastSeg (w * 2) (es.map HEntry.fp)).length < w) := by
    rw [hseglen, hmaplen]; omega
  rw [if_neg hnotlt]
  have hslice : pyLastSlice w (lastSeg (w * 2) (es.map HEntry.fp))
      = lastSeg w (es.map HEntry.fp) := by
    unfold pyLastSlice
    rw [if_neg (by omega)]
    exact lastSeg_lastSeg w (w * 2) (es.map HEntry.fp) (by omega)
  rw [hslice, if_pos hdist]

/-- Witness for `C4_window_low_distinct`: five identical taps with
`W = 5, T = 3`; the last five fingerprints have a single distinct value,
and `detect_loop` reports the repeating-pattern reason. -/
theorem C4_witness :
    detectLoop (detectorAddAll (detectorNew 5 3 2)
        (List.replicate 5 ⟨1, "fp-a", "key-a", ""⟩))
      = (true, some (repeatPatternMsg 4)) := by
  have h := C4_window_low_distinct 5 3 2 (List.replicate 5 ⟨1, "fp-a", "key-a", ""⟩)
    (by decide) (by decide) (by decide)
  exact h

/-- Incrementing one counter key leaves every other key unchanged and
raises the incremented key by exactly one. -/
theorem countGet_bumpCount (counts : List (String × Nat)) (key k : String) :
    countGet k (bumpCount counts key)
      = countGet k counts + (if key = k then 1 else 0) := by
  induction counts with
  | nil =>
    by_cases h : key = k <;> simp [bumpCount, countGet, h]
  | cons p t ih =>
    obtain ⟨k', n⟩ := p
    by_cases h1 : k' = key
    · subst h1
      by_cases h2 : k' = k
      · subst h2
        simp [bumpCount, countGet]
      · have h2' : ¬ (k' = k) := h2
        simp [bumpCount, countGet, h2']
    · by_cases h2 : k' = k
      · subst h2
        have h1' : ¬ (key = k') := fun h => h1 h.symm
        simp [bumpCount, countGet, h1, h1']
      · simp [bumpCount, countGet, h1, h2, ih]

/-- Concrete C9 scenario: `max_history = 3`, default detector
configuration; the same action is executed seven times, then four
distinct ones. -/
def c9Scenario : HistoryState :=
  (["a", "a", "a", "a", "a", "a", "a", "b", "c", "d", "e"]).foldl
    (fun hm s => historyAddEntry hm s s "") ⟨3, [], 0, detectorNew 5 3 2⟩

/-- C9: the loop detector's per-action counters only grow.  Part 1:
`HistoryManager.add_entry` raises the added action's counter by one and
changes no other counter — in particular the eviction of the oldest
retained entry (which `add_entry` performs past the `max_history` cap)
never decrements a counter.  Part 2: `clear()` (via `LoopDetector.reset`)
empties the counters.  Part 3: consequently a session whose retained
history no longer contains any entry of an action can still report
"action repeated 7 times" about it. -/
theorem C9_counters_accumulate :
    (∀ (hm : HistoryState) (fp key obs k : String),
        countGet k (historyAddEntry hm fp key obs).detector.actionCounts
          = countGet k hm.detector.actionCounts + (if key = k then 1 else 0))
      ∧ (∀ hm : HistoryState, (historyClear hm).detector.actionCounts = [])
      ∧ (historyCheckLoop c9Scenario = (true, some (repeatCountMsg "a" 7))
          ∧ (c9Scenario.entries.filter (fun e => e.key == "a")).length = 0
          ∧ countGet "a" c9Scenario.detector.actionCounts = 7
          ∧ c9Scenario.entries.length = 3) := by
  refine ⟨?_, ?_, ?_⟩
  · intro hm fp key obs k
    simp only [historyAddEntry, detectorAdd]
    exact countGet_bumpCount hm.detector.actionCounts key k
  · intro hm
    rfl
  · refine ⟨by decide, by decide, by decide, by decide⟩

/-! ## Streaming thinking/action splitter (`MobileAgentV2._stream_llm`)

Embeds `backend/app/agent/mobile_agent.py` lines 544-595.  Text is
modelled as `List Char`; the stream is the list of `delta.content`
chunks.  Raw chunks are always forwarded unchanged (the `"raw"` events);
the interesting state machine is the thinking-side buffer, embedded
below. -/

/-- Marker literals whose appearance switches the splitter to the action
phase (`action_markers` in `_stream_llm`). -/
def actionMarkers : List (List Char) :=
  [("finish(message=").data, ("do(action=").data]

/-- Python `marker in buffer` (substring containment). -/
def containsSub (p : List Char) : List Char → Bool
  | [] => p.isEmpty
  | c :: cs => p.isPrefixOf (c :: cs) || containsSub p cs

/-- Python `buffer.split(marker, 1)[0]`: the prefix before the first
occurrence of `p` (the whole list when `p` does not occur). -/
def splitBefore (p : List Char) : List Char → List Char
  | [] => []
  | c :: cs => if p.isPrefixOf (c :: cs) then [] else c :: splitBefore p cs

/-- First marker (in `action_markers` order) contained in the buffer. -/
def firstMarkerIn (buf : List Char) : List (List Char) → Option (List Char)
  | [] => none
  | m :: ms => if containsSub m buf then some m else firstMarkerIn buf ms

/-- Python whitespace test for `str.strip()` (the ASCII whitespace
characters; the splitter only ever strips model-emitted text). -/
def isPySpace (c : Char) : Bool :=
  c = ' ' || c = '\t' || c = '\n' || c = '\x0d' || c = '\x0b' || c = '\x0c'

/-- Python `s.strip()`. -/
def pyStripChars (s : List Char) : List Char :=
  ((s.dropWhile isPySpace).reverse.dropWhile isPySpace).reverse

/-- Model of `re.sub(r'^熟虑|全景$', '', s)`: one leading `熟虑` and one
trailing `全景` are removed (`^`/`$` anchor to the whole string,
no MULTILINE flag). -/
def stripThinkTags (s : List Char) : List Char :=
  let s1 := if ("熟虑").data.isPrefixOf s then s.drop 2 else s
  if ("全景").data.isSuffixOf s1 then s1.take (s1.length - 2) else s1

/-- Splitter state: the undecided buffer and the thinking/action phase
flag. -/
structure SplitState where
  buffer : List Char
  inAction : Bool
  deriving Repr, DecidableEq

/-- One `delta.content` chunk through the splitter body of
`_stream_llm`: in the action phase nothing more is buffered or emitted;
otherwise the chunk is appended to the buffer, a contained marker
flushes the stripped prefix as one thinking chunk and switches phase, a
buffer ending in a proper prefix of some marker is withheld, and any
other nonempty buffer is emitted whole and cleared. -/
def processChunk (st : SplitState) (content : List Char) :
    SplitState × List (List Char) :=
  if st.inAction then (st, [])
  else
    let buf := st.buffer ++ content
    match firstMarkerIn buf actionMarkers with
    | some m =>
      let part := pyStripChars (stripThinkTags (splitBefore m buf))
      (⟨buf, true⟩, if part.isEmpty then [] else [part])
    | none =>
      if actionMarkers.any (fun m =>
          (List.range m.length).any (fun i => (m.take (i + 1)).isSuffixOf buf)) then
        (⟨buf, false⟩, [])
      else if buf.isEmpty then (⟨buf, false⟩, [])
      else (⟨[], false⟩, [buf])

/-- Run the splitter from a given state over a chunk list, collecting the
emitted thinking chunks. -/
def runSplitterFrom (st : SplitState) : List (List Char) → SplitState × List (List Char)
  | [] => (st, [])
  | c :: cs =>
    let r1 := processChunk st c
    let r2 := runSplitterFrom r1.1 cs
    (r2.1, r1.2 ++ r2.2)

/-- Run the splitter from the initial state of `_stream_llm`
(`buffer = ""`, thinking phase). -/
def runSplitter (chunks : List (List Char)) : SplitState × List (List Char) :=
  runSplitterFrom ⟨[], false⟩ chunks

/-- Once the splitter is in the action phase it stays there and emits no
further thinking chunks. -/
theorem runSplitterFrom_inAction (cs : List (List Char)) (st : SplitState)
    (h : st.inAction = true) : runSplitterFrom st cs = (st, []) := by
  induction cs with
  | nil => rfl
  | cons c t ih =>
    simp [runSplitterFrom, processChunk, h, ih]

/-- Splitter conservation: while still in the thinking phase, the
emitted thinking text plus the retained buffer is exactly the raw stream
seen so far — buffered bytes have not been emitted. -/
theorem runSplitterFrom_conservation (cs : List (List Char)) :
    ∀ st : SplitState, st.inAction = false →
      (runSplitterFrom st cs).1.inAction = false →
      ((runSplitterFrom st cs).2).flatten ++ (runSplitterFrom st cs).1.buffer
        = st.buffer ++ cs.flatten := by
  induction cs with
  | nil =>
    intro st _ _
    simp [runSplitterFrom]
  | cons c t ih =>
    intro st hst hfin
    simp only [runSplitterFrom]
    simp only [runSplitterFrom] at hfin
    unfold processChunk
    unfold processChunk at hfin
    rw [if_neg (by simp [hst])]
    rw [if_neg (by simp [hst])] at hfin
    rcases hmk : firstMarkerIn (st.buffer ++ c) actionMarkers with _ | m
    · simp only [hmk] at hfin ⊢
      by_cases hpot : (actionMarkers.any (fun m =>
          (List.range m.length).any (fun i => (m.take (i + 1)).isSuffixOf (st.buffer ++ c)))) = true
      · simp only [hpot, if_pos] at hfin ⊢
        have h2 := ih ⟨st.buffer ++ c, false⟩ rfl hfin
        simpa using h2
      · simp only [Bool.not_eq_true] at hpot
        simp only [hpot, Bool.false_eq_true, if_false] at hfin ⊢
        by_cases hemp : (st.buffer ++ c).isEmpty = true
        · simp only [hemp, if_pos] at hfin ⊢
          have h2 := ih ⟨st.buffer ++ c, false⟩ rfl hfin
          simpa using h2
        · simp only [Bool.not_eq_true] at hemp
          simp only [hemp, Bool.false_eq_true, if_false] at hfin ⊢
          have h2 := ih ⟨[], false⟩ rfl hfin
          simp only at h2
          simp [h2]
    · simp only [hmk] at hfin
      rw [runSplitterFrom_inAction t ⟨st.buffer ++ c, true⟩ rfl] at hfin
      simp at hfin

/-- C8: for any stream whose undecided buffer ends strictly inside one of
the action-marker literals (a nonempty proper prefix of a marker is a
suffix of the buffer, and the splitter is still undecided), no thinking
chunk containing those buffered bytes has been emitted: the thinking
chunks emitted so far are exactly the raw stream with the whole buffer —
including the candidate marker bytes — still withheld. -/
theorem C8_marker_bytes_withheld (chunks : List (List Char)) (m : List Char) (i : Nat)
    (_hm : m ∈ actionMarkers) (hi1 : 0 < i) (hi2 : i < m.length)
    (hact : (runSplitter chunks).1.inAction = false)
    (hsuf : (m.take i) <:+ (runSplitter chunks).1.buffer) :
    ((runSplitter chunks).2).flatten ++ (runSplitter chunks).1.buffer = chunks.flatten
      ∧ (runSplitter chunks).1.buffer ≠ [] := by
  constructor
  · exact runSplitterFrom_conservation chunks ⟨[], false⟩ rfl hact
  · intro hempty
    rw [hempty] at hsuf
    have hlen := hsuf.length_le
    rw [List.length_take] at hlen
    simp only [List.length_nil] at hlen
    omega

/-- Witness for `C8_marker_bytes_withheld`: the stream "hello " then
"do(ac" ends strictly inside the marker `do(action=`; "hello " was
emitted as thinking but the five buffered bytes "do(ac" were not. -/
theorem C8_witness :
    ((runSplitter [("hello ").data, ("do(ac").data]).2).flatten
          ++ (runSplitter [("hello ").data, ("do(ac").data]).1.buffer
        = ([("hello ").data, ("do(ac").data] : List (List Char)).flatten
      ∧ (runSplitter [("hello ").data, ("do(ac").data]).1.buffer ≠ [] :=
  C8_marker_bytes_withheld [("hello ").data, ("do(ac").data]
    (("do(action=").data) 5 (by decide) (by decide) (by decide) (by decide)
    (by decide)

/-! ## Agent loop and step executor events
(`MobileAgentV2.stream` / `MobileAgentV2._execute_step_v2`)

The async generators are embedded as functions from the per-step external
inputs to the emitted event list.  A `StepEnv` collects everything step
`k` consumes from outside the loop: the cancellation flag sampled at the
top of the while body, the thinking chunks produced by the splitter, the
Action Parser result on the model output (`action_parser.parse`), the
dispatcher outcome of `_execute_action`, and whether the step body raised
(the `except Exception` arm).  Event payloads not consulted by the loop
logic (screenshots, the action dict, thinking text inside `step` events)
are elided. -/

/-- Parsed action as consumed by the loop: whether its `action_type` is
`FINISH`, and the fingerprint / counter-key strings its history entry
induces (see the `HEntry` comment). -/
structure ParsedAct where
  isFinish : Bool
  fp : String
  key : String
  deriving Repr, DecidableEq

/-- External inputs of one iteration of the while body. -/
structure StepEnv where
  cancelAtStart : Bool
  raisesExc : Option String
  thinkingChunks : List String
  parsed : Option ParsedAct
  execSuccess : Bool
  shouldFinish : Bool
  execMessage : String
  deriving Repr, DecidableEq

/-- Stream events (the `{"type": …, "data": …}` dicts), restricted to the
fields the loop logic reads. -/
inductive AgentEvent where
  | planEv (data : String)
  | warning (message : String)
  | thinking (chunk : String)
  | actionEv (step : Nat)
  | stepEv (step : Nat) (success : Bool) (finished : Bool) (message : String)
  | errorEv (message : String)
  | done (message : String) (steps : Nat) (success : Bool)
  | cancelled (message : String)
  deriving Repr, DecidableEq

/-- Test used by the loop: `event["type"] == "step" and
event["data"].get("finished")`. -/
def isFinishedStep : AgentEvent → Bool
  | .stepEv _ _ f _ => f
  | _ => false

/-- Event is a `step` event. -/
def isStepEvent : AgentEvent → Bool
  | .stepEv _ _ _ _ => true
  | _ => false

/-- Event is a `done` event. -/
def isDoneEvent : AgentEvent → Bool
  | .done _ _ _ => true
  | _ => false

/-- Events yielded by `_execute_step_v2` for step number `n` (the
already-incremented `self._step_count`): thinking chunks, then either the
terminal parse-failure `step`, or `action` followed by the step's `step`
event; a raised exception yields `error` then a terminal `step`. -/
def stepEventsV2 (n : Nat) (env : StepEnv) : List AgentEvent :=
  match env.raisesExc with
  | some msg => [.errorEv ("步骤执行错误: " ++ msg), .stepEv n false true msg]
  | none =>
    let thinkEvents := env.thinkingChunks.map AgentEvent.thinking
    match env.parsed with
    | none => thinkEvents ++ [.stepEv n false true "无法解析动作"]
    | some act =>
      let finished := act.isFinish || env.shouldFinish
      thinkEvents ++ [.actionEv n, .stepEv n env.execSuccess finished env.execMessage]

/-- History side effect of `_execute_step_v2`: a successfully parsed
action is recorded with the dispatcher's message as observation. -/
def stepHistoryV2 (env : StepEnv) (hm : HistoryState) : HistoryState :=
  match env.raisesExc with
  | some _ => hm
  | none =>
    match env.parsed with
    | none => hm
    | some act => historyAddEntry hm act.fp act.key env.execMessage

/-- Warning events the loop emits before a step when
`history_manager.check_loop()` reports looping. -/
def loopWarnEvents (hm : HistoryState) : List AgentEvent :=
  match historyCheckLoop hm with
  | (true, some reason) => [.warning ("检测到循环: " ++ reason)]
  | _ => []

/-- The while loop of `MobileAgentV2.stream`, by remaining step budget
(`remaining = max_steps - step_count`, so the loop guard
`step_count < max_steps` is `remaining > 0`); `c` is the current
`step_count`.  A cancellation seen at the top of the body raises
`CancelledError`, caught as the `cancelled` event.  Events of one
iteration are forwarded as yielded; if one of them is a finished `step`
the generator returns (no `done`); once the budget is exhausted the
single step-cap `done` event is emitted. -/
def streamSteps (envs : Nat → StepEnv) : Nat → Nat → HistoryState → List AgentEvent
  | 0, c, _ => [.done "已达到最大步数限制" c false]
  | remaining + 1, c, hm =>
    let env := envs c
    if env.cancelAtStart then [.cancelled "任务已取消"]
    else
      let warn := loopWarnEvents hm
      let events := stepEventsV2 (c + 1) env
      if events.any isFinishedStep then warn ++ events
      else warn ++ events ++ streamSteps envs remaining (c + 1) (stepHistoryV2 env hm)

/-- Entry of `MobileAgentV2.stream`: cleared history, `step_count = 0`,
full `max_steps` budget (the initial-screenshot failure and the `plan`
event precede the loop and are independent of the claims below). -/
def streamAgentLoop (maxSteps : Nat) (envs : Nat → StepEnv) (hm0 : HistoryState) :
    List AgentEvent :=
  streamSteps envs maxSteps 0 (historyClear hm0)

/-- Thinking events are neither `step` nor `done` events and are never
finished steps. -/
theorem thinking_events_inert (l : List String) :
    ((l.map AgentEvent.thinking).filter isDoneEvent) = []
      ∧ ((l.map AgentEvent.thinking).filter isStepEvent) = []
      ∧ ((l.map AgentEvent.thinking).any isFinishedStep) = false := by
  induction l with
  | nil => exact ⟨rfl, rfl, rfl⟩
  | cons c t _ih =>
    simp [isDoneEvent, isStepEvent, isFinishedStep]

/-- One executor call emits exactly one `step` event and no `done`
event. -/
theorem stepEventsV2_counts (n : Nat) (env : StepEnv) :
    ((stepEventsV2 n env).filter isDoneEvent) = []
      ∧ ((stepEventsV2 n env).filter isStepEvent).length = 1 := by
  unfold stepEventsV2
  rcases env.raisesExc with _ | msg
  · rcases env.parsed with _ | act
    · simp [isDoneEvent, isStepEvent, (thinking_events_inert env.thinkingChunks).1,
        (thinking_events_inert env.thinkingChunks).2.1]
    · simp [isDoneEvent, isStepEvent, (thinking_events_inert env.thinkingChunks).1,
        (thinking_events_inert env.thinkingChunks).2.1]
  · simp [isDoneEvent, isStepEvent]

/-- Loop warnings are neither `step` nor `done` events. -/
theorem loopWarnEvents_inert (hm : HistoryState) :
    ((loopWarnEvents hm).filter isDoneEvent) = []
      ∧ ((loopWarnEvents hm).filter isStepEvent) = [] := by
  unfold loopWarnEvents
  rcases h : historyCheckLoop hm with ⟨b, r⟩
  rcases b with _ | _
  · simp
  · rcases r with _ | reason
    · simp
    · simp [isDoneEvent, isStepEvent]

/-- C6: (1) whenever the Action Parser returns nothing for a step's model
output, `_execute_step_v2` emits — after the thinking chunks — exactly
one terminal `step` event with `success = false`, `finished = true`,
message "无法解析动作" ("cannot parse action"), and records nothing in
history; (2) the loop then forwards those events and stops: no further
step is executed and no `done` event follows, which ends the session. -/
theorem C6_parse_failure_terminal :
    (∀ (n : Nat) (env : StepEnv) (hm : HistoryState),
        env.raisesExc = none → env.parsed = none →
        stepEventsV2 n env
            = env.thinkingChunks.map AgentEvent.thinking
                ++ [.stepEv n false true "无法解析动作"]
          ∧ stepHistoryV2 env hm = hm)
      ∧ (∀ (envs : Nat → StepEnv) (r c : Nat) (hm : HistoryState),
          (envs c).cancelAtStart = false → (envs c).raisesExc = none →
          (envs c).parsed = none →
          streamSteps envs (r + 1) c hm
            = loopWarnEvents hm ++ stepEventsV2 (c + 1) (envs c)) := by
  constructor
  · intro n env hm h1 h2
    constructor
    · simp [stepEventsV2, h1, h2]
    · simp [stepHistoryV2, h1, h2]
  · intro envs r c hm hc h1 h2
    have hfin : ((stepEventsV2 (c + 1) (envs c)).any isFinishedStep) = true := by
      simp [stepEventsV2, h1, h2, (thinking_events_inert (envs c).thinkingChunks).2.2,
        isFinishedStep]
    simp only [streamSteps, hc, Bool.false_eq_true, if_false, hfin, if_pos]

/-- Witness for `C6_parse_failure_terminal`: a session whose model output
parses to nothing ends after the terminal parse-failure step, with step
budget remaining and no `done` event. -/
theorem C6_witness :
    stepEventsV2 1 ⟨false, none, ["t"], none, false, false, ""⟩
        = [.thinking "t", .stepEv 1 false true "无法解析动作"]
      ∧ streamSteps (fun _ => ⟨false, none, ["t"], none, false, false, ""⟩) 2 0
            ⟨50, [], 0, detectorNew 5 3 2⟩
          = loopWarnEvents ⟨50, [], 0, detectorNew 5 3 2⟩
              ++ stepEventsV2 1 ⟨false, none, ["t"], none, false, false, ""⟩ := by
  constructor
  · exact ((C6_parse_failure_terminal.1 1 ⟨false, none, ["t"], none, false, false, ""⟩
      ⟨50, [], 0, detectorNew 5 3 2⟩ rfl rfl).1).trans rfl
  · exact C6_parse_failure_terminal.2 (fun _ => ⟨false, none, ["t"], none, false, false, ""⟩)
      1 0 ⟨50, [], 0, detectorNew 5 3 2⟩ rfl rfl rfl

/-- Loop iterations each contribute at most one `step` event (general
step-cap bound, no hypotheses). -/
theorem streamSteps_step_bound (envs : Nat → StepEnv) :
    ∀ (r c : Nat) (hm : HistoryState),
      ((streamSteps envs r c hm).filter isStepEvent).length ≤ r := by
  intro r
  induction r with
  | zero => intro c hm; simp [streamSteps, isStepEvent]
  | succ n ih =>
    intro c hm
    simp only [streamSteps]
    by_cases hc : (envs c).cancelAtStart = true
    · simp [hc, isStepEvent]
    · simp only [Bool.not_eq_true] at hc
      simp only [hc, Bool.false_eq_true, if_false]
      by_cases hf : ((stepEventsV2 (c + 1) (envs c)).any isFinishedStep) = true
      · simp only [hf, if_pos, List.filter_append, List.length_append,
          (loopWarnEvents_inert hm).2]
        have := (stepEventsV2_counts (c + 1) (envs c)).2
        simp [this]
      · simp only [Bool.not_eq_true] at hf
        simp only [hf, Bool.false_eq_true, if_false, List.filter_append,
          List.length_append, (loopWarnEvents_inert hm).2]
        have h1 := (stepEventsV2_counts (c + 1) (envs c)).2
        have h2 := ih (c + 1) (stepHistoryV2 (envs c) hm)
        simp [h1]
        omega

/-- Helper: if no step ever reports finished and no cancellation
arrives, a loop entered with budget `r` at step count `c` runs exactly
`r` more steps and then emits exactly one step-cap
`done(success = false)` event, which is the final event. -/
theorem streamSteps_cap_exhausted (envs : Nat → StepEnv)
    (hcancel : ∀ k, (envs k).cancelAtStart = false)
    (hnofinish : ∀ k, ((stepEventsV2 (k + 1) (envs k)).any isFinishedStep) = false) :
    ∀ (r c : Nat) (hm : HistoryState),
      ((streamSteps envs r c hm).filter isDoneEvent)
          = [.done "已达到最大步数限制" (c + r) false]
        ∧ ((streamSteps envs r c hm).filter isStepEvent).length = r
        ∧ (streamSteps envs r c hm).getLast?
            = some (.done "已达到最大步数限制" (c + r) false) := by
  intro r
  induction r with
  | zero =>
    intro c hm
    refine ⟨by simp [streamSteps, isDoneEvent], by simp [streamSteps, isStepEvent], ?_⟩
    simp [streamSteps]
  | succ n ih =>
    intro c hm
    have hc := hcancel c
    have hf := hnofinish c
    simp only [streamSteps, hc, Bool.false_eq_true, if_false, hf]
    obtain ⟨ih1, ih2, ih3⟩ := ih (c + 1) (stepHistoryV2 (envs c) hm)
    have harith : c + 1 + n = c + (n + 1) := by omega
    rw [harith] at ih1
    rw [harith] at ih3
    refine ⟨?_, ?_, ?_⟩
    · simp [List.filter_append, (loopWarnEvents_inert hm).1,
        (stepEventsV2_counts (c + 1) (envs c)).1, ih1]
    · simp [List.filter_append, (loopWarnEvents_inert hm).2,
        (stepEventsV2_counts (c + 1) (envs c)).2, ih2]
      omega
    · have hne : streamSteps envs n (c + 1) (stepHistoryV2 (envs c) hm) ≠ [] := by
        intro hnil
        rw [hnil] at ih3
        simp at ih3
      rw [List.getLast?_append_of_ne_nil (loopWarnEvents hm ++ stepEventsV2 (c + 1) (envs c)) hne]
      exact ih3

/-- C7: the agent loop executes at most `max_steps` steps (unconditional
bound), and when no step reports `finished = true` (and no cancellation
arrives) it exits by step-cap after exactly `max_steps` steps, emitting
exactly one `done` event — `success = false`, message
"已达到最大步数限制" ("max steps reached"), `steps = max_steps` — as its
final event. -/
theorem C7_step_cap (maxSteps : Nat) (envs : Nat → StepEnv) (hm0 : HistoryState)
    (hcancel : ∀ k, (envs k).cancelAtStart = false)
    (hnofinish : ∀ k, ((stepEventsV2 (k + 1) (envs k)).any isFinishedStep) = false) :
    ((streamAgentLoop maxSteps envs hm0).filter isDoneEvent)
        = [.done "已达到最大步数限制" maxSteps false]
      ∧ ((streamAgentLoop maxSteps envs hm0).filter isStepEvent).length = maxSteps
      ∧ (streamAgentLoop maxSteps envs hm0).getLast?
          = some (.done "已达到最大步数限制" maxSteps false)
      ∧ (∀ (envs2 : Nat → StepEnv) (r c : Nat) (hm : HistoryState),
          ((streamSteps envs2 r c hm).filter isStepEvent).length ≤ r) := by
  obtain ⟨h1, h2, h3⟩ :=
    streamSteps_cap_exhausted envs hcancel hnofinish maxSteps 0 (historyClear hm0)
  rw [Nat.zero_add] at h1 h3
  exact ⟨h1, h2, h3, fun envs2 r c hm => streamSteps_step_bound envs2 r c hm⟩

/-- Witness for `C7_step_cap`: `max_steps = 2` with a model that answers
a non-finishing tap each step — two step events, then the single
step-cap `done`. -/
theorem C7_witness :
    ((streamAgentLoop 2 (fun _ => ⟨false, none, [], some ⟨false, "f", "k"⟩, true, false, "ok"⟩)
        ⟨50, [], 0, detectorNew 5 3 2⟩).filter isDoneEvent)
        = [.done "已达到最大步数限制" 2 false]
      ∧ ((streamAgentLoop 2 (fun _ => ⟨false, none, [], some ⟨false, "f", "k"⟩, true, false, "ok"⟩)
        ⟨50, [], 0, detectorNew 5 3 2⟩).filter isStepEvent).length = 2 := by
  have h := C7_step_cap 2 (fun _ => ⟨false, none, [], some ⟨false, "f", "k"⟩, true, false, "ok"⟩)
    ⟨50, [], 0, detectorNew 5 3 2⟩ (fun _ => rfl) (fun _ => rfl)
  exact ⟨h.1, h.2.1⟩

/-! ## Python values and the action space (`backend/app/agent/actions/space.py`)

`PyVal` models the dynamically-typed Python values flowing through
parameter maps and parsers.  Python `float` objects are carried as their
decimal literal: no claim below depends on float identity or float
arithmetic, and the comments mark the places where binary-float corner
behaviour is idealized. -/

/-- Dynamically-typed Python value. -/
inductive PyVal where
  | int (n : Int)
  | float (lit : String)
  | str (s : String)
  | bool (b : Bool)
  | none
  | list (xs : List PyVal)
  | dict (kvs : List (String × PyVal))

/-- Model of Python `str` on an `int`. -/
def pyIntRepr (n : Int) : String :=
  if n < 0 then "-" ++ pyNatRepr n.natAbs else pyNatRepr n.natAbs

/-- ASCII decimal digit test. -/
def isDigitCh (c : Char) : Bool := '0' ≤ c && c ≤ '9'

/-- Numeric value of a digit character. -/
def digitVal (c : Char) : Nat := c.toNat - 48

/-- Digit run to its value (`none` unless nonempty and all digits). -/
def digitsToNat (l : List Char) : Option Nat :=
  if l.isEmpty then Option.none
  else if l.all isDigitCh then some (l.foldl (fun a c => a * 10 + digitVal c) 0)
  else Option.none

/-- Model of Python `int(s)` on a string: surrounding whitespace is
stripped, an optional sign precedes ASCII digits (digit-grouping
underscores and non-ASCII digits are not modelled; no input below uses
them). -/
def pyIntParse (s : String) : Option Int :=
  match pyStripChars s.data with
  | '-' :: rest => (digitsToNat rest).map (fun n => -(Int.ofNat n))
  | '+' :: rest => (digitsToNat rest).map Int.ofNat
  | rest => (digitsToNat rest).map Int.ofNat

/-- Optional sign followed by a nonempty digit run. -/
def pySignedDigits : List Char → Bool
  | '-' :: r => !r.isEmpty && r.all isDigitCh
  | '+' :: r => !r.isEmpty && r.all isDigitCh
  | r => !r.isEmpty && r.all isDigitCh

/-- Exponent suffix of a float literal: empty, or `e`/`E`, optional sign,
digits. -/
def floatExpPart : List Char → Bool
  | [] => true
  | 'e' :: r => (pySignedDigits r)
  | 'E' :: r => (pySignedDigits r)
  | _ => false

/-- Mantissa-and-exponent body of a float literal. -/
def floatBody (l : List Char) : Bool :=
  let intp := l.takeWhile isDigitCh
  let rest := l.drop intp.length
  match rest with
  | '.' :: r2 =>
    let frac := r2.takeWhile isDigitCh
    (!intp.isEmpty || !frac.isEmpty) && floatExpPart (r2.drop frac.length)
  | r => !intp.isEmpty && floatExpPart r

/-- Model of Python `float(s)` acceptance on a string (sign, decimal
mantissa, optional exponent, `inf`/`infinity`/`nan`; underscores are not
modelled — no input below uses them). -/
def pyFloatAcceptable (s : String) : Bool :=
  let l := pyStripChars s.data
  let body := match l with
    | '-' :: r => r
    | '+' :: r => r
    | r => r
  let lower := body.map Char.toLower
  lower = ("inf").data || lower = ("infinity").data || lower = ("nan").data
    || floatBody body

/-- The closed action vocabulary (`ActionType` enum of
`actions/space.py`). -/
inductive MActionType where
  | click | long_click | double_click
  | swipe | scroll_up | scroll_down | scroll_left | scroll_right
  | typeText | clear
  | back | home | recent
  | wait
  | finish | fail
  | launch_app | press_key | screenshot
  | think | plan
  deriving DecidableEq, Repr

/-- The `.value` string of each enum member (`typeText` models the
member named `TYPE` with value "type"). -/
def actionTypeValue : MActionType → String
  | .click => "click"
  | .long_click => "long_click"
  | .double_click => "double_click"
  | .swipe => "swipe"
  | .scroll_up => "scroll_up"
  | .scroll_down => "scroll_down"
  | .scroll_left => "scroll_left"
  | .scroll_right => "scroll_right"
  | .typeText => "type"
  | .clear => "clear"
  | .back => "back"
  | .home => "home"
  | .recent => "recent"
  | .wait => "wait"
  | .finish => "finish"
  | .fail => "fail"
  | .launch_app => "launch_app"
  | .press_key => "press_key"
  | .screenshot => "screenshot"
  | .think => "think"
  | .plan => "plan"

/-- Every enum member (used for the `ActionType(value)` constructor
lookup). -/
def allActionTypes : List MActionType :=
  [.click, .long_click, .double_click, .swipe, .scroll_up, .scroll_down,
   .scroll_left, .scroll_right, .typeText, .clear, .back, .home, .recent,
   .wait, .finish, .fail, .launch_app, .press_key, .screenshot, .think, .plan]

/-- Python `ActionType(s)`: the member whose value is `s`, if any. -/
def actionTypeOfValue (s : String) : Option MActionType :=
  allActionTypes.find? (fun t => actionTypeValue t == s)

/-- Primitive parameter types used by the schemas (`param_type` holds a
Python `type` object). -/
inductive PType where
  | int | float | str | list
  deriving DecidableEq, Repr

/-- Python `type.__name__` for the schema types. -/
def ptypeName : PType → String
  | .int => "int"
  | .float => "float"
  | .str => "str"
  | .list => "list"

/-- Embedding of the `ActionParameter` dataclass.  The shipped schemas
use only integer bounds, so `min_value`/`max_value` are carried as
`Option Int`. -/
structure ActionParam where
  name : String
  paramType : PType
  required : Bool := true
  default : PyVal := .none
  description : String := ""
  minValue : Option Int := Option.none
  maxValue : Option Int := Option.none

/-- Embedding of the `ActionDefinition` dataclass. -/
structure MActionDef where
  actionType : MActionType
  description : String
  parameters : List ActionParam := []
  returnsResult : Bool := false
  requiresScreenshot : Bool := false

/-- Python `isinstance(value, param_type)` (`bool` is a subclass of
`int`). -/
def isInstanceOf (v : PyVal) : PType → Bool
  | .int => match v with
    | .int _ => true
    | .bool _ => true
    | _ => false
  | .float => match v with
    | .float _ => true
    | _ => false
  | .str => match v with
    | .str _ => true
    | _ => false
  | .list => match v with
    | .list _ => true
    | _ => false

/-- Integer value of a float literal of the form `[sign]digits[.digits]`
(truncation toward zero).  This idealizes `int(float)` by decimal
truncation — exact for every literal below; binary-rounding corner cases
are not exercised by any theorem. -/
def floatLitTruncInt (lit : String) : Option Int :=
  match pyStripChars lit.data with
  | '-' :: rest => (digitsToNat (rest.takeWhile isDigitCh)).map (fun n => -(Int.ofNat n))
  | rest => (digitsToNat (rest.takeWhile isDigitCh)).map Int.ofNat

/-- Python `str(value)` for the scalar values (lists/dicts are printed by
`pyReprOf` below). -/
def pyStrScalar : PyVal → Option String
  | .int n => some (pyIntRepr n)
  | .float lit => some lit
  | .str s => some s
  | .bool b => some (if b then "True" else "False")
  | .none => some "None"
  | _ => Option.none

mutual

/-- Approximate Python `repr`/`str` of containers (quote-choice quirks of
`repr` are not modelled; no theorem evaluates it). -/
def pyReprOf (v : PyVal) : String :=
  match v with
  | .int n => pyIntRepr n
  | .float lit => lit
  | .str s => "\x27" ++ s ++ "\x27"
  | .bool b => if b then "True" else "False"
  | .none => "None"
  | .list xs => "[" ++ pyReprSeq xs ++ "]"
  | .dict kvs => "\x7b" ++ pyReprFields kvs ++ "\x7d"

/-- Comma-joined reprs of a sequence. -/
def pyReprSeq (xs : List PyVal) : String :=
  match xs with
  | [] => ""
  | [x] => pyReprOf x
  | x :: rest => pyReprOf x ++ ", " ++ pyReprSeq rest

/-- Comma-joined reprs of dict items. -/
def pyReprFields (kvs : List (String × PyVal)) : String :=
  match kvs with
  | [] => ""
  | [(k, v)] => "\x27" ++ k ++ "\x27: " ++ pyReprOf v
  | (k, v) :: rest => "\x27" ++ k ++ "\x27: " ++ pyReprOf v ++ ", " ++ pyReprFields rest

end

/-- Python `param_type(value)` — the single coercion attempt of
`ActionParameter.validate`; `none` models the raised
`ValueError`/`TypeError` the source catches. -/
def pyCoerce (t : PType) (v : PyVal) : Option PyVal :=
  match t with
  | .int =>
    match v with
    | .int n => some (.int n)
    | .bool b => some (.int (if b then 1 else 0))
    | .str s => (pyIntParse s).map PyVal.int
    | .float lit => (floatLitTruncInt lit).map PyVal.int
    | _ => Option.none
  | .float =>
    match v with
    | .float lit => some (.float lit)
    | .int n => some (.float (pyIntRepr n ++ ".0"))
    | .bool b => some (.float (if b then "1.0" else "0.0"))
    | .str s => if pyFloatAcceptable s then some (.float s) else Option.none
    | _ => Option.none
  | .str =>
    match v with
    | .list xs => some (.str (pyReprOf (.list xs)))
    | .dict kvs => some (.str (pyReprOf (.dict kvs)))
    | w => (pyStrScalar w).map PyVal.str
  | .list =>
    match v with
    | .list xs => some (.list xs)
    | .str s => some (.list (s.data.map (fun c => .str (String.mk [c]))))
    | .dict kvs => some (.list (kvs.map (fun kv => .str kv.1)))
    | _ => Option.none

/-- Python `value < bound` against an integer bound; `none` models a
raising comparison (`TypeError`).  Float-to-int comparisons are legal in
Python but are modelled as raising: the shipped schemas put bounds only
on `int` parameters, where the compared value is always `int`/`bool`
(proved below), so the arm is unreachable in every theorem. -/
def pyLtIntOpt : PyVal → Int → Option Bool
  | .int n, m => some (decide (n < m))
  | .bool b, m => some (decide ((if b then (1 : Int) else 0) < m))
  | _, _ => Option.none

/-- Python `value > bound` against an integer bound (same modelling notes
as `pyLtIntOpt`). -/
def pyGtIntOpt : PyVal → Int → Option Bool
  | .int n, m => some (decide (m < n))
  | .bool b, m => some (decide (m < (if b then (1 : Int) else 0)))
  | _, _ => Option.none

/-- The max-bound arm of `ActionParameter.validate`. -/
def validateMaxBound (p : ActionParam) (v2 : PyVal) : Option (Bool × Option String) :=
  match p.maxValue with
  | Option.none => some (true, Option.none)
  | some m =>
    match pyGtIntOpt v2 m with
    | Option.none => Option.none
    | some true => some (false, some ("参数 \x27" ++ p.name ++ "\x27 不能大于 " ++ pyIntRepr m))
    | some false => some (true, Option.none)

/-- Discriminator for Python `value is None`. -/
def pyIsNone : PyVal → Bool
  | .none => true
  | _ => false

/-- The bounds section of `ActionParameter.validate` (min, then max,
inclusive); it consumes the possibly-coerced value. -/
def validateBoundsChecks (p : ActionParam) (v2 : PyVal) : Option (Bool × Option String) :=
  match p.minValue with
  | Option.none => validateMaxBound p v2
  | some m =>
    match pyLtIntOpt v2 m with
    | Option.none => Option.none
    | some true => some (false, some ("参数 \x27" ++ p.name ++ "\x27 不能小于 " ++ pyIntRepr m))
    | some false => validateMaxBound p v2

/-- Embedding of `ActionParameter.validate`: required check on `None`,
a single coercion attempt when the type does not match (its result is
used only by the bounds checks below — it is not written anywhere), then
inclusive bounds.  `none` models an uncaught `TypeError` from a bound
comparison. -/
def paramValidate (p : ActionParam) (v : PyVal) : Option (Bool × Option String) :=
  if pyIsNone v then
    if p.required then some (false, some ("参数 \x27" ++ p.name ++ "\x27 是必需的"))
    else some (true, Option.none)
  else
    match (if isInstanceOf v p.paramType then some v else pyCoerce p.paramType v) with
    | Option.none =>
      some (false, some ("参数 \x27" ++ p.name ++ "\x27 类型错误，期望 " ++ ptypeName p.paramType))
    | some v2 => validateBoundsChecks p v2

/-- Missing-required-parameter diagnostics of
`ActionDefinition.validate_params` (collected first, in schema order). -/
def requiredErrors (ps : List ActionParam) (params : List (String × PyVal)) : List String :=
  ps.filterMap (fun p =>
    if p.required && !(params.any (fun kv => kv.1 == p.name)) then
      some ("缺少必需参数: " ++ p.name)
    else Option.none)

/-- Per-parameter loop of `validate_params`: unknown names are
diagnosed, known names are validated by the first matching schema entry
(`next(p for p in self.parameters if p.name == name)`); `none`
propagates a raising `validate`.  An invalid result always carries a
message, so `getD ""` never substitutes. -/
def paramErrorsLoop (ps : List ActionParam) : List (String × PyVal) → Option (List String)
  | [] => some []
  | (name, v) :: t =>
    if !(ps.any (fun p => p.name == name)) then
      (paramErrorsLoop ps t).map (fun es => ("未知参数: " ++ name) :: es)
    else
      match ps.find? (fun p => p.name == name) with
      | Option.none => paramErrorsLoop ps t
      | some p =>
        match paramValidate p v with
        | Option.none => Option.none
        | some (true, _) => paramErrorsLoop ps t
        | some (false, err) => (paramErrorsLoop ps t).map (fun es => err.getD "" :: es)

/-- Embedding of `ActionDefinition.validate_params`: required-parameter
diagnostics, then the per-parameter pass; result is
`(len(errors) == 0, errors)`.  The parameter map is read, never written:
the source returns only this pair and the caller's map is untouched. -/
def validateParams (d : MActionDef) (params : List (String × PyVal)) :
    Option (Bool × List String) :=
  match paramErrorsLoop d.parameters params with
  | Option.none => Option.none
  | some perErrs =>
    let errs := requiredErrors d.parameters params ++ perErrs
    some (errs.isEmpty, errs)

/-- The standard action space (`ActionSpace.initialize`): click. -/
def clickDef : MActionDef :=
  { actionType := .click, description := "点击屏幕指定位置",
    parameters := [
      { name := "x", paramType := .int, description := "X坐标(0-1000)" },
      { name := "y", paramType := .int, description := "Y坐标(0-1000)" }],
    requiresScreenshot := true }

/-- Standard action space: long_click. -/
def longClickDef : MActionDef :=
  { actionType := .long_click, description := "长按屏幕指定位置",
    parameters := [
      { name := "x", paramType := .int, description := "X坐标(0-1000)" },
      { name := "y", paramType := .int, description := "Y坐标(0-1000)" },
      { name := "duration", paramType := .int, required := false, default := .int 1000,
        description := "长按持续时间(毫秒)", minValue := some 100, maxValue := some 5000 }],
    requiresScreenshot := true }

/-- Standard action space: double_click. -/
def doubleClickDef : MActionDef :=
  { actionType := .double_click, description := "双击屏幕指定位置",
    parameters := [
      { name := "x", paramType := .int, description := "X坐标(0-1000)" },
      { name := "y", paramType := .int, description := "Y坐标(0-1000)" }],
    requiresScreenshot := true }

/-- Standard action space: swipe. -/
def swipeDef : MActionDef :=
  { actionType := .swipe, description := "从一点滑动到另一点",
    parameters := [
      { name := "x1", paramType := .int, description := "起点X坐标(0-1000)" },
      { name := "y1", paramType := .int, description := "起点Y坐标(0-1000)" },
      { name := "x2", paramType := .int, description := "终点X坐标(0-1000)" },
      { name := "y2", paramType := .int, description := "终点Y坐标(0-1000)" },
      { name := "duration", paramType := .int, required := false, default := .int 300,
        description := "滑动持续时间(毫秒)", minValue := some 50, maxValue := some 5000 }],
    requiresScreenshot := true }

/-- Standard action space: the four scroll directions share this
parameter list. -/
def scrollParams : List ActionParam :=
  [{ name := "distance", paramType := .int, required := false, default := .int 500,
     description := "滚动距离", minValue := some 100, maxValue := some 2000 }]

/-- Standard action space: scroll_up. -/
def scrollUpDef : MActionDef :=
  { actionType := .scroll_up, description := "向上滚动",
    parameters := scrollParams, requiresScreenshot := true }

/-- Standard action space: scroll_down. -/
def scrollDownDef : MActionDef :=
  { actionType := .scroll_down, description := "向下滚动",
    parameters := scrollParams, requiresScreenshot := true }

/-- Standard action space: scroll_left. -/
def scrollLeftDef : MActionDef :=
  { actionType := .scroll_left, description := "向左滚动",
    parameters := scrollParams, requiresScreenshot := true }

/-- Standard action space: scroll_right. -/
def scrollRightDef : MActionDef :=
  { actionType := .scroll_right, description := "向右滚动",
    parameters := scrollParams, requiresScreenshot := true }

/-- Standard action space: type. -/
def typeDef : MActionDef :=
  { actionType := .typeText, description := "输入文字",
    parameters := [{ name := "text", paramType := .str, description := "要输入的文字" }],
    requiresScreenshot := true }

/-- Standard action space: clear. -/
def clearDef : MActionDef :=
  { actionType := .clear, description := "清空输入框",
    parameters := [
      { name := "x", paramType := .int, required := false, description := "输入框X坐标" },
      { name := "y", paramType := .int, required := false, description := "输入框Y坐标" }],
    requiresScreenshot := true }

/-- Standard action space: back. -/
def backDef : MActionDef :=
  { actionType := .back, description := "返回上一页", requiresScreenshot := true }

/-- Standard action space: home. -/
def homeDef : MActionDef :=
  { actionType := .home, description := "返回主页", requiresScreenshot := true }

/-- Standard action space: recent. -/
def recentDef : MActionDef :=
  { actionType := .recent, description := "显示最近任务", requiresScreenshot := true }

/-- Standard action space: wait. -/
def waitDef : MActionDef :=
  { actionType := .wait, description := "等待一段时间",
    parameters := [
      { name := "duration", paramType := .int, required := false, default := .int 1000,
        description := "等待时间(毫秒)", minValue := some 0, maxValue := some 60000 }] }

/-- Standard action space: finish. -/
def finishDef : MActionDef :=
  { actionType := .finish, description := "任务完成",
    parameters := [
      { name := "status", paramType := .str, required := false, default := .str "success",
        description := "完成状态: success/failed" },
      { name := "message", paramType := .str, required := false, default := .str "",
        description := "结果信息" }],
    returnsResult := true }

/-- Standard action space: fail. -/
def failDef : MActionDef :=
  { actionType := .fail, description := "任务失败",
    parameters := [{ name := "reason", paramType := .str, description := "失败原因" }],
    returnsResult := true }

/-- Standard action space: launch_app. -/
def launchAppDef : MActionDef :=
  { actionType := .launch_app, description := "启动应用",
    parameters := [
      { name := "package_name", paramType := .str, description := "应用包名" },
      { name := "activity", paramType := .str, required := false, default := .str "",
        description := "启动Activity" }],
    requiresScreenshot := true }

/-- Standard action space: press_key. -/
def pressKeyDef : MActionDef :=
  { actionType := .press_key, description := "按下物理按键",
    parameters := [{ name := "keycode", paramType := .int, description := "按键代码" }],
    requiresScreenshot := true }

/-- Standard action space: screenshot. -/
def screenshotDef : MActionDef :=
  { actionType := .screenshot, description := "截图", returnsResult := true }

/-- Standard action space: think. -/
def thinkDef : MActionDef :=
  { actionType := .think, description := "思考步骤",
    parameters := [{ name := "thought", paramType := .str, description := "思考内容" }] }

/-- Standard action space: plan. -/
def planDef : MActionDef :=
  { actionType := .plan, description := "制定计划",
    parameters := [{ name := "steps", paramType := .list, description := "计划步骤列表" }] }

/-- All definitions installed by `ActionSpace.initialize`. -/
def actionSpaceDefs : List MActionDef :=
  [clickDef, longClickDef, doubleClickDef, swipeDef, scrollUpDef, scrollDownDef,
   scrollLeftDef, scrollRightDef, typeDef, clearDef, backDef, homeDef, recentDef,
   waitDef, finishDef, failDef, launchAppDef, pressKeyDef, screenshotDef,
   thinkDef, planDef]

/-- Parameter schema puts numeric bounds only on `int` parameters (the
condition under which `validate` cannot raise). -/
def paramSafeB (p : ActionParam) : Bool :=
  (p.paramType == PType.int) || (p.minValue.isNone && p.maxValue.isNone)

/-- All parameters of a definition are bound-safe. -/
def defSafeB (d : MActionDef) : Bool := d.parameters.all paramSafeB

/-- A value passing `isinstance(·, int)` is an int or a bool. -/
theorem isInstance_int_shape (v : PyVal) (h : isInstanceOf v PType.int = true) :
    (∃ n, v = .int n) ∨ (∃ b, v = .bool b) := by
  cases v <;> simp [isInstanceOf] at h <;> simp

/-- Coercion to `int` only ever produces an int. -/
theorem pyCoerce_int_shape (v v2 : PyVal) (h : pyCoerce PType.int v = some v2) :
    ∃ n, v2 = .int n := by
  cases v <;> simp [pyCoerce] at h
  · exact ⟨_, h.symm⟩
  · obtain ⟨m, _, h2⟩ := h
    exact ⟨m, h2.symm⟩
  · obtain ⟨m, _, h2⟩ := h
    exact ⟨m, h2.symm⟩
  · exact ⟨_, h.symm⟩

/-- Int and bool values compare against integer bounds without
raising. -/
theorem intish_cmp_total (v2 : PyVal) (m : Int)
    (h : (∃ n, v2 = .int n) ∨ (∃ b, v2 = .bool b)) :
    (∃ b, pyLtIntOpt v2 m = some b) ∧ (∃ b, pyGtIntOpt v2 m = some b) := by
  rcases h with ⟨n, rfl⟩ | ⟨b, rfl⟩ <;> exact ⟨⟨_, rfl⟩, ⟨_, rfl⟩⟩

/-- The max-bound arm cannot raise when the compared value admits the
comparison. -/
theorem validateMaxBound_total (p : ActionParam) (v2 : PyVal)
    (hsome : ∀ m, ∃ b, pyGtIntOpt v2 m = some b) :
    ∃ r, validateMaxBound p v2 = some r := by
  unfold validateMaxBound
  split
  · exact ⟨_, rfl⟩
  · rename_i m _
    split
    · rename_i heq
      obtain ⟨b, hb⟩ := hsome m
      rw [hb] at heq
      exact Option.noConfusion heq
    · exact ⟨_, rfl⟩
    · exact ⟨_, rfl⟩

/-- The bounds checks cannot raise on a bound-safe parameter whose value
has int shape whenever the parameter is int-typed. -/
theorem validateBoundsChecks_total (p : ActionParam) (v2 : PyVal)
    (hp : paramSafeB p = true)
    (hshape : p.paramType = PType.int → (∃ n, v2 = .int n) ∨ (∃ b, v2 = .bool b)) :
    ∃ r, validateBoundsChecks p v2 = some r := by
  unfold paramSafeB at hp
  rcases Bool.or_eq_true_iff.mp hp with hint | hnone
  · have hi : p.paramType = PType.int := by simpa using hint
    have hcmp := fun m => intish_cmp_total v2 m (hshape hi)
    unfold validateBoundsChecks
    split
    · exact validateMaxBound_total p v2 (fun m => (hcmp m).2)
    · rename_i m _
      split
      · rename_i heq
        obtain ⟨b, hb⟩ := (hcmp m).1
        rw [hb] at heq
        exact Option.noConfusion heq
      · exact ⟨_, rfl⟩
      · exact validateMaxBound_total p v2 (fun m2 => (hcmp m2).2)
  · obtain ⟨hmin, hmax⟩ := Bool.and_eq_true_iff.mp hnone
    rw [Option.isNone_iff_eq_none] at hmin hmax
    unfold validateBoundsChecks
    rw [hmin]
    unfold validateMaxBound
    rw [hmax]
    exact ⟨_, rfl⟩

/-- `validate` never raises on a bound-safe parameter. -/
theorem paramValidate_total (p : ActionParam) (hp : paramSafeB p = true) (v : PyVal) :
    ∃ r, paramValidate p v = some r := by
  unfold paramValidate
  by_cases h0 : pyIsNone v = true
  · rw [if_pos h0]
    by_cases hr : p.required = true
    · rw [hr]; exact ⟨_, rfl⟩
    · simp only [Bool.not_eq_true] at hr
      rw [hr]; exact ⟨_, rfl⟩
  · simp only [Bool.not_eq_true] at h0
    rw [h0]
    simp only [Bool.false_eq_true, if_false]
    rcases hcv : (if isInstanceOf v p.paramType then some v else pyCoerce p.paramType v)
        with _ | v2
    · exact ⟨_, rfl⟩
    · refine validateBoundsChecks_total p v2 hp (fun hint => ?_)
      rw [hint] at hcv
      by_cases hins : isInstanceOf v PType.int = true
      · rw [if_pos hins] at hcv
        have hv : v = v2 := Option.some.inj hcv
        exact hv ▸ isInstance_int_shape v hins
      · rw [if_neg (by simp [hins])] at hcv
        exact Or.inl (pyCoerce_int_shape _ _ hcv)

/-- The per-parameter pass never raises when every schema parameter is
bound-safe. -/
theorem paramErrorsLoop_total (ps : List ActionParam)
    (hps : ps.all paramSafeB = true) :
    ∀ params : List (String × PyVal), ∃ es, paramErrorsLoop ps params = some es := by
  intro params
  induction params with
  | nil => exact ⟨[], rfl⟩
  | cons kv t ih =>
    obtain ⟨name, v⟩ := kv
    obtain ⟨es, hes⟩ := ih
    unfold paramErrorsLoop
    by_cases hk : (ps.any (fun p => p.name == name)) = true
    · simp only [hk, Bool.not_true, Bool.false_eq_true, if_false]
      split
      · exact ⟨es, hes⟩
      · rename_i p hfind
        have hmem : p ∈ ps := List.mem_of_find?_eq_some hfind
        have hsafe : paramSafeB p = true := by
          have := List.all_eq_true.mp hps
          exact this p hmem
        obtain ⟨⟨ok, err⟩, hr⟩ := paramValidate_total p hsafe v
        rw [hr]
        cases ok
        · exact ⟨_, by rw [hes]; rfl⟩
        · exact ⟨es, hes⟩
    · simp only [Bool.not_eq_true] at hk
      simp only [hk, Bool.not_false, if_pos]
      exact ⟨_, by rw [hes]; rfl⟩

/-- Modelled from the spec: "On coercion success the coerced value
replaces the raw value" — the parameter map as it would look after
validation if validation wrote coerced values back. -/
def specCoercedParams (d : MActionDef) (params : List (String × PyVal)) :
    List (String × PyVal) :=
  params.map (fun kv =>
    match d.parameters.find? (fun p => p.name == kv.1) with
    | Option.none => kv
    | some p =>
      if isInstanceOf kv.2 p.paramType then kv
      else
        match pyCoerce p.paramType kv.2 with
        | some v2 => (kv.1, v2)
        | Option.none => kv)

/-- C5 amended: (1) on every bound-safe action definition — which, by
(2), includes the whole shipped action space — validation of any
parameter map never raises, returning a success flag that is true
exactly when the diagnostics list is empty; (3) per-parameter coercion
is attempted exactly once and its result feeds only the bounds checks —
`validate_params` returns just `(ok, diagnostics)` and the caller's
parameter map is untouched, so the coerced value is discarded rather
than written back (see the counterexample). -/
theorem C5_amended :
    (∀ (d : MActionDef) (params : List (String × PyVal)), defSafeB d = true →
        ∃ ok errs, validateParams d params = some (ok, errs) ∧ (ok = true ↔ errs = []))
      ∧ actionSpaceDefs.all defSafeB = true
      ∧ (∀ (p : ActionParam) (v v2 : PyVal), pyIsNone v = false →
          isInstanceOf v p.paramType = false → pyCoerce p.paramType v = some v2 →
          paramValidate p v = validateBoundsChecks p v2) := by
  refine ⟨?_, by decide, ?_⟩
  · intro d params hd
    obtain ⟨es, hes⟩ := paramErrorsLoop_total d.parameters hd params
    unfold validateParams
    rw [hes]
    refine ⟨_, _, rfl, ?_⟩
    exact List.isEmpty_iff
  · intro p v v2 h0 hins hco
    unfold paramValidate
    rw [h0]
    simp only [Bool.false_eq_true, if_false]
    rw [hins]
    simp only [Bool.false_eq_true, if_false]
    rw [hco]

/-- Witness for `C5_amended`: the shipped click definition with an
integer coordinate — validation returns a flag/diagnostics pair. -/
theorem C5_witness :
    ∃ ok errs, validateParams clickDef [("x", PyVal.int 5)] = some (ok, errs)
      ∧ (ok = true ↔ errs = []) :=
  C5_amended.1 clickDef [("x", PyVal.int 5)] (by decide)

/-- C5 counterexample: validating click with the string coordinates
"100"/"200" succeeds through string-to-int coercion, yet
`validate_params` returns only `(True, [])` — the caller's parameter map
still holds the raw strings, whereas the claimed replacement semantics
(`specCoercedParams`, modelled from the spec) would have produced the
coerced integers: the two maps differ. -/
theorem C5_counterexample :
    validateParams clickDef [("x", PyVal.str "100"), ("y", PyVal.str "200")]
        = some (true, [])
      ∧ specCoercedParams clickDef [("x", PyVal.str "100"), ("y", PyVal.str "200")]
          = [("x", PyVal.int 100), ("y", PyVal.int 200)]
      ∧ specCoercedParams clickDef [("x", PyVal.str "100"), ("y", PyVal.str "200")]
          ≠ [("x", PyVal.str "100"), ("y", PyVal.str "200")] := by
  refine ⟨rfl, rfl, ?_⟩
  have h2 : specCoercedParams clickDef [("x", PyVal.str "100"), ("y", PyVal.str "200")]
      = [("x", PyVal.int 100), ("y", PyVal.int 200)] := rfl
  rw [h2]
  simp

/-! ## Model of `json.loads` / `json.dumps` (stdlib, used by the parsers)

A standard JSON reader over `List Char`, fuel-recursive so that `decide`
and `rfl` can evaluate it (fuel is decremented on each recursive call; at
least one character is consumed in between, so `length + 1` fuel always
suffices).  Objects are built with Python-dict semantics: first-occurrence
position, last-occurrence value. -/

/-- JSON whitespace. -/
def jsonWs (c : Char) : Bool := c = ' ' || c = '\t' || c = '\n' || c = '\x0d'

/-- Skip JSON whitespace. -/
def skipWs (l : List Char) : List Char := l.dropWhile jsonWs

/-- Hex digit value. -/
def hexVal (c : Char) : Option Nat :=
  if isDigitCh c then some (digitVal c)
  else if 'a' ≤ c && c ≤ 'f' then some (c.toNat - 87)
  else if 'A' ≤ c && c ≤ 'F' then some (c.toNat - 55)
  else Option.none

/-- Four hex digits to their value. -/
def parseHex4 : List Char → Option (Nat × List Char)
  | a :: b :: c :: d :: rest =>
    match hexVal a, hexVal b, hexVal c, hexVal d with
    | some x, some y, some z, some w => some (((x * 16 + y) * 16 + z) * 16 + w, rest)
    | _, _, _, _ => Option.none
  | _ => Option.none

/-- JSON string body after the opening quote: content and remainder past
the closing quote.  Escapes are decoded (`\uXXXX` via `Char.ofNat`;
surrogate-pair recombination is not modelled — no input below uses
astral escapes); raw control characters are rejected as in strict
`json.loads`. -/
def jsonUnescape (e : Char) : Option Char :=
  if e = '"' then some '"'
  else if e = '\\' then some '\\'
  else if e = '/' then some '/'
  else if e = 'b' then some '\x08'
  else if e = 'f' then some '\x0c'
  else if e = 'n' then some '\n'
  else if e = 'r' then some '\x0d'
  else if e = 't' then some '\t'
  else Option.none

/-- See the section comment; body of a JSON string literal. -/
def parseJStringBody : Nat → List Char → Option (List Char × List Char)
  | 0, _ => Option.none
  | fuel + 1, l =>
    match l with
    | [] => Option.none
    | c :: rest =>
      if c = '"' then some ([], rest)
      else if c = '\\' then
        match rest with
        | [] => Option.none
        | e :: r1 =>
          if e = 'u' then
            match parseHex4 r1 with
            | some (n, r2) =>
              (parseJStringBody fuel r2).map (fun (cs, r) => (Char.ofNat n :: cs, r))
            | Option.none => Option.none
          else
            match jsonUnescape e with
            | some d => (parseJStringBody fuel r1).map (fun (cs, r) => (d :: cs, r))
            | Option.none => Option.none
      else if c.toNat < 32 then Option.none
      else (parseJStringBody fuel rest).map (fun (cs, r) => (c :: cs, r))

/-- JSON number: integers become `int`, a fraction or exponent makes a
`float` carried as its literal. -/
def jNumFrac (r2 : List Char) : Option (List Char) × List Char :=
  match r2 with
  | [] => (Option.none, r2)
  | c :: r3 =>
    if c = '.' then
      let fd := r3.takeWhile isDigitCh
      if fd.isEmpty then (Option.none, r2) else (some fd, r3.drop fd.length)
    else (Option.none, r2)

def jNumExpTail (r4 : List Char) (r5 : List Char) : Bool × List Char :=
  match r5 with
  | '-' :: r6 =>
    let d := r6.takeWhile isDigitCh
    if d.isEmpty then (false, r4) else (true, r6.drop d.length)
  | '+' :: r6 =>
    let d := r6.takeWhile isDigitCh
    if d.isEmpty then (false, r4) else (true, r6.drop d.length)
  | r6 =>
    let d := r6.takeWhile isDigitCh
    if d.isEmpty then (false, r4) else (true, r6.drop d.length)

def jNumExp (r4 : List Char) : Bool × List Char :=
  match r4 with
  | [] => (false, r4)
  | c :: r5 =>
    if c = 'e' then jNumExpTail r4 r5
    else if c = 'E' then jNumExpTail r4 r5
    else (false, r4)

/-- See the section comment; JSON number token. -/
def parseJNumber (l : List Char) : Option (PyVal × List Char) :=
  let signed : Bool × List Char := match l with
    | [] => (false, l)
    | c :: r => if c = '-' then (true, r) else (false, c :: r)
  let neg := signed.1
  let l1 := signed.2
  let intDigits := l1.takeWhile isDigitCh
  if intDigits.isEmpty then Option.none
  else if intDigits.length > 1 && intDigits.headD '0' = '0' then Option.none
  else
    let r2 := l1.drop intDigits.length
    let fracPart := jNumFrac r2
    let expPart := jNumExp fracPart.2
    let rest := expPart.2
    if fracPart.1.isNone && !expPart.1 then
      let n := intDigits.foldl (fun a c => a * 10 + digitVal c) 0
      some (.int (if neg then -(Int.ofNat n) else Int.ofNat n), rest)
    else
      let consumed := l.take (l.length - rest.length)
      some (.float (String.mk consumed), rest)

/-- Python dict assignment `d[k] = v`: first-occurrence position,
last-occurrence value. -/
def pyDictSet (kvs : List (String × PyVal)) (k : String) (v : PyVal) :
    List (String × PyVal) :=
  match kvs with
  | [] => [(k, v)]
  | (k', v') :: t => if k' == k then (k', v) :: t else (k', v') :: pyDictSet t k v

/-- Fold JSON members into a Python dict. -/
def dictFromPairs (l : List (String × PyVal)) : List (String × PyVal) :=
  l.foldl (fun acc kv => pyDictSet acc kv.1 kv.2) []

/-- Python dict lookup `d.get(k)`. -/
def pyDictGet (kvs : List (String × PyVal)) (k : String) : Option PyVal :=
  (kvs.find? (fun kv => kv.1 == k)).map Prod.snd

/-- Python dict lookup with default `d.get(k, dflt)`. -/
def pyDictGetD (kvs : List (String × PyVal)) (k : String) (dflt : PyVal) : PyVal :=
  (pyDictGet kvs k).getD dflt

mutual

/-- JSON value parser. -/
def parseJValue : Nat → List Char → Option (PyVal × List Char)
  | 0, _ => Option.none
  | fuel + 1, l =>
    match skipWs l with
    | [] => Option.none
    | c :: rest =>
      if c = '"' then
        (parseJStringBody (rest.length + 1) rest).map (fun (cs, r) => (.str (String.mk cs), r))
      else if c = '{' then
        match skipWs rest with
        | '}' :: r2 => some (.dict [], r2)
        | _ => (parseJMembers fuel rest).map (fun (kvs, r) => (.dict (dictFromPairs kvs), r))
      else if c = '[' then
        match skipWs rest with
        | ']' :: r2 => some (.list [], r2)
        | _ => (parseJItems fuel rest).map (fun (xs, r) => (.list xs, r))
      else if c = 't' then
        (if ("rue").data.isPrefixOf rest then some (.bool true, rest.drop 3) else Option.none)
      else if c = 'f' then
        (if ("alse").data.isPrefixOf rest then some (.bool false, rest.drop 4) else Option.none)
      else if c = 'n' then
        (if ("ull").data.isPrefixOf rest then some (.none, rest.drop 3) else Option.none)
      else parseJNumber (c :: rest)

/-- JSON object members (at least one `"key": value`, comma-separated,
closed by `}`). -/
def parseJMembers : Nat → List Char → Option (List (String × PyVal) × List Char)
  | 0, _ => Option.none
  | fuel + 1, l =>
    match skipWs l with
    | '"' :: rest =>
      (match parseJStringBody (rest.length + 1) rest with
       | Option.none => Option.none
       | some (k, r1) =>
         match skipWs r1 with
         | ':' :: r2 =>
           (match parseJValue fuel r2 with
            | Option.none => Option.none
            | some (v, r3) =>
              match skipWs r3 with
              | ',' :: r4 =>
                (parseJMembers fuel r4).map (fun (kvs, r5) => ((String.mk k, v) :: kvs, r5))
              | '}' :: r4 => some ([(String.mk k, v)], r4)
              | _ => Option.none)
         | _ => Option.none)
    | _ => Option.none

/-- JSON array items (at least one value, comma-separated, closed by
`]`). -/
def parseJItems : Nat → List Char → Option (List PyVal × List Char)
  | 0, _ => Option.none
  | fuel + 1, l =>
    match parseJValue fuel l with
    | Option.none => Option.none
    | some (v, r1) =>
      match skipWs r1 with
      | ',' :: r2 => (parseJItems fuel r2).map (fun (xs, r3) => (v :: xs, r3))
      | ']' :: r2 => some ([v], r2)
      | _ => Option.none

end

/-- Model of `json.loads`: parse one value, allow trailing whitespace
only; `none` models the raised `JSONDecodeError`. -/
def pyJsonLoads (s : String) : Option PyVal :=
  match parseJValue (s.data.length + 1) s.data with
  | some (v, rest) => if (skipWs rest).isEmpty then some v else Option.none
  | Option.none => Option.none

/-! ## JSON sub-parser (`backend/app/agent/actions/parser.py`,
`JSONActionParser`) -/

/-- Python `s.lower().strip()` (ASCII lowering; the vocabulary is
ASCII). -/
def pyLowerStrip (s : String) : String :=
  String.mk (pyStripChars (s.data.map Char.toLower))

/-- The alias map of `_normalize_action_type`. -/
def aliasMap : List (String × MActionType) :=
  [("tap", .click), ("touch", .click), ("press", .click),
   ("long_press", .long_click), ("long_tap", .long_click),
   ("input", .typeText), ("enter", .typeText), ("write", .typeText),
   ("return", .back), ("exit", .back),
   ("main", .home), ("desktop", .home),
   ("apps", .recent), ("tasks", .recent),
   ("sleep", .wait), ("pause", .wait),
   ("done", .finish), ("complete", .finish), ("success", .finish),
   ("error", .fail), ("failed", .fail),
   ("open_app", .launch_app), ("start_app", .launch_app), ("launch", .launch_app),
   ("key", .press_key),
   ("capture", .screenshot),
   ("reflect", .think), ("reason", .think)]

/-- Embedding of `JSONActionParser._normalize_action_type`: lowercase and
strip, try the enum constructor, try the alias map, and otherwise
default to CLICK. -/
def normalizeActionType (actionStr : String) : MActionType :=
  let s := pyLowerStrip actionStr
  match actionTypeOfValue s with
  | some t => t
  | Option.none =>
    match aliasMap.find? (fun kv => kv.1 == s) with
    | some kv => kv.2
    | Option.none => .click

/-- Embedding of the `Action` dataclass as the JSON sub-parser builds it
(fields are dynamically typed; the `time.time()` timestamp is an external
input and is not carried). -/
structure MAction where
  actionType : MActionType
  params : PyVal
  reasoning : PyVal
  confidence : PyVal

/-- Python truthiness (`if not action_type_str`). -/
def pyFalsy : PyVal → Bool
  | .str s => s.isEmpty
  | .int n => n == 0
  | .bool b => !b
  | .none => true
  | .float lit =>
    let body := match pyStripChars lit.data with
      | '-' :: r => r
      | '+' :: r => r
      | r => r
    body.any isDigitCh && (body.filter isDigitCh).all (fun c => c = '0')
  | .list xs => xs.isEmpty
  | .dict kvs => kvs.isEmpty

/-- Result of running Python code that may raise an uncaught
exception. -/
inductive PyRes (α : Type) where
  | val (a : α)
  | raise

/-- Embedding of `JSONActionParser.parse`: `json.loads` on the stripped
input (decode failures are caught and yield `None`), non-dict data and a
missing/falsy `"action"` yield `None`, and otherwise an `Action` is built
with the normalized kind.  A non-string truthy `"action"` raises
`AttributeError` at `.lower()`, which the `except` clause does not
catch. -/
def jsonActionParse (raw : String) : PyRes (Option MAction) :=
  match pyJsonLoads (String.mk (pyStripChars raw.data)) with
  | Option.none => .val Option.none
  | some data =>
    match data with
    | .dict kvs =>
      (match pyDictGet kvs "action" with
       | Option.none => .val Option.none
       | some av =>
         if pyFalsy av then .val Option.none
         else
           match av with
           | .str s =>
             .val (some ⟨normalizeActionType s,
                         pyDictGetD kvs "params" (.dict []),
                         pyDictGetD kvs "reasoning" (pyDictGetD kvs "thought" (.str "")),
                         pyDictGetD kvs "confidence" (.float "1.0")⟩)
           | _ => .raise)
    | _ => .val Option.none

/-- C2 counterexample: for the action name "frobnicate" — not canonical
and not an alias — the JSON sub-parser does not fail: it produces a
CLICK action (the `_normalize_action_type` default), so downstream
sub-parsers never get to retry. -/
theorem C2_counterexample :
    jsonActionParse "\x7b\"action\": \"frobnicate\"\x7d"
      = .val (some ⟨MActionType.click, PyVal.dict [], PyVal.str "", PyVal.float "1.0"⟩) := by
  rfl

/-- C2 amended: for any action name that, after lowering/stripping, is
neither a canonical action kind nor an alias-map key,
`_normalize_action_type` returns CLICK — the sub-parser succeeds with a
click action instead of failing. -/
theorem C2_unknown_kind_defaults_to_click (s : String)
    (hcanon : actionTypeOfValue (pyLowerStrip s) = Option.none)
    (halias : aliasMap.find? (fun kv => kv.1 == pyLowerStrip s) = Option.none) :
    normalizeActionType s = MActionType.click := by
  unfold normalizeActionType
  simp only []
  rw [hcanon, halias]

/-- Witness for `C2_unknown_kind_defaults_to_click` at "frobnicate". -/
theorem C2_witness : normalizeActionType "frobnicate" = MActionType.click :=
  C2_unknown_kind_defaults_to_click "frobnicate" (by decide) (by decide)

/-! ## Protocol adapters (`backend/app/agent/protocol_adapter.py`)

The three adapters' `format_action`/`parse_action` pairs.  Regular
expressions are embedded by their operational semantics on the concrete
patterns: for these patterns (maximal runs followed by literals) the
regex engine never backtracks, so each is a deterministic scan. -/

/-- Python regex `\w` (ASCII range; every name scanned below is
ASCII). -/
def isWordChar (c : Char) : Bool := c.isAlpha || isDigitCh c || c = '_'

/-- Characters allowed in the `[^,\s]*` value alternative. -/
def notCommaSpaceB (c : Char) : Bool := !(c = ',') && !(isPySpace c)

/-- A captured parameter value of the AutoGLM pattern
`(\w+)=(?:"([^"]*)"|([^,\s]*))`: group 2 (quoted) or group 3 (plain). -/
inductive VGroup where
  | quoted (content : List Char)
  | plain (content : List Char)
  deriving Repr, DecidableEq

/-- One attempted match of `(\w+)=(?:"([^"]*)"|([^,\s]*))` anchored at
the start of `l`: the key run must be nonempty and followed by `=`; a
quote opens the first alternative only if it closes (the character after
a maximal `[^"]*` run is the closing quote whenever one exists),
otherwise the second alternative consumes from the quote character on.
Returns the captured key/value and the remainder after the match. -/
def kvMatchAt (l : List Char) : Option (String × VGroup × List Char) :=
  let key := l.takeWhile isWordChar
  if key.isEmpty then Option.none
  else
    match l.drop key.length with
    | [] => Option.none
    | c0 :: r2 =>
      if c0 = '=' then
        match r2 with
        | [] => some (String.mk key, .plain [], [])
        | c :: r3 =>
          if c = '"' then
            match r3.drop (r3.takeWhile (fun d => !(d = '"'))).length with
            | [] =>
              let tok := (c :: r3).takeWhile notCommaSpaceB
              some (String.mk key, .plain tok, (c :: r3).drop tok.length)
            | _ :: r4 => some (String.mk key, .quoted (r3.takeWhile (fun d => !(d = '"'))), r4)
          else
            let tok := (c :: r3).takeWhile notCommaSpaceB
            some (String.mk key, .plain tok, (c :: r3).drop tok.length)
      else Option.none

/-- A successful anchored match consumes at least the key and the equals
sign. -/
theorem kvMatchAt_shrinks (l : List Char) (k : String) (g : VGroup) (rest : List Char)
    (h : kvMatchAt l = some (k, g, rest)) : rest.length < l.length := by
  have hklen0 : (l.takeWhile isWordChar).length ≤ l.length :=
    (@List.takeWhile_sublist _ l isWordChar).length_le
  unfold kvMatchAt at h
  simp only [] at h
  split at h
  · exact Option.noConfusion h
  · rename_i hk
    have hklen : 1 ≤ (l.takeWhile isWordChar).length := by
      rcases he : l.takeWhile isWordChar with _ | ⟨c, t⟩
      · rw [he] at hk; simp at hk
      · simp
    split at h
    · exact Option.noConfusion h
    · rename_i c0 r2 hd
      have hdlen : r2.length + 1 = l.length - (l.takeWhile isWordChar).length := by
        have h5 := List.length_drop (l.takeWhile isWordChar).length l
        rw [hd] at h5
        simp only [List.length_cons] at h5
        omega
      split at h
      · split at h
        · have hrest : ([] : List Char) = rest := congrArg (fun p => p.2.2) (Option.some.inj h)
          rw [← hrest]
          simp only [List.length_nil]
          omega
        · rename_i c r3
          have htok : ((c :: r3).takeWhile notCommaSpaceB).length ≤ (c :: r3).length :=
            (@List.takeWhile_sublist _ (c :: r3) notCommaSpaceB).length_le
          split at h
          · split at h
            · have hrest := congrArg (fun p => p.2.2) (Option.some.inj h)
              simp only at hrest
              rw [← hrest]
              rw [List.length_drop]
              simp only [List.length_cons] at hdlen ⊢
              omega
            · rename_i c4 r4 hcl
              have hrest : r4 = rest := congrArg (fun p => p.2.2) (Option.some.inj h)
              subst hrest
              have h6 : (r3.drop (r3.takeWhile (fun d => !(d = '"'))).length).length ≤ r3.length := by
                rw [List.length_drop]; omega
              rw [hcl] at h6
              simp only [List.length_cons] at h6 hdlen
              omega
          · have hrest := congrArg (fun p => p.2.2) (Option.some.inj h)
            simp only at hrest
            rw [← hrest]
            rw [List.length_drop]
            simp only [List.length_cons] at hdlen ⊢
            omega
      · exact Option.noConfusion h

/-- `re.finditer` of the parameter pattern: leftmost matches,
non-overlapping, scanning resumes after each match (a position inside a
key run can never start a match, so advancing one character on failure
is equivalent). -/
def findKVs (l : List Char) : List (String × VGroup) :=
  match l with
  | [] => []
  | c :: rest =>
    match hm : kvMatchAt (c :: rest) with
    | some r => (r.1, r.2.1) :: findKVs r.2.2
    | Option.none => findKVs rest
termination_by l.length
decreasing_by
  · exact kvMatchAt_shrinks _ _ _ _ hm
  · simp

/-- Value coercion of the adapters' parsers: `float` is attempted when
the token contains a dot, otherwise `int`; a `ValueError` leaves the
string. -/
def coerceParamValue (s : String) : PyVal :=
  if s.data.contains '.' then
    (if pyFloatAcceptable s then .float s else .str s)
  else
    match pyIntParse s with
    | some n => .int n
    | Option.none => .str s

/-- The `params[key] = value` loop of `AutoGLMAdapter.parse_action`,
including its `AttributeError` on an empty quoted value (the falsy
group 2 makes Python take `group(3)`, which is `None`, and `'.' in None`
raises). -/
def buildParamsLoop (items : List (String × VGroup)) : PyRes (List (String × PyVal)) :=
  items.foldl
    (fun acc kv =>
      match acc with
      | .raise => .raise
      | .val d =>
        match kv.2 with
        | .quoted c => if c.isEmpty then .raise
            else .val (pyDictSet d kv.1 (coerceParamValue (String.mk c)))
        | .plain c => .val (pyDictSet d kv.1 (coerceParamValue (String.mk c))))
    (.val [])

/-- Embedding of the `AdaptedAction` dataclass (fields dynamically
typed). -/
structure AdaptedAct where
  action_type : PyVal
  params : PyVal
  raw_output : String
  confidence : PyVal
  reasoning : PyVal

/-- The anchored match of `re.match(r'(\w+)\(([^)]*)\)', raw)`: maximal
word run, literal `(`, the run up to the first `)` (which must exist). -/
def callMatchAt (l : List Char) : Option (List Char × List Char) :=
  let name := l.takeWhile isWordChar
  if name.isEmpty then Option.none
  else
    match l.drop name.length with
    | [] => Option.none
    | c0 :: r2 =>
      if c0 = '(' then
        match r2.drop (r2.takeWhile (fun d => !(d = ')'))).length with
        | [] => Option.none
        | _ :: _ => some (name, r2.takeWhile (fun d => !(d = ')')))
      else Option.none

/-- Python `str(value)` as used by the adapters' f-strings. -/
def pyStrOfVal (v : PyVal) : String :=
  match pyStrScalar v with
  | some s => s
  | Option.none => pyReprOf v

/-- JSON string escaping of `json.dumps` (`\uXXXX` for other control
characters is not modelled — no formatted value contains them). -/
def jsonEscapeChar (c : Char) : List Char :=
  if c = '"' then ['\\', '"']
  else if c = '\\' then ['\\', '\\']
  else if c = '\n' then ['\\', 'n']
  else if c = '\t' then ['\\', 't']
  else if c = '\x0d' then ['\\', 'r']
  else if c = '\x08' then ['\\', 'b']
  else if c = '\x0c' then ['\\', 'f']
  else [c]

/-- Escape a whole string. -/
def jsonEscape (l : List Char) : List Char := (l.map jsonEscapeChar).flatten

mutual

/-- Model of `json.dumps(·, ensure_ascii=False)` (the adapters'
formatting; the `ensure_ascii=True` default of the AutoGLM fallback
branch differs only on non-ASCII text, which no theorem exercises). -/
def pyJsonDumps (v : PyVal) : String :=
  match v with
  | .int n => pyIntRepr n
  | .float lit => lit
  | .str s => "\"" ++ String.mk (jsonEscape s.data) ++ "\""
  | .bool b => if b then "true" else "false"
  | .none => "null"
  | .list xs => "[" ++ pyJsonDumpsSeq xs ++ "]"
  | .dict kvs => "\x7b" ++ pyJsonDumpsFields kvs ++ "\x7d"

/-- Comma-joined dumps of array items. -/
def pyJsonDumpsSeq (xs : List PyVal) : String :=
  match xs with
  | [] => ""
  | [x] => pyJsonDumps x
  | x :: rest => pyJsonDumps x ++ ", " ++ pyJsonDumpsSeq rest

/-- Comma-joined dumps of object members. -/
def pyJsonDumpsFields (kvs : List (String × PyVal)) : String :=
  match kvs with
  | [] => ""
  | [(k, v)] => "\"" ++ String.mk (jsonEscape k.data) ++ "\": " ++ pyJsonDumps v
  | (k, v) :: rest =>
    "\"" ++ String.mk (jsonEscape k.data) ++ "\": " ++ pyJsonDumps v ++ ", "
      ++ pyJsonDumpsFields rest

end


/-- `AutoGLMAdapter.format_action`: per-kind f-string formats; other
kinds fall back to `json.dumps` (whose `ensure_ascii` default differs
from the model only on non-ASCII text, unexercised). -/
def autoglmFormatAction (t : String) (params : List (String × PyVal)) : String :=
  if t = "click" then
    "click(x=" ++ pyStrOfVal (pyDictGetD params "x" (.int 0))
      ++ ", y=" ++ pyStrOfVal (pyDictGetD params "y" (.int 0)) ++ ")"
  else if t = "long_click" then
    "long_click(x=" ++ pyStrOfVal (pyDictGetD params "x" (.int 0))
      ++ ", y=" ++ pyStrOfVal (pyDictGetD params "y" (.int 0))
      ++ ", duration=" ++ pyStrOfVal (pyDictGetD params "duration" (.int 1000)) ++ ")"
  else if t = "swipe" then
    "swipe(x1=" ++ pyStrOfVal (pyDictGetD params "x1" (.int 0))
      ++ ", y1=" ++ pyStrOfVal (pyDictGetD params "y1" (.int 0))
      ++ ", x2=" ++ pyStrOfVal (pyDictGetD params "x2" (.int 0))
      ++ ", y2=" ++ pyStrOfVal (pyDictGetD params "y2" (.int 0)) ++ ")"
  else if t = "type" then
    "type(text=\"" ++ pyStrOfVal (pyDictGetD params "text" (.str "")) ++ "\")"
  else if t = "back" then "back()"
  else if t = "home" then "home()"
  else if t = "recent" then "recent()"
  else if t = "wait" then
    "wait(duration=" ++ pyStrOfVal (pyDictGetD params "duration" (.int 1000)) ++ ")"
  else if t = "finish" then
    "finish(status=" ++ pyStrOfVal (pyDictGetD params "status" (.str "success")) ++ ")"
  else pyJsonDumps (.dict [("action", .str t), ("params", .dict params)])

/-- `AutoGLMAdapter.parse_action`: the anchored call match on the
stripped input with the parameter scan, else the JSON fallback. -/
def autoglmParseAction (raw : String) : PyRes (Option AdaptedAct) :=
  match callMatchAt (pyStripChars raw.data) with
  | some nameInner =>
    (match buildParamsLoop (findKVs nameInner.2) with
     | .raise => .raise
     | .val d =>
       .val (some ⟨.str (String.mk nameInner.1), .dict d, raw, .float "1.0", .str ""⟩))
  | Option.none =>
    match pyJsonLoads raw with
    | some (PyVal.dict kvs) =>
      .val (some ⟨pyDictGetD kvs "action" (.str ""), pyDictGetD kvs "params" (.dict []),
                  raw, .float "1.0", pyDictGetD kvs "reasoning" (.str "")⟩)
    | _ => .val Option.none

/-- `GelabAdapter.format_action`: XML lines joined by newlines. -/
def gelabFormatAction (t : String) (params : List (String × PyVal)) : String :=
  "<action type=\"" ++ t ++ "\">"
    ++ String.join (params.map (fun kv =>
        "\n  <" ++ kv.1 ++ ">" ++ pyStrOfVal kv.2 ++ "</" ++ kv.1 ++ ">"))
    ++ "\n</action>"

/-- First occurrence split: the part before the first occurrence of
`pat` and the part after it. -/
def splitAtSub : List Char → List Char → Option (List Char × List Char)
  | [], pat => if pat.isPrefixOf ([] : List Char) then some ([], []) else Option.none
  | c :: rest, pat =>
    if pat.isPrefixOf (c :: rest) then some ([], (c :: rest).drop pat.length)
    else (splitAtSub rest pat).map (fun p => (c :: p.1, p.2))

/-- Anchored match of `<action\s+type="(\w+)"[^>]*>(.*?)</action>` (with
DOTALL): each literal/run is forced, and the lazy group ends at the
first closing tag. -/
def gelabMatchAt (l : List Char) : Option (List Char × List Char) :=
  if ("<action").data.isPrefixOf l then
    let r1 := l.drop 7
    let ws := r1.takeWhile isPySpace
    if ws.isEmpty then Option.none
    else
      let r2 := r1.drop ws.length
      if ("type=\"").data.isPrefixOf r2 then
        let r3 := r2.drop 6
        let name := r3.takeWhile isWordChar
        if name.isEmpty then Option.none
        else
          match r3.drop name.length with
          | [] => Option.none
          | c4 :: r4 =>
            if c4 = '"' then
              match r4.drop (r4.takeWhile (fun d => !(d = '>'))).length with
              | [] => Option.none
              | _ :: r5 => (splitAtSub r5 ("</action>").data).map (fun p => (name, p.1))
            else Option.none
      else Option.none
  else Option.none

/-- `re.search` for the Gelab action element: first start position where
the anchored match succeeds. -/
def gelabSearch : List Char → Option (List Char × List Char)
  | [] => Option.none
  | c :: rest =>
    match gelabMatchAt (c :: rest) with
    | some r => some r
    | Option.none => gelabSearch rest

/-- Anchored match of the parameter pattern `<(\w+)>([^<]*)</\1>`
(backreference: the closing tag must repeat the opening name). -/
def tagMatchAt (l : List Char) : Option (String × List Char × List Char) :=
  match l with
  | [] => Option.none
  | c :: rest =>
    if c = '<' then
      let name := rest.takeWhile isWordChar
      if name.isEmpty then Option.none
      else
        match rest.drop name.length with
        | [] => Option.none
        | c2 :: r2 =>
          if c2 = '>' then
            let content := r2.takeWhile (fun d => !(d = '<'))
            let r3 := r2.drop content.length
            if (('<' :: '/' :: name) ++ ['>']).isPrefixOf r3 then
              some (String.mk name, content, r3.drop (name.length + 3))
            else Option.none
          else Option.none
    else Option.none

/-- A successful tag match stays within the scanned suffix. -/
theorem tagMatchAt_shrinks (l : List Char) (k : String) (c : List Char) (rest : List Char)
    (h : tagMatchAt l = some (k, c, rest)) : rest.length < l.length := by
  unfold tagMatchAt at h
  split at h
  · exact Option.noConfusion h
  · rename_i c0 r0
    simp only [] at h
    split at h
    · split at h
      · exact Option.noConfusion h
      · split at h
        · exact Option.noConfusion h
        · rename_i c2 r2 hd
          split at h
          · split at h
            · have hrest := congrArg (fun p => p.2.2) (Option.some.inj h)
              simp only at hrest
              have h1 : rest.length ≤ (r2.drop (r2.takeWhile (fun d => !(d = '<'))).length).length := by
                rw [← hrest, List.length_drop]
                omega
              have h2 : (r2.drop (r2.takeWhile (fun d => !(d = '<'))).length).length ≤ r2.length := by
                rw [List.length_drop]; omega
              have h3 : r2.length + 1 = r0.length - (r0.takeWhile isWordChar).length := by
                have h5 := List.length_drop (r0.takeWhile isWordChar).length r0
                rw [hd] at h5
                simp only [List.length_cons] at h5
                omega
              have h4 : (r0.takeWhile isWordChar).length ≤ r0.length :=
                (@List.takeWhile_sublist _ r0 isWordChar).length_le
              simp only [List.length_cons]
              omega
            · exact Option.noConfusion h
          · exact Option.noConfusion h
    · exact Option.noConfusion h

/-- `re.finditer` of the Gelab parameter pattern. -/
def findTags (l : List Char) : List (String × List Char) :=
  match l with
  | [] => []
  | c :: rest =>
    match hm : tagMatchAt (c :: rest) with
    | some r => (r.1, r.2.1) :: findTags r.2.2
    | Option.none => findTags rest
termination_by l.length
decreasing_by
  · exact tagMatchAt_shrinks _ _ _ _ hm
  · simp

/-- `GelabAdapter.parse_action`: the XML search with coerced parameters,
else the JSON fallback. -/
def gelabParseAction (raw : String) : Option AdaptedAct :=
  match gelabSearch raw.data with
  | some nameContent =>
    let d := (findTags nameContent.2).foldl
      (fun acc kv => pyDictSet acc kv.1 (coerceParamValue (String.mk kv.2))) []
    some ⟨.str (String.mk nameContent.1), .dict d, raw, .float "1.0", .str ""⟩
  | Option.none =>
    match pyJsonLoads raw with
    | some (PyVal.dict kvs) =>
      some ⟨pyDictGetD kvs "action" (.str ""), pyDictGetD kvs "params" (.dict []),
            raw, .float "1.0", .str ""⟩
    | _ => Option.none

/-- `UniversalAdapter.format_action`: `json.dumps` of the two-key
action/params object. -/
def universalFormatAction (t : String) (params : List (String × PyVal)) : String :=
  pyJsonDumps (.dict [("action", .str t), ("params", .dict params)])

/-- The greedy `\{[\s\S]*\}` span: first opening brace through last
closing brace, when that span exists. -/
def braceSpan (l : List Char) : Option (List Char) :=
  match l.dropWhile (fun c => !(c = '\x7b')) with
  | [] => Option.none
  | l1 =>
    match l1.reverse.dropWhile (fun c => !(c = '\x7d')) with
    | [] => Option.none
    | r => some r.reverse

/-- `UniversalAdapter.parse_action`: direct `json.loads` when it yields a
dict; otherwise the brace-span extraction (whose `data.get` raises
`AttributeError` when that second decode yields a non-dict). -/
def universalParseAction (raw : String) : PyRes (Option AdaptedAct) :=
  match pyJsonLoads raw with
  | some (PyVal.dict kvs) =>
    .val (some ⟨pyDictGetD kvs "action" (.str ""), pyDictGetD kvs "params" (.dict []),
                raw, .float "1.0", pyDictGetD kvs "reasoning" (.str "")⟩)
  | _ =>
    match braceSpan raw.data with
    | Option.none => .val Option.none
    | some span =>
      match pyJsonLoads (String.mk span) with
      | some (PyVal.dict kvs) =>
        .val (some ⟨pyDictGetD kvs "action" (.str ""), pyDictGetD kvs "params" (.dict []),
                    raw, .float "1.0", pyDictGetD kvs "reasoning" (.str "")⟩)
      | some _ => .raise
      | Option.none => .val Option.none

/-! ## Round-trip lemma kit: characters, digit runs, `int()`/`str` inverses -/

/-- `takeWhile` passes over a block that satisfies the predicate. -/
theorem takeWhile_append_all (p : Char → Bool) (a b : List Char)
    (h : a.all p = true) : (a ++ b).takeWhile p = a ++ b.takeWhile p := by
  induction a with
  | nil => simp
  | cons c t ih =>
    simp only [List.all_cons, Bool.and_eq_true] at h
    simp [List.takeWhile_cons, h.1, ih h.2]

/-- `dropWhile` consumes a block that satisfies the predicate. -/
theorem dropWhile_append_all (p : Char → Bool) (a b : List Char)
    (h : a.all p = true) : (a ++ b).dropWhile p = b.dropWhile p := by
  induction a with
  | nil => simp
  | cons c t ih =>
    simp only [List.all_cons, Bool.and_eq_true] at h
    simp [List.dropWhile_cons, h.1, ih h.2]

/-- `strip()` is the identity when neither end character is whitespace. -/
theorem pyStrip_eq_self (l : List Char)
    (hh : ∀ c, l.head? = some c → isPySpace c = false)
    (hl : ∀ c, l.getLast? = some c → isPySpace c = false) :
    pyStripChars l = l := by
  unfold pyStripChars
  have h1 : l.dropWhile isPySpace = l := by
    cases l with
    | nil => rfl
    | cons c t =>
      have := hh c rfl
      simp [List.dropWhile_cons, this]
  rw [h1]
  have h2 : l.reverse.dropWhile isPySpace = l.reverse := by
    cases hr : l.reverse with
    | nil => rfl
    | cons c t =>
      have hc : l.getLast? = some c := by
        rw [← List.head?_reverse, hr]; rfl
      have := hl c hc
      simp [List.dropWhile_cons, this]
  rw [h2, List.reverse_reverse]

/-- Digit characters sit in the ASCII range 48–57. -/
theorem isDigitCh_toNat (c : Char) (h : isDigitCh c = true) :
    48 ≤ c.toNat ∧ c.toNat ≤ 57 := by
  simp only [isDigitCh, Bool.and_eq_true, decide_eq_true_eq] at h
  exact ⟨h.1, h.2⟩

/-- A digit is never one of the structural characters the adapters key
on. -/
theorem isDigitCh_ne (c : Char) (h : isDigitCh c = true) (d : Char)
    (hd : d.toNat < 48 ∨ 57 < d.toNat) : ¬ c = d := by
  intro e
  subst e
  have := isDigitCh_toNat c h
  omega

/-- A digit is a word character. -/
theorem isDigitCh_word (c : Char) (h : isDigitCh c = true) :
    isWordChar c = true := by
  simp [isWordChar, h]

/-- A digit is not Python whitespace. -/
theorem isDigitCh_not_space (c : Char) (h : isDigitCh c = true) :
    isPySpace c = false := by
  have hb := isDigitCh_toNat c h
  simp only [isPySpace, Bool.or_eq_false_iff, decide_eq_false_iff_not]
  refine ⟨⟨⟨⟨⟨?_, ?_⟩, ?_⟩, ?_⟩, ?_⟩, ?_⟩ <;> (rintro rfl; simp_all)

/-- A digit survives the `[^,\s]*` value alternative. -/
theorem isDigitCh_notCommaSpace (c : Char) (h : isDigitCh c = true) :
    notCommaSpaceB c = true := by
  simp only [notCommaSpaceB, Bool.and_eq_true, Bool.not_eq_true',
    decide_eq_false_iff_not]
  exact ⟨isDigitCh_ne c h ',' (by left; decide), isDigitCh_not_space c h⟩

/-- A digit is not JSON whitespace. -/
theorem isDigitCh_not_jsonWs (c : Char) (h : isDigitCh c = true) :
    jsonWs c = false := by
  have hb := isDigitCh_toNat c h
  simp only [jsonWs, Bool.or_eq_false_iff, decide_eq_false_iff_not]
  refine ⟨⟨⟨?_, ?_⟩, ?_⟩, ?_⟩ <;> (rintro rfl; simp_all)

/-- `digitCh` of a value below ten is a digit character, its value
recovers the input, and it is `'0'` only at zero. -/
theorem digitCh_spec (n : Nat) (h : n < 10) :
    isDigitCh (digitCh n) = true ∧ digitVal (digitCh n) = n
      ∧ (1 ≤ n → ¬ digitCh n = '0') := by
  interval_cases n <;> exact ⟨by decide, by decide, by intro h1; first | omega | decide⟩

/-- Complete characterisation of the fuel-driven digit expansion: digits
only, nonempty, positional value, and no leading zero on positive
input. -/
theorem natDigitsAux_spec : ∀ (f n : Nat), n < f →
    (natDigitsAux f n).all isDigitCh = true
      ∧ natDigitsAux f n ≠ []
      ∧ (∀ a : Nat, (natDigitsAux f n).foldl (fun acc c => acc * 10 + digitVal c) a
          = a * 10 ^ (natDigitsAux f n).length + n)
      ∧ (1 ≤ n → ∀ c, (natDigitsAux f n).head? = some c → ¬ c = '0') := by
  intro f
  induction f with
  | zero => intro n h; omega
  | succ f ih =>
    intro n h
    by_cases h10 : n < 10
    · have hd := digitCh_spec n h10
      refine ⟨?_, ?_, ?_, ?_⟩
      · simp [natDigitsAux, h10, hd.1]
      · simp [natDigitsAux, h10]
      · intro a
        simp [natDigitsAux, h10, hd.2.1]
      · intro h1 c hc
        simp only [natDigitsAux, if_pos h10, List.head?_cons, Option.some.injEq] at hc
        rw [← hc]
        exact hd.2.2 h1
    · have hdiv : n / 10 < f := by
        have := Nat.div_lt_self (by omega : 0 < n) (by omega : 1 < 10)
        omega
      obtain ⟨ha, hne, hf, hz⟩ := ih (n / 10) hdiv
      have hmod := digitCh_spec (n % 10) (Nat.mod_lt n (by omega))
      have heq : natDigitsAux (f + 1) n
          = natDigitsAux f (n / 10) ++ [digitCh (n % 10)] := by
        simp [natDigitsAux, h10]
      refine ⟨?_, ?_, ?_, ?_⟩
      · rw [heq]; simp [List.all_append, ha, hmod.1]
      · rw [heq]; simp
      · intro a
        rw [heq, List.foldl_append, hf a]
        simp only [List.foldl_cons, List.foldl_nil, List.length_append,
          List.length_cons, List.length_nil]
        rw [hmod.2.1]
        ring_nf
        rw [Nat.add_assoc]
        congr 1
        omega
      · intro _ c hc
        rw [heq] at hc
        rcases he : natDigitsAux f (n / 10) with _ | ⟨d, t⟩
        · exact absurd he hne
        · rw [he] at hc
          simp only [List.cons_append, List.head?_cons, Option.some.injEq] at hc
          have h1 : 1 ≤ n / 10 := Nat.one_le_div_iff (by omega) |>.mpr (by omega)
          exact hc ▸ hz h1 d (by rw [he]; rfl)

/-- The digit expansion of `n` consists of digits. -/
theorem natDigits_all (n : Nat) : (natDigits n).all isDigitCh = true :=
  (natDigitsAux_spec (n + 1) n (by omega)).1

/-- The digit expansion is nonempty. -/
theorem natDigits_ne_nil (n : Nat) : natDigits n ≠ [] :=
  (natDigitsAux_spec (n + 1) n (by omega)).2.1

/-- Horner evaluation of the digit expansion recovers `n`. -/
theorem natDigits_foldl (n : Nat) :
    (natDigits n).foldl (fun acc c => acc * 10 + digitVal c) 0 = n := by
  have := (natDigitsAux_spec (n + 1) n (by omega)).2.2.1 0
  simpa using this

/-- Positive numbers print without a leading zero. -/
theorem natDigits_head_ne_zero (n : Nat) (h : 1 ≤ n) (c : Char)
    (hc : (natDigits n).head? = some c) : ¬ c = '0' :=
  (natDigitsAux_spec (n + 1) n (by omega)).2.2.2 h c hc

/-- `int()` of the printed digits of `n` parses back to `n`. -/
theorem digitsToNat_natDigits (n : Nat) : digitsToNat (natDigits n) = some n := by
  unfold digitsToNat
  rw [if_neg (by simp [List.isEmpty_iff, natDigits_ne_nil n]),
    if_pos (natDigits_all n), natDigits_foldl n]

/-- Characters of `str(x)` for an integer `x`: a sign or digits. -/
theorem pyIntRepr_data (x : Int) :
    (pyIntRepr x).data
      = if x < 0 then '-' :: natDigits x.natAbs else natDigits x.natAbs := by
  unfold pyIntRepr pyNatRepr
  split <;> simp [String.data_append]

/-- Every character of a printed integer is the sign or a digit. -/
theorem intRepr_chars (x : Int) :
    ∀ c ∈ (pyIntRepr x).data, c = '-' ∨ isDigitCh c = true := by
  intro c hc
  rw [pyIntRepr_data] at hc
  have hall := natDigits_all x.natAbs
  rw [List.all_eq_true] at hall
  by_cases hx : x < 0
  · rw [if_pos hx] at hc
    rcases List.mem_cons.mp hc with hc | hc
    · exact Or.inl hc
    · exact Or.inr (hall c hc)
  · rw [if_neg hx] at hc
    exact Or.inr (hall c hc)

/-- `int()` on a strip-result starting with a character other than a
sign. -/
theorem pyIntParse_of_unsigned (s : String) (c : Char) (t : List Char)
    (h : pyStripChars s.data = c :: t) (h1 : ¬ c = '-') (h2 : ¬ c = '+') :
    pyIntParse s = (digitsToNat (c :: t)).map Int.ofNat := by
  unfold pyIntParse
  rw [h]
  split
  · rename_i heq; rw [List.cons.injEq] at heq; exact absurd heq.1 h1
  · rename_i heq; rw [List.cons.injEq] at heq; exact absurd heq.1 h2
  · rfl

/-- `int()` on a strip-result starting with a minus sign. -/
theorem pyIntParse_of_neg (s : String) (t : List Char)
    (h : pyStripChars s.data = '-' :: t) :
    pyIntParse s = (digitsToNat t).map (fun n => -(Int.ofNat n)) := by
  unfold pyIntParse
  rw [h]
  rfl

/-- Stripping the printed integer is a no-op. -/
theorem pyStrip_intRepr (x : Int) :
    pyStripChars (pyIntRepr x).data = (pyIntRepr x).data := by
  apply pyStrip_eq_self
  · intro c hc
    have hmem : c ∈ (pyIntRepr x).data :=
      List.mem_of_mem_head? (Option.mem_def.mpr hc)
    rcases intRepr_chars x c hmem with h | h
    · rw [h]; rfl
    · exact isDigitCh_not_space c h
  · intro c hc
    have hmem : c ∈ (pyIntRepr x).data := List.mem_of_getLast?_eq_some hc
    rcases intRepr_chars x c hmem with h | h
    · rw [h]; rfl
    · exact isDigitCh_not_space c h

/-- `int(str(x)) = x`. -/
theorem pyIntParse_intRepr (x : Int) : pyIntParse (pyIntRepr x) = some x := by
  by_cases hx : x < 0
  · have hd : (pyIntRepr x).data = '-' :: natDigits x.natAbs := by
      rw [pyIntRepr_data, if_pos hx]
    rw [pyIntParse_of_neg (pyIntRepr x) (natDigits x.natAbs)
      (by rw [pyStrip_intRepr, hd]), digitsToNat_natDigits]
    simp only [Option.map_some', Option.some.injEq, Int.ofNat_eq_coe]
    omega
  · have hd : (pyIntRepr x).data = natDigits x.natAbs := by
      rw [pyIntRepr_data, if_neg hx]
    rcases hn : natDigits x.natAbs with _ | ⟨c, t⟩
    · exact absurd hn (natDigits_ne_nil x.natAbs)
    · have hdig : isDigitCh c = true := by
        have hall := natDigits_all x.natAbs
        rw [hn, List.all_cons, Bool.and_eq_true] at hall
        exact hall.1
      rw [pyIntParse_of_unsigned (pyIntRepr x) c t
          (by rw [pyStrip_intRepr, hd, hn])
          (isDigitCh_ne c hdig '-' (by left; decide))
          (isDigitCh_ne c hdig '+' (by left; decide)),
        ← hn, digitsToNat_natDigits]
      simp only [Option.map_some', Option.some.injEq, Int.ofNat_eq_coe]
      omega

/-- A printed integer contains no dot. -/
theorem intRepr_no_dot (x : Int) : (pyIntRepr x).data.contains '.' = false := by
  rw [List.contains_eq_any_beq]
  rw [List.any_eq_false]
  intro c hc
  rcases intRepr_chars x c hc with h | h
  · rw [h]; decide
  · have hne : ¬ ('.' : Char) = c :=
      fun e => isDigitCh_ne c h '.' (by left; decide) e.symm
    exact fun hb => hne (beq_iff_eq.mp hb)

/-- The adapters' value coercion inverts integer printing. -/
theorem coerce_intRepr (x : Int) :
    coerceParamValue (pyIntRepr x) = PyVal.int x := by
  unfold coerceParamValue
  rw [if_neg (by rw [intRepr_no_dot]; exact Bool.false_ne_true), pyIntParse_intRepr]

/-- `takeWhile` that consumes `a` entirely and stops at the head of
`b`. -/
theorem takeWhile_stop (p : Char → Bool) (a b : List Char)
    (ha : a.all p = true) (hb : b.takeWhile p = []) :
    (a ++ b).takeWhile p = a := by
  rw [takeWhile_append_all _ _ _ ha, hb, List.append_nil]

/-- Char-class lift to printed integers. -/
theorem intRepr_all (x : Int) (p : Char → Bool) (hminus : p '-' = true)
    (hdig : ∀ c, isDigitCh c = true → p c = true) :
    (pyIntRepr x).data.all p = true := by
  rw [List.all_eq_true]
  intro c hc
  rcases intRepr_chars x c hc with h | h
  · rw [h]; exact hminus
  · exact hdig c h

/-- The parameter pattern matches a plain (unquoted) `key=value` at the
front. -/
theorem kvMatchAt_plain (key : List Char) (t0 : Char) (tok' rest : List Char)
    (hw : key.all isWordChar = true) (hk : key ≠ [])
    (ht : (t0 :: tok').all notCommaSpaceB = true) (ht0 : ¬ t0 = '"')
    (hstop : rest.takeWhile notCommaSpaceB = []) :
    kvMatchAt (key ++ ('=' :: ((t0 :: tok') ++ rest)))
      = some (String.mk key, VGroup.plain (t0 :: tok'), rest) := by
  have h1 : (key ++ ('=' :: ((t0 :: tok') ++ rest))).takeWhile isWordChar = key := by
    rw [takeWhile_append_all _ _ _ hw, List.takeWhile_cons,
      show isWordChar '=' = false from by decide]
    simp
  have h2 : (key ++ ('=' :: ((t0 :: tok') ++ rest))).drop key.length
      = '=' :: ((t0 :: tok') ++ rest) := List.drop_left key _
  have h3 : (t0 :: (tok' ++ rest)).takeWhile notCommaSpaceB = t0 :: tok' := by
    rw [List.takeWhile_cons]
    simp only [List.all_cons, Bool.and_eq_true] at ht
    rw [ht.1, if_pos rfl, takeWhile_stop _ _ _ ht.2 hstop]
  have h4 : (t0 :: (tok' ++ rest)).drop (t0 :: tok').length = rest := by
    simp only [List.length_cons, List.drop_succ_cons]
    exact List.drop_left tok' rest
  unfold kvMatchAt
  simp only [h1, h2]
  rw [if_neg (by simp [List.isEmpty_iff, hk])]
  split
  · split
    · rename_i heq
      exact absurd heq (by simp)
    · rename_i c r3 heq
      rw [List.cons_append, List.cons.injEq] at heq
      obtain ⟨hc, hr⟩ := heq
      subst hc
      subst hr
      rw [if_neg ht0]
      rw [h3, h4]
  · rename_i heq
    exact absurd trivial heq

/-- The parameter pattern matches a quoted `key="value"` at the
front. -/
theorem kvMatchAt_quoted (key content rest : List Char)
    (hw : key.all isWordChar = true) (hk : key ≠ [])
    (hc : content.all (fun d => !(d = '"')) = true) :
    kvMatchAt (key ++ ('=' :: '"' :: (content ++ ('"' :: rest))))
      = some (String.mk key, VGroup.quoted content, rest) := by
  have h1 : (key ++ ('=' :: '"' :: (content ++ ('"' :: rest)))).takeWhile isWordChar
      = key := by
    rw [takeWhile_append_all _ _ _ hw, List.takeWhile_cons,
      show isWordChar '=' = false from by decide]
    simp
  have h2 : (key ++ ('=' :: '"' :: (content ++ ('"' :: rest)))).drop key.length
      = '=' :: '"' :: (content ++ ('"' :: rest)) := List.drop_left key _
  have h5 : (content ++ ('"' :: rest)).takeWhile (fun d => !(d = '"')) = content := by
    rw [takeWhile_stop _ _ _ hc]
    rw [List.takeWhile_cons]
    simp
  have h6 : (content ++ ('"' :: rest)).drop content.length = '"' :: rest :=
    List.drop_left content _
  unfold kvMatchAt
  simp only [h1, h2]
  rw [if_neg (by simp [List.isEmpty_iff, hk])]
  split
  · split
    · rename_i heq
      rw [h5, h6] at heq
      simp at heq
    · rename_i c r3 heq
      rw [h5, h6] at heq
      rw [List.cons.injEq] at heq
      obtain ⟨_, hr⟩ := heq
      subst hr
      rw [h5]
  · rename_i heq
    exact absurd trivial heq

/-- No parameter match can start on a non-word character. -/
theorem kvMatchAt_nonword (c : Char) (rest : List Char)
    (h : isWordChar c = false) : kvMatchAt (c :: rest) = Option.none := by
  unfold kvMatchAt
  rw [List.takeWhile_cons, h]
  simp

/-- Unfolding equation of the parameter scan at a successful match. -/
theorem findKVs_match_of (l : List Char) (r : String × VGroup × List Char)
    (h : kvMatchAt l = some r) :
    findKVs l = (r.1, r.2.1) :: findKVs r.2.2 := by
  cases l with
  | nil =>
    have : kvMatchAt ([] : List Char) = Option.none := by
      unfold kvMatchAt; rfl
    rw [this] at h
    exact Option.noConfusion h
  | cons c rest =>
    conv_lhs => unfold findKVs
    split
    · rename_i r2 h2
      rw [h] at h2
      cases h2
      rfl
    · rename_i h2
      rw [h] at h2
      exact Option.noConfusion h2

/-- Unfolding equation of the parameter scan at a failed position. -/
theorem findKVs_skip_of (c : Char) (rest : List Char)
    (h : kvMatchAt (c :: rest) = Option.none) :
    findKVs (c :: rest) = findKVs rest := by
  conv_lhs => unfold findKVs
  split
  · rename_i r2 h2
    rw [h] at h2
    exact Option.noConfusion h2
  · rfl

/-- The scan of the empty remainder finds nothing. -/
theorem findKVs_nil_eq : findKVs [] = [] := by
  unfold findKVs
  rfl

/-- A printed integer is nonempty. -/
theorem intRepr_ne_nil (x : Int) : (pyIntRepr x).data ≠ [] := by
  rw [pyIntRepr_data]
  split
  · simp
  · exact natDigits_ne_nil x.natAbs

/-- No character of a printed integer equals a given non-sign,
non-digit character. -/
theorem intRepr_char_ne (x : Int) (d : Char) (hd : ¬ d = '-')
    (hd2 : d.toNat < 48 ∨ 57 < d.toNat) :
    ∀ c ∈ (pyIntRepr x).data, ¬ c = d := by
  intro c hc
  rcases intRepr_chars x c hc with h | h
  · rw [h]; exact fun e => hd e.symm
  · exact isDigitCh_ne c h d hd2

/-- The call pattern `(\w+)\(([^)]*)\)` matches its literal shape. -/
theorem callMatchAt_shape (name inner rest : List Char)
    (hw : name.all isWordChar = true) (hne : name ≠ [])
    (hin : inner.all (fun d => !(d = ')')) = true) :
    callMatchAt (name ++ ('(' :: (inner ++ (')' :: rest)))) = some (name, inner) := by
  have h1 : (name ++ ('(' :: (inner ++ (')' :: rest)))).takeWhile isWordChar = name := by
    rw [takeWhile_append_all _ _ _ hw, List.takeWhile_cons,
      show isWordChar '(' = false from by decide]
    simp
  have h2 : (name ++ ('(' :: (inner ++ (')' :: rest)))).drop name.length
      = '(' :: (inner ++ (')' :: rest)) := List.drop_left name _
  have h3 : (inner ++ (')' :: rest)).takeWhile (fun d => !(d = ')')) = inner := by
    rw [takeWhile_append_all _ _ _ hin, List.takeWhile_cons]
    simp
  unfold callMatchAt
  simp only [h1, h2, h3]
  rw [if_neg (by simp [List.isEmpty_iff, hne])]
  simp only [List.drop_left]
  rfl

/-- Scan of a single trailing plain parameter. -/
theorem findKVs_one_plain (key : List Char) (t0 : Char) (tok' : List Char)
    (hw : key.all isWordChar = true) (hk : key ≠ [])
    (ht : (t0 :: tok').all notCommaSpaceB = true) (ht0 : ¬ t0 = '"') :
    findKVs (key ++ ('=' :: (t0 :: tok')))
      = [(String.mk key, VGroup.plain (t0 :: tok'))] := by
  have hkv := kvMatchAt_plain key t0 tok' [] hw hk ht ht0 rfl
  rw [List.append_nil] at hkv
  rw [findKVs_match_of _ _ hkv, findKVs_nil_eq]

/-- Scan of a single trailing quoted parameter. -/
theorem findKVs_one_quoted (key content : List Char)
    (hw : key.all isWordChar = true) (hk : key ≠ [])
    (hc : content.all (fun d => !(d = '"')) = true) :
    findKVs (key ++ ('=' :: '"' :: (content ++ ['"'])))
      = [(String.mk key, VGroup.quoted content)] := by
  have hkv := kvMatchAt_quoted key content [] hw hk hc
  rw [findKVs_match_of _ _ hkv, findKVs_nil_eq]

/-- Scan step over one plain parameter followed by `", "` and more
text. -/
theorem findKVs_cons_plain (key : List Char) (t0 : Char) (tok' rest2 : List Char)
    (hw : key.all isWordChar = true) (hk : key ≠ [])
    (ht : (t0 :: tok').all notCommaSpaceB = true) (ht0 : ¬ t0 = '"') :
    findKVs (key ++ ('=' :: ((t0 :: tok') ++ (',' :: ' ' :: rest2))))
      = (String.mk key, VGroup.plain (t0 :: tok')) :: findKVs rest2 := by
  have hkv := kvMatchAt_plain key t0 tok' (',' :: ' ' :: rest2) hw hk ht ht0
    (by rw [List.takeWhile_cons, show notCommaSpaceB ',' = false from by decide]; simp)
  rw [findKVs_match_of _ _ hkv,
    findKVs_skip_of ',' _ (kvMatchAt_nonword ',' _ (by decide)),
    findKVs_skip_of ' ' _ (kvMatchAt_nonword ' ' _ (by decide))]

/-- Evaluation of `AutoGLMAdapter.parse_action` along a successful call
match whose parameter scan builds `d`. -/
theorem autoglmParse_eval (raw : String) (name inner : List Char)
    (d : List (String × PyVal))
    (hm : callMatchAt (pyStripChars raw.data) = some (name, inner))
    (hb : buildParamsLoop (findKVs inner) = PyRes.val d) :
    autoglmParseAction raw
      = PyRes.val (some
          ⟨PyVal.str (String.mk name), PyVal.dict d, raw,
           PyVal.float "1.0", PyVal.str ""⟩) := by
  unfold autoglmParseAction
  rw [hm]
  conv_lhs => whnf
  rw [hb]

/-- AutoGLM round-trip on `click` with integer coordinates. -/
theorem autoglm_click_roundtrip (x y : Int) :
    autoglmParseAction (autoglmFormatAction "click" [("x", PyVal.int x), ("y", PyVal.int y)])
      = PyRes.val (some
          ⟨PyVal.str "click", PyVal.dict [("x", PyVal.int x), ("y", PyVal.int y)],
           autoglmFormatAction "click" [("x", PyVal.int x), ("y", PyVal.int y)],
           PyVal.float "1.0", PyVal.str ""⟩) := by
  have hfmt : autoglmFormatAction "click" [("x", PyVal.int x), ("y", PyVal.int y)]
      = "click(x=" ++ pyIntRepr x ++ ", y=" ++ pyIntRepr y ++ ")" := rfl
  have hdata : (autoglmFormatAction "click" [("x", PyVal.int x), ("y", PyVal.int y)]).data
      = 'c' :: 'l' :: 'i' :: 'c' :: 'k' :: '(' :: 'x' :: '=' ::
          ((pyIntRepr x).data
            ++ (',' :: ' ' :: 'y' :: '=' :: ((pyIntRepr y).data ++ [')']))) := by
    rw [hfmt]
    simp only [String.data_append, List.append_assoc]
    rfl
  have hsplit : (autoglmFormatAction "click" [("x", PyVal.int x), ("y", PyVal.int y)]).data
      = ('c' :: 'l' :: 'i' :: 'c' :: 'k' :: '(' :: 'x' :: '=' ::
          ((pyIntRepr x).data ++ (',' :: ' ' :: 'y' :: '=' :: (pyIntRepr y).data)))
        ++ [')'] := by
    rw [hdata]
    simp [List.append_assoc]
  have hstrip : pyStripChars
      (autoglmFormatAction "click" [("x", PyVal.int x), ("y", PyVal.int y)]).data
      = (autoglmFormatAction "click" [("x", PyVal.int x), ("y", PyVal.int y)]).data := by
    apply pyStrip_eq_self
    · intro c hc
      rw [hdata] at hc
      simp only [List.head?_cons, Option.some.injEq] at hc
      rw [← hc]
      rfl
    · intro c hc
      rw [hsplit, List.getLast?_concat, Option.some.injEq] at hc
      rw [← hc]
      rfl
  obtain ⟨a0, as, hrx⟩ := List.exists_cons_of_ne_nil (intRepr_ne_nil x)
  obtain ⟨b0, bs, hry⟩ := List.exists_cons_of_ne_nil (intRepr_ne_nil y)
  have hax : (a0 :: as).all notCommaSpaceB = true := by
    rw [← hrx]
    exact intRepr_all x _ (by decide) isDigitCh_notCommaSpace
  have hby : (b0 :: bs).all notCommaSpaceB = true := by
    rw [← hry]
    exact intRepr_all y _ (by decide) isDigitCh_notCommaSpace
  have ha0 : ¬ a0 = '"' :=
    intRepr_char_ne x '"' (by decide) (by left; decide) a0
      (by rw [hrx]; exact List.mem_cons_self _ _)
  have hb0 : ¬ b0 = '"' :=
    intRepr_char_ne y '"' (by decide) (by left; decide) b0
      (by rw [hry]; exact List.mem_cons_self _ _)
  have hinx : (pyIntRepr x).data.all (fun d => !(d = ')')) = true :=
    intRepr_all x _ (by decide)
      (fun c h => by
        simp only [Bool.not_eq_true', decide_eq_false_iff_not]
        exact isDigitCh_ne c h ')' (by left; decide))
  have hiny : (pyIntRepr y).data.all (fun d => !(d = ')')) = true :=
    intRepr_all y _ (by decide)
      (fun c h => by
        simp only [Bool.not_eq_true', decide_eq_false_iff_not]
        exact isDigitCh_ne c h ')' (by left; decide))
  have hcall := callMatchAt_shape ['c', 'l', 'i', 'c', 'k']
    ('x' :: '=' :: ((pyIntRepr x).data ++ (',' :: ' ' :: 'y' :: '=' :: (pyIntRepr y).data)))
    [] (by decide) (by simp)
    (by simp [List.all_cons, List.all_append, hinx, hiny])
  simp only [List.cons_append, List.nil_append, List.append_assoc] at hcall
  have hfind : findKVs
      ('x' :: '=' :: ((pyIntRepr x).data ++ (',' :: ' ' :: 'y' :: '=' :: (pyIntRepr y).data)))
      = [(String.mk ['x'], VGroup.plain (pyIntRepr x).data),
         (String.mk ['y'], VGroup.plain (pyIntRepr y).data)] := by
    rw [hrx, hry]
    simp only [List.cons_append]
    have h1 := findKVs_cons_plain ['x'] a0 as ('y' :: '=' :: (b0 :: bs))
      (by decide) (by simp) hax ha0
    simp only [List.cons_append, List.nil_append] at h1
    rw [h1]
    have h2 := findKVs_one_plain ['y'] b0 bs (by decide) (by simp) hby hb0
    simp only [List.cons_append, List.nil_append] at h2
    rw [h2]
  have hbuild0 : buildParamsLoop
      [(String.mk ['x'], VGroup.plain (pyIntRepr x).data),
       (String.mk ['y'], VGroup.plain (pyIntRepr y).data)]
      = PyRes.val [(String.mk ['x'], coerceParamValue (pyIntRepr x)),
                   (String.mk ['y'], coerceParamValue (pyIntRepr y))] := rfl
  have hbuild : buildParamsLoop
      [(String.mk ['x'], VGroup.plain (pyIntRepr x).data),
       (String.mk ['y'], VGroup.plain (pyIntRepr y).data)]
      = PyRes.val [("x", PyVal.int x), ("y", PyVal.int y)] := by
    rw [hbuild0, coerce_intRepr, coerce_intRepr]
  have := autoglmParse_eval
    (autoglmFormatAction "click" [("x", PyVal.int x), ("y", PyVal.int y)])
    ['c', 'l', 'i', 'c', 'k']
    ('x' :: '=' :: ((pyIntRepr x).data ++ (',' :: ' ' :: 'y' :: '=' :: (pyIntRepr y).data)))
    [("x", PyVal.int x), ("y", PyVal.int y)]
    (by rw [hstrip, hdata]; exact hcall)
    (by rw [hfind]; exact hbuild)
  rw [this]

/-- AutoGLM round-trip on the parameterless `back`. -/
theorem autoglm_back_roundtrip :
    autoglmParseAction (autoglmFormatAction "back" [])
      = PyRes.val (some
          ⟨PyVal.str "back", PyVal.dict [], autoglmFormatAction "back" [],
           PyVal.float "1.0", PyVal.str ""⟩) :=
  autoglmParse_eval (autoglmFormatAction "back" []) ['b', 'a', 'c', 'k'] [] []
    (by rfl) (by rw [findKVs_nil_eq]; rfl)

/-- AutoGLM parse of its own formatted `type(text="…")` for a nonempty
text without quotes or closing parens: the text comes back through the
value coercion. -/
theorem autoglm_type_parse (s : String)
    (hne : s.data ≠ [])
    (hq : s.data.all (fun d => !(d = '"')) = true)
    (hp : s.data.all (fun d => !(d = ')')) = true) :
    autoglmParseAction (autoglmFormatAction "type" [("text", PyVal.str s)])
      = PyRes.val (some
          ⟨PyVal.str "type", PyVal.dict [("text", coerceParamValue s)],
           autoglmFormatAction "type" [("text", PyVal.str s)],
           PyVal.float "1.0", PyVal.str ""⟩) := by
  have hfmt : autoglmFormatAction "type" [("text", PyVal.str s)]
      = "type(text=\"" ++ s ++ "\")" := rfl
  have hdata : (autoglmFormatAction "type" [("text", PyVal.str s)]).data
      = 't' :: 'y' :: 'p' :: 'e' :: '(' :: 't' :: 'e' :: 'x' :: 't' :: '=' :: '"' ::
          (s.data ++ ['"', ')']) := by
    rw [hfmt]
    simp only [String.data_append, List.append_assoc]
    rfl
  have hsplit : (autoglmFormatAction "type" [("text", PyVal.str s)]).data
      = ('t' :: 'y' :: 'p' :: 'e' :: '(' :: 't' :: 'e' :: 'x' :: 't' :: '=' :: '"' ::
          (s.data ++ ['"'])) ++ [')'] := by
    rw [hdata]
    simp [List.append_assoc]
  have hstrip : pyStripChars (autoglmFormatAction "type" [("text", PyVal.str s)]).data
      = (autoglmFormatAction "type" [("text", PyVal.str s)]).data := by
    apply pyStrip_eq_self
    · intro c hc
      rw [hdata] at hc
      simp only [List.head?_cons, Option.some.injEq] at hc
      rw [← hc]
      rfl
    · intro c hc
      rw [hsplit, List.getLast?_concat, Option.some.injEq] at hc
      rw [← hc]
      rfl
  have hcall := callMatchAt_shape ['t', 'y', 'p', 'e']
    ('t' :: 'e' :: 'x' :: 't' :: '=' :: '"' :: (s.data ++ ['"'])) []
    (by decide) (by simp)
    (by simp [List.all_cons, List.all_append, hp])
  simp only [List.cons_append, List.nil_append, List.append_assoc] at hcall
  have hfind : findKVs ('t' :: 'e' :: 'x' :: 't' :: '=' :: '"' :: (s.data ++ ['"']))
      = [(String.mk ['t', 'e', 'x', 't'], VGroup.quoted s.data)] := by
    have h1 := findKVs_one_quoted ['t', 'e', 'x', 't'] s.data (by decide) (by simp) hq
    simp only [List.cons_append, List.nil_append] at h1
    rw [h1]
  have hemp : s.data.isEmpty = false := by
    cases he : s.data with
    | nil => exact absurd he hne
    | cons c t => rfl
  have hbuild : buildParamsLoop [(String.mk ['t', 'e', 'x', 't'], VGroup.quoted s.data)]
      = PyRes.val [("text", coerceParamValue s)] := by
    unfold buildParamsLoop
    simp only [List.foldl_cons, List.foldl_nil, hemp]
    rfl
  have := autoglmParse_eval
    (autoglmFormatAction "type" [("text", PyVal.str s)])
    ['t', 'y', 'p', 'e']
    ('t' :: 'e' :: 'x' :: 't' :: '=' :: '"' :: (s.data ++ ['"']))
    [("text", coerceParamValue s)]
    (by rw [hstrip, hdata]; exact hcall)
    (by rw [hfind]; exact hbuild)
  rw [this]

/-- AutoGLM round-trip on `type(text="…")` for a nonempty,
coercion-stable text without quotes or closing parens. -/
theorem autoglm_type_roundtrip (s : String)
    (hne : s.data ≠ [])
    (hq : s.data.all (fun d => !(d = '"')) = true)
    (hp : s.data.all (fun d => !(d = ')')) = true)
    (hcoerce : coerceParamValue s = PyVal.str s) :
    autoglmParseAction (autoglmFormatAction "type" [("text", PyVal.str s)])
      = PyRes.val (some
          ⟨PyVal.str "type", PyVal.dict [("text", PyVal.str s)],
           autoglmFormatAction "type" [("text", PyVal.str s)],
           PyVal.float "1.0", PyVal.str ""⟩) := by
  rw [autoglm_type_parse s hne hq hp, hcoerce]

/-- AutoGLM round-trip on `finish(status=…)` for a nonempty,
coercion-stable status token without commas, whitespace, quotes or
closing parens. -/
theorem autoglm_finish_roundtrip (s : String)
    (hne : s.data ≠ [])
    (hns : s.data.all notCommaSpaceB = true)
    (hq : s.data.all (fun d => !(d = '"')) = true)
    (hp : s.data.all (fun d => !(d = ')')) = true)
    (hcoerce : coerceParamValue s = PyVal.str s) :
    autoglmParseAction (autoglmFormatAction "finish" [("status", PyVal.str s)])
      = PyRes.val (some
          ⟨PyVal.str "finish", PyVal.dict [("status", PyVal.str s)],
           autoglmFormatAction "finish" [("status", PyVal.str s)],
           PyVal.float "1.0", PyVal.str ""⟩) := by
  have hfmt : autoglmFormatAction "finish" [("status", PyVal.str s)]
      = "finish(status=" ++ s ++ ")" := rfl
  have hdata : (autoglmFormatAction "finish" [("status", PyVal.str s)]).data
      = 'f' :: 'i' :: 'n' :: 'i' :: 's' :: 'h' :: '(' :: 's' :: 't' :: 'a' :: 't' ::
          'u' :: 's' :: '=' :: (s.data ++ [')']) := by
    rw [hfmt]
    simp only [String.data_append, List.append_assoc]
    rfl
  have hsplit : (autoglmFormatAction "finish" [("status", PyVal.str s)]).data
      = ('f' :: 'i' :: 'n' :: 'i' :: 's' :: 'h' :: '(' :: 's' :: 't' :: 'a' :: 't' ::
          'u' :: 's' :: '=' :: s.data) ++ [')'] := by
    rw [hdata]
    simp [List.append_assoc]
  have hstrip : pyStripChars (autoglmFormatAction "finish" [("status", PyVal.str s)]).data
      = (autoglmFormatAction "finish" [("status", PyVal.str s)]).data := by
    apply pyStrip_eq_self
    · intro c hc
      rw [hdata] at hc
      simp only [List.head?_cons, Option.some.injEq] at hc
      rw [← hc]
      rfl
    · intro c hc
      rw [hsplit, List.getLast?_concat, Option.some.injEq] at hc
      rw [← hc]
      rfl
  have hcall := callMatchAt_shape ['f', 'i', 'n', 'i', 's', 'h']
    ('s' :: 't' :: 'a' :: 't' :: 'u' :: 's' :: '=' :: s.data) []
    (by decide) (by simp)
    (by simp [List.all_cons, List.all_append, hp])
  simp only [List.cons_append, List.nil_append, List.append_assoc] at hcall
  obtain ⟨t0, tok', hcons⟩ := List.exists_cons_of_ne_nil hne
  have ht0 : ¬ t0 = '"' := by
    have hm0 : t0 ∈ s.data := by rw [hcons]; exact List.mem_cons_self _ _
    rw [List.all_eq_true] at hq
    have := hq t0 hm0
    simpa using this
  have hfind : findKVs ('s' :: 't' :: 'a' :: 't' :: 'u' :: 's' :: '=' :: s.data)
      = [(String.mk ['s', 't', 'a', 't', 'u', 's'], VGroup.plain s.data)] := by
    rw [hcons]
    have h1 := findKVs_one_plain ['s', 't', 'a', 't', 'u', 's'] t0 tok'
      (by decide) (by simp) (by rw [← hcons]; exact hns) ht0
    simp only [List.cons_append, List.nil_append] at h1
    rw [h1]
  have hbuild : buildParamsLoop
      [(String.mk ['s', 't', 'a', 't', 'u', 's'], VGroup.plain s.data)]
      = PyRes.val [("status", PyVal.str s)] := by
    unfold buildParamsLoop
    simp only [List.foldl_cons, List.foldl_nil]
    rw [show coerceParamValue (String.mk s.data) = PyVal.str s from hcoerce]
    rfl
  have := autoglmParse_eval
    (autoglmFormatAction "finish" [("status", PyVal.str s)])
    ['f', 'i', 'n', 'i', 's', 'h']
    ('s' :: 't' :: 'a' :: 't' :: 'u' :: 's' :: '=' :: s.data)
    [("status", PyVal.str s)]
    (by rw [hstrip, hdata]; exact hcall)
    (by rw [hfind]; exact hbuild)
  rw [this]

/-- First-occurrence split when the pattern starts right here. -/
theorem splitAtSub_here (pat b : List Char) :
    splitAtSub (pat ++ b) pat = some ([], b) := by
  have hpre : pat.isPrefixOf (pat ++ b) = true :=
    List.isPrefixOf_iff_prefix.mpr (List.prefix_append pat b)
  cases hl : pat ++ b with
  | nil =>
    rcases List.append_eq_nil.mp hl with ⟨h1, h2⟩
    subst h1
    subst h2
    rfl
  | cons c rest =>
    unfold splitAtSub
    rw [← hl, if_pos hpre, List.drop_left]

/-- First-occurrence split skips a position where the pattern does not
match. -/
theorem splitAtSub_cons_no (c : Char) (rest pat : List Char)
    (h : pat.isPrefixOf (c :: rest) = false) :
    splitAtSub (c :: rest) pat
      = (splitAtSub rest pat).map (fun p => (c :: p.1, p.2)) := by
  conv_lhs => unfold splitAtSub
  rw [h]
  rfl

/-- First-occurrence split passes over a run without the pattern's
first character. -/
theorem splitAtSub_chunk (chunk rest pat' : List Char)
    (hch : chunk.all (fun c => !(c = '<')) = true) :
    splitAtSub (chunk ++ rest) ('<' :: pat')
      = (splitAtSub rest ('<' :: pat')).map (fun p => (chunk ++ p.1, p.2)) := by
  induction chunk with
  | nil =>
    simp only [List.nil_append]
    cases splitAtSub rest ('<' :: pat') with
    | none => rfl
    | some p => rfl
  | cons c t ih =>
    simp only [List.all_cons, Bool.and_eq_true, Bool.not_eq_true',
      decide_eq_false_iff_not] at hch
    have hpre : ('<' :: pat').isPrefixOf (c :: (t ++ rest)) = false := by
      rw [show ('<' :: pat').isPrefixOf (c :: (t ++ rest))
          = (('<' == c) && pat'.isPrefixOf (t ++ rest)) from rfl,
        show ('<' == c) = false from beq_eq_false_iff_ne.mpr (fun e => hch.1 e.symm)]
      rfl
    rw [List.cons_append, splitAtSub_cons_no c (t ++ rest) _ hpre, ih hch.2]
    cases splitAtSub rest ('<' :: pat') with
    | none => rfl
    | some p => rfl

/-- The Gelab parameter pattern `<(\w+)>([^<]*)</\1>` matches its
literal shape. -/
theorem tagMatchAt_shape (name content rest : List Char)
    (hw : name.all isWordChar = true) (hk : name ≠ [])
    (hc : content.all (fun d => !(d = '<')) = true) :
    tagMatchAt ('<' :: (name ++ ('>' :: (content ++ ('<' :: '/' :: (name ++ ('>' :: rest)))))))
      = some (String.mk name, content, rest) := by
  have h1 : (name ++ ('>' :: (content ++ ('<' :: '/' :: (name ++ ('>' :: rest)))))).takeWhile
      isWordChar = name := by
    rw [takeWhile_append_all _ _ _ hw, List.takeWhile_cons,
      show isWordChar '>' = false from by decide]
    simp
  have h2 : (name ++ ('>' :: (content ++ ('<' :: '/' :: (name ++ ('>' :: rest)))))).drop
      name.length = '>' :: (content ++ ('<' :: '/' :: (name ++ ('>' :: rest)))) :=
    List.drop_left name _
  have h3 : (content ++ ('<' :: '/' :: (name ++ ('>' :: rest)))).takeWhile
      (fun d => !(d = '<')) = content := by
    rw [takeWhile_stop _ _ _ hc]
    rw [List.takeWhile_cons]
    simp
  have h4 : (content ++ ('<' :: '/' :: (name ++ ('>' :: rest)))).drop content.length
      = '<' :: '/' :: (name ++ ('>' :: rest)) := List.drop_left content _
  have h5 : (('<' :: '/' :: name) ++ ['>']).isPrefixOf
      ('<' :: '/' :: (name ++ ('>' :: rest))) = true := by
    rw [List.isPrefixOf_iff_prefix]
    refine ⟨rest, ?_⟩
    simp [List.append_assoc]
  have h6 : ('<' :: '/' :: (name ++ ('>' :: rest))).drop (name.length + 3) = rest := by
    rw [show name.length + 3 = (name.length + 2) + 1 from rfl, List.drop_succ_cons,
      show name.length + 2 = (name.length + 1) + 1 from rfl, List.drop_succ_cons,
      List.drop_append]
    rfl
  unfold tagMatchAt
  simp only [h1, h2]
  rw [if_pos trivial]
  rw [if_neg (by simp [List.isEmpty_iff, hk])]
  rw [if_pos trivial]
  simp only [h3, h4]
  rw [if_pos h5, h6]

/-- No Gelab parameter match starts except at an opening angle
bracket. -/
theorem tagMatchAt_nonlt (c : Char) (rest : List Char) (h : ¬ c = '<') :
    tagMatchAt (c :: rest) = Option.none := by
  simp [tagMatchAt, h]

/-- Unfolding equation of the tag scan at a successful match. -/
theorem findTags_match_of (l : List Char) (r : String × List Char × List Char)
    (h : tagMatchAt l = some r) :
    findTags l = (r.1, r.2.1) :: findTags r.2.2 := by
  cases l with
  | nil =>
    have h0 : tagMatchAt ([] : List Char) = Option.none := by
      unfold tagMatchAt; rfl
    rw [h0] at h
    exact Option.noConfusion h
  | cons c rest =>
    conv_lhs => unfold findTags
    split
    · rename_i r2 h2
      rw [h] at h2
      cases h2
      rfl
    · rename_i h2
      rw [h] at h2
      exact Option.noConfusion h2

/-- Unfolding equation of the tag scan at a failed position. -/
theorem findTags_skip_of (c : Char) (rest : List Char)
    (h : tagMatchAt (c :: rest) = Option.none) :
    findTags (c :: rest) = findTags rest := by
  conv_lhs => unfold findTags
  split
  · rename_i r2 h2
    rw [h] at h2
    exact Option.noConfusion h2
  · rfl

/-- The tag scan of the empty remainder finds nothing. -/
theorem findTags_nil_eq : findTags [] = [] := by
  unfold findTags
  rfl

/-- The Gelab element search succeeds immediately when the anchored
match does. -/
theorem gelabSearch_head (c : Char) (rest : List Char) (r : List Char × List Char)
    (h : gelabMatchAt (c :: rest) = some r) : gelabSearch (c :: rest) = some r := by
  conv_lhs => unfold gelabSearch
  split
  · rename_i r2 h2
    rw [h] at h2
    cases h2
    rfl
  · rename_i h2
    rw [h] at h2
    exact Option.noConfusion h2

/-- Evaluation of `GelabAdapter.parse_action` along a successful element
search whose tag scan folds to `d`. -/
theorem gelabParse_eval (raw : String) (name content : List Char)
    (d : List (String × PyVal))
    (hm : gelabSearch raw.data = some (name, content))
    (hd : (findTags content).foldl
        (fun acc kv => pyDictSet acc kv.1 (coerceParamValue (String.mk kv.2))) [] = d) :
    gelabParseAction raw
      = some ⟨PyVal.str (String.mk name), PyVal.dict d, raw,
              PyVal.float "1.0", PyVal.str ""⟩ := by
  unfold gelabParseAction
  rw [hm]
  conv_lhs => whnf
  rw [hd]

/-- Gelab round-trip on `click` with integer coordinates. -/
theorem gelab_click_roundtrip (x y : Int) :
    gelabParseAction (gelabFormatAction "click" [("x", PyVal.int x), ("y", PyVal.int y)])
      = some
          ⟨PyVal.str "click", PyVal.dict [("x", PyVal.int x), ("y", PyVal.int y)],
           gelabFormatAction "click" [("x", PyVal.int x), ("y", PyVal.int y)], PyVal.float "1.0", PyVal.str ""⟩ := by
  have hchx : (pyIntRepr x).data.all (fun c => !(c = '<')) = true :=
    intRepr_all x _ (by decide)
      (fun c h => by
        simp only [Bool.not_eq_true', decide_eq_false_iff_not]
        exact isDigitCh_ne c h '<' (by right; decide))
  have hchy : (pyIntRepr y).data.all (fun c => !(c = '<')) = true :=
    intRepr_all y _ (by decide)
      (fun c h => by
        simp only [Bool.not_eq_true', decide_eq_false_iff_not]
        exact isDigitCh_ne c h '<' (by right; decide))
  have hdata : (gelabFormatAction "click" [("x", PyVal.int x), ("y", PyVal.int y)]).data
      = '<' :: 'a' :: 'c' :: 't' :: 'i' :: 'o' :: 'n' :: ' ' :: 't' :: 'y' :: 'p' :: 'e' :: '=' :: '"' :: 'c' :: 'l' :: 'i' :: 'c' :: 'k' :: '"' :: '>' :: ('\n' :: ' ' :: ' ' :: ('<' :: 'x' :: '>' :: ((pyIntRepr x).data ++ ('<' :: '/' :: 'x' :: '>' :: '\n' :: ' ' :: ' ' :: ('<' :: 'y' :: '>' :: ((pyIntRepr y).data ++ ('<' :: '/' :: 'y' :: '>' :: '\n' :: ('<' :: '/' :: 'a' :: 'c' :: 't' :: 'i' :: 'o' :: 'n' :: '>' :: [])))))))) := by
    simp only [gelabFormatAction, List.map_cons, List.map_nil, String.join,
      List.foldl_cons, List.foldl_nil, pyStrOfVal, pyStrScalar,
      String.data_append, List.append_assoc]
    rfl
  have hsA : splitAtSub ('<' :: '/' :: 'a' :: 'c' :: 't' :: 'i' :: 'o' :: 'n' :: '>' :: []) ('<' :: '/' :: 'a' :: 'c' :: 't' :: 'i' :: 'o' :: 'n' :: '>' :: []) = some ([], []) := by
    have h := splitAtSub_here ('<' :: '/' :: 'a' :: 'c' :: 't' :: 'i' :: 'o' :: 'n' :: '>' :: []) []
    rw [List.append_nil] at h
    exact h
  have hs1 : splitAtSub ('<' :: '/' :: 'y' :: '>' :: '\n' :: ('<' :: '/' :: 'a' :: 'c' :: 't' :: 'i' :: 'o' :: 'n' :: '>' :: [])) ('<' :: '/' :: 'a' :: 'c' :: 't' :: 'i' :: 'o' :: 'n' :: '>' :: []) = some ('<' :: '/' :: 'y' :: '>' :: '\n' :: [], []) := by
    have hch := splitAtSub_chunk ['/', 'y', '>', '\n'] ('<' :: '/' :: 'a' :: 'c' :: 't' :: 'i' :: 'o' :: 'n' :: '>' :: []) ('/' :: 'a' :: 'c' :: 't' :: 'i' :: 'o' :: 'n' :: '>' :: []) (by decide)
    simp only [List.cons_append, List.nil_append] at hch
    rw [splitAtSub_cons_no '<' _ _ (by rfl), hch, hsA]
    rfl
  have hs2 : splitAtSub ((pyIntRepr y).data ++ ('<' :: '/' :: 'y' :: '>' :: '\n' :: ('<' :: '/' :: 'a' :: 'c' :: 't' :: 'i' :: 'o' :: 'n' :: '>' :: []))) ('<' :: '/' :: 'a' :: 'c' :: 't' :: 'i' :: 'o' :: 'n' :: '>' :: []) = some ((pyIntRepr y).data ++ ('<' :: '/' :: 'y' :: '>' :: '\n' :: []), []) := by
    rw [splitAtSub_chunk ((pyIntRepr y).data) ('<' :: '/' :: 'y' :: '>' :: '\n' :: ('<' :: '/' :: 'a' :: 'c' :: 't' :: 'i' :: 'o' :: 'n' :: '>' :: [])) ('/' :: 'a' :: 'c' :: 't' :: 'i' :: 'o' :: 'n' :: '>' :: []) hchy, hs1]
    rfl
  have hs3 : splitAtSub ('<' :: 'y' :: '>' :: ((pyIntRepr y).data ++ ('<' :: '/' :: 'y' :: '>' :: '\n' :: ('<' :: '/' :: 'a' :: 'c' :: 't' :: 'i' :: 'o' :: 'n' :: '>' :: [])))) ('<' :: '/' :: 'a' :: 'c' :: 't' :: 'i' :: 'o' :: 'n' :: '>' :: []) = some ('<' :: 'y' :: '>' :: ((pyIntRepr y).data ++ ('<' :: '/' :: 'y' :: '>' :: '\n' :: [])), []) := by
    have hch := splitAtSub_chunk ['y', '>'] ((pyIntRepr y).data ++ ('<' :: '/' :: 'y' :: '>' :: '\n' :: ('<' :: '/' :: 'a' :: 'c' :: 't' :: 'i' :: 'o' :: 'n' :: '>' :: []))) ('/' :: 'a' :: 'c' :: 't' :: 'i' :: 'o' :: 'n' :: '>' :: []) (by decide)
    simp only [List.cons_append, List.nil_append] at hch
    rw [splitAtSub_cons_no '<' _ _ (by rfl), hch, hs2]
    rfl
  have hs4 : splitAtSub ('<' :: '/' :: 'x' :: '>' :: '\n' :: ' ' :: ' ' :: ('<' :: 'y' :: '>' :: ((pyIntRepr y).data ++ ('<' :: '/' :: 'y' :: '>' :: '\n' :: ('<' :: '/' :: 'a' :: 'c' :: 't' :: 'i' :: 'o' :: 'n' :: '>' :: []))))) ('<' :: '/' :: 'a' :: 'c' :: 't' :: 'i' :: 'o' :: 'n' :: '>' :: []) = some ('<' :: '/' :: 'x' :: '>' :: '\n' :: ' ' :: ' ' :: ('<' :: 'y' :: '>' :: ((pyIntRepr y).data ++ ('<' :: '/' :: 'y' :: '>' :: '\n' :: []))), []) := by
    have hch := splitAtSub_chunk ['/', 'x', '>', '\n', ' ', ' '] ('<' :: 'y' :: '>' :: ((pyIntRepr y).data ++ ('<' :: '/' :: 'y' :: '>' :: '\n' :: ('<' :: '/' :: 'a' :: 'c' :: 't' :: 'i' :: 'o' :: 'n' :: '>' :: [])))) ('/' :: 'a' :: 'c' :: 't' :: 'i' :: 'o' :: 'n' :: '>' :: []) (by decide)
    simp only [List.cons_append, List.nil_append] at hch
    rw [splitAtSub_cons_no '<' _ _ (by rfl), hch, hs3]
    rfl
  have hs5 : splitAtSub ((pyIntRepr x).data ++ ('<' :: '/' :: 'x' :: '>' :: '\n' :: ' ' :: ' ' :: ('<' :: 'y' :: '>' :: ((pyIntRepr y).data ++ ('<' :: '/' :: 'y' :: '>' :: '\n' :: ('<' :: '/' :: 'a' :: 'c' :: 't' :: 'i' :: 'o' :: 'n' :: '>' :: [])))))) ('<' :: '/' :: 'a' :: 'c' :: 't' :: 'i' :: 'o' :: 'n' :: '>' :: []) = some ((pyIntRepr x).data ++ ('<' :: '/' :: 'x' :: '>' :: '\n' :: ' ' :: ' ' :: ('<' :: 'y' :: '>' :: ((pyIntRepr y).data ++ ('<' :: '/' :: 'y' :: '>' :: '\n' :: [])))), []) := by
    rw [splitAtSub_chunk ((pyIntRepr x).data) ('<' :: '/' :: 'x' :: '>' :: '\n' :: ' ' :: ' ' :: ('<' :: 'y' :: '>' :: ((pyIntRepr y).data ++ ('<' :: '/' :: 'y' :: '>' :: '\n' :: ('<' :: '/' :: 'a' :: 'c' :: 't' :: 'i' :: 'o' :: 'n' :: '>' :: []))))) ('/' :: 'a' :: 'c' :: 't' :: 'i' :: 'o' :: 'n' :: '>' :: []) hchx, hs4]
    rfl
  have hs6 : splitAtSub ('<' :: 'x' :: '>' :: ((pyIntRepr x).data ++ ('<' :: '/' :: 'x' :: '>' :: '\n' :: ' ' :: ' ' :: ('<' :: 'y' :: '>' :: ((pyIntRepr y).data ++ ('<' :: '/' :: 'y' :: '>' :: '\n' :: ('<' :: '/' :: 'a' :: 'c' :: 't' :: 'i' :: 'o' :: 'n' :: '>' :: []))))))) ('<' :: '/' :: 'a' :: 'c' :: 't' :: 'i' :: 'o' :: 'n' :: '>' :: []) = some ('<' :: 'x' :: '>' :: ((pyIntRepr x).data ++ ('<' :: '/' :: 'x' :: '>' :: '\n' :: ' ' :: ' ' :: ('<' :: 'y' :: '>' :: ((pyIntRepr y).data ++ ('<' :: '/' :: 'y' :: '>' :: '\n' :: []))))), []) := by
    have hch := splitAtSub_chunk ['x', '>'] ((pyIntRepr x).data ++ ('<' :: '/' :: 'x' :: '>' :: '\n' :: ' ' :: ' ' :: ('<' :: 'y' :: '>' :: ((pyIntRepr y).data ++ ('<' :: '/' :: 'y' :: '>' :: '\n' :: ('<' :: '/' :: 'a' :: 'c' :: 't' :: 'i' :: 'o' :: 'n' :: '>' :: [])))))) ('/' :: 'a' :: 'c' :: 't' :: 'i' :: 'o' :: 'n' :: '>' :: []) (by decide)
    simp only [List.cons_append, List.nil_append] at hch
    rw [splitAtSub_cons_no '<' _ _ (by rfl), hch, hs5]
    rfl
  have hs7 : splitAtSub ('\n' :: ' ' :: ' ' :: ('<' :: 'x' :: '>' :: ((pyIntRepr x).data ++ ('<' :: '/' :: 'x' :: '>' :: '\n' :: ' ' :: ' ' :: ('<' :: 'y' :: '>' :: ((pyIntRepr y).data ++ ('<' :: '/' :: 'y' :: '>' :: '\n' :: ('<' :: '/' :: 'a' :: 'c' :: 't' :: 'i' :: 'o' :: 'n' :: '>' :: [])))))))) ('<' :: '/' :: 'a' :: 'c' :: 't' :: 'i' :: 'o' :: 'n' :: '>' :: []) = some ('\n' :: ' ' :: ' ' :: ('<' :: 'x' :: '>' :: ((pyIntRepr x).data ++ ('<' :: '/' :: 'x' :: '>' :: '\n' :: ' ' :: ' ' :: ('<' :: 'y' :: '>' :: ((pyIntRepr y).data ++ ('<' :: '/' :: 'y' :: '>' :: '\n' :: [])))))), []) := by
    have hch := splitAtSub_chunk ['\n', ' ', ' '] ('<' :: 'x' :: '>' :: ((pyIntRepr x).data ++ ('<' :: '/' :: 'x' :: '>' :: '\n' :: ' ' :: ' ' :: ('<' :: 'y' :: '>' :: ((pyIntRepr y).data ++ ('<' :: '/' :: 'y' :: '>' :: '\n' :: ('<' :: '/' :: 'a' :: 'c' :: 't' :: 'i' :: 'o' :: 'n' :: '>' :: []))))))) ('/' :: 'a' :: 'c' :: 't' :: 'i' :: 'o' :: 'n' :: '>' :: []) (by decide)
    simp only [List.cons_append, List.nil_append] at hch
    rw [hch, hs6]
    rfl
  have hmatch0 : gelabMatchAt ('<' :: 'a' :: 'c' :: 't' :: 'i' :: 'o' :: 'n' :: ' ' :: 't' :: 'y' :: 'p' :: 'e' :: '=' :: '"' :: 'c' :: 'l' :: 'i' :: 'c' :: 'k' :: '"' :: '>' :: ('\n' :: ' ' :: ' ' :: ('<' :: 'x' :: '>' :: ((pyIntRepr x).data ++ ('<' :: '/' :: 'x' :: '>' :: '\n' :: ' ' :: ' ' :: ('<' :: 'y' :: '>' :: ((pyIntRepr y).data ++ ('<' :: '/' :: 'y' :: '>' :: '\n' :: ('<' :: '/' :: 'a' :: 'c' :: 't' :: 'i' :: 'o' :: 'n' :: '>' :: [])))))))))
      = (splitAtSub ('\n' :: ' ' :: ' ' :: ('<' :: 'x' :: '>' :: ((pyIntRepr x).data ++ ('<' :: '/' :: 'x' :: '>' :: '\n' :: ' ' :: ' ' :: ('<' :: 'y' :: '>' :: ((pyIntRepr y).data ++ ('<' :: '/' :: 'y' :: '>' :: '\n' :: ('<' :: '/' :: 'a' :: 'c' :: 't' :: 'i' :: 'o' :: 'n' :: '>' :: [])))))))) ('<' :: '/' :: 'a' :: 'c' :: 't' :: 'i' :: 'o' :: 'n' :: '>' :: [])).map
          (fun p => (['c', 'l', 'i', 'c', 'k'], p.1)) := rfl
  have hmatch : gelabMatchAt ('<' :: 'a' :: 'c' :: 't' :: 'i' :: 'o' :: 'n' :: ' ' :: 't' :: 'y' :: 'p' :: 'e' :: '=' :: '"' :: 'c' :: 'l' :: 'i' :: 'c' :: 'k' :: '"' :: '>' :: ('\n' :: ' ' :: ' ' :: ('<' :: 'x' :: '>' :: ((pyIntRepr x).data ++ ('<' :: '/' :: 'x' :: '>' :: '\n' :: ' ' :: ' ' :: ('<' :: 'y' :: '>' :: ((pyIntRepr y).data ++ ('<' :: '/' :: 'y' :: '>' :: '\n' :: ('<' :: '/' :: 'a' :: 'c' :: 't' :: 'i' :: 'o' :: 'n' :: '>' :: [])))))))))
      = some (['c', 'l', 'i', 'c', 'k'], '\n' :: ' ' :: ' ' :: ('<' :: 'x' :: '>' :: ((pyIntRepr x).data ++ ('<' :: '/' :: 'x' :: '>' :: '\n' :: ' ' :: ' ' :: ('<' :: 'y' :: '>' :: ((pyIntRepr y).data ++ ('<' :: '/' :: 'y' :: '>' :: '\n' :: []))))))) := by
    rw [hmatch0, hs7]
    rfl
  have hm : gelabSearch (gelabFormatAction "click" [("x", PyVal.int x), ("y", PyVal.int y)]).data
      = some (['c', 'l', 'i', 'c', 'k'], '\n' :: ' ' :: ' ' :: ('<' :: 'x' :: '>' :: ((pyIntRepr x).data ++ ('<' :: '/' :: 'x' :: '>' :: '\n' :: ' ' :: ' ' :: ('<' :: 'y' :: '>' :: ((pyIntRepr y).data ++ ('<' :: '/' :: 'y' :: '>' :: '\n' :: []))))))) := by
    rw [hdata]
    exact gelabSearch_head _ _ _ hmatch
  obtain ⟨a0, as, hrx⟩ := List.exists_cons_of_ne_nil (intRepr_ne_nil x)
  obtain ⟨b0, bs, hry⟩ := List.exists_cons_of_ne_nil (intRepr_ne_nil y)
  have hft : findTags ('\n' :: ' ' :: ' ' :: ('<' :: 'x' :: '>' :: ((pyIntRepr x).data ++ ('<' :: '/' :: 'x' :: '>' :: '\n' :: ' ' :: ' ' :: ('<' :: 'y' :: '>' :: ((pyIntRepr y).data ++ ('<' :: '/' :: 'y' :: '>' :: '\n' :: [])))))))
      = [(String.mk ['x'], (pyIntRepr x).data), (String.mk ['y'], (pyIntRepr y).data)] := by
    rw [findTags_skip_of _ _ (tagMatchAt_nonlt _ _ (by decide)),
      findTags_skip_of _ _ (tagMatchAt_nonlt _ _ (by decide)),
      findTags_skip_of _ _ (tagMatchAt_nonlt _ _ (by decide))]
    have h1 := tagMatchAt_shape ['x'] ((pyIntRepr x).data) ('\n' :: ' ' :: ' ' :: '<' :: 'y' :: '>' :: ((pyIntRepr y).data ++ ('<' :: '/' :: 'y' :: '>' :: '\n' :: []))) (by decide) (by simp) hchx
    simp only [List.cons_append, List.nil_append] at h1
    rw [findTags_match_of _ _ h1]
    rw [findTags_skip_of _ _ (tagMatchAt_nonlt _ _ (by decide)),
      findTags_skip_of _ _ (tagMatchAt_nonlt _ _ (by decide)),
      findTags_skip_of _ _ (tagMatchAt_nonlt _ _ (by decide))]
    have h2 := tagMatchAt_shape ['y'] ((pyIntRepr y).data) ('\n' :: []) (by decide) (by simp) hchy
    simp only [List.cons_append, List.nil_append] at h2
    rw [findTags_match_of _ _ h2]
    rw [findTags_skip_of _ _ (tagMatchAt_nonlt _ _ (by decide)), findTags_nil_eq]
  have hd0 : (findTags ('\n' :: ' ' :: ' ' :: ('<' :: 'x' :: '>' :: ((pyIntRepr x).data ++ ('<' :: '/' :: 'x' :: '>' :: '\n' :: ' ' :: ' ' :: ('<' :: 'y' :: '>' :: ((pyIntRepr y).data ++ ('<' :: '/' :: 'y' :: '>' :: '\n' :: [])))))))).foldl
      (fun acc kv => pyDictSet acc kv.1 (coerceParamValue (String.mk kv.2))) []
      = [("x", coerceParamValue (pyIntRepr x)), ("y", coerceParamValue (pyIntRepr y))] := by
    rw [hft]
    rfl
  have hd : (findTags ('\n' :: ' ' :: ' ' :: ('<' :: 'x' :: '>' :: ((pyIntRepr x).data ++ ('<' :: '/' :: 'x' :: '>' :: '\n' :: ' ' :: ' ' :: ('<' :: 'y' :: '>' :: ((pyIntRepr y).data ++ ('<' :: '/' :: 'y' :: '>' :: '\n' :: [])))))))).foldl
      (fun acc kv => pyDictSet acc kv.1 (coerceParamValue (String.mk kv.2))) []
      = [("x", PyVal.int x), ("y", PyVal.int y)] := by
    rw [hd0, coerce_intRepr, coerce_intRepr]
  exact gelabParse_eval (gelabFormatAction "click" [("x", PyVal.int x), ("y", PyVal.int y)]) ['c', 'l', 'i', 'c', 'k'] ('\n' :: ' ' :: ' ' :: ('<' :: 'x' :: '>' :: ((pyIntRepr x).data ++ ('<' :: '/' :: 'x' :: '>' :: '\n' :: ' ' :: ' ' :: ('<' :: 'y' :: '>' :: ((pyIntRepr y).data ++ ('<' :: '/' :: 'y' :: '>' :: '\n' :: [])))))))
    [("x", PyVal.int x), ("y", PyVal.int y)] hm hd

/-- Characters that JSON round-trips verbatim: no quote, no backslash,
no control character. -/
def jsonPlainChar (c : Char) : Bool :=
  !(c = '"') && !(c = '\\') && decide (32 ≤ c.toNat)

/-- `json.dumps` escapes nothing in a plain string. -/
theorem jsonEscape_plain (l : List Char) (h : l.all jsonPlainChar = true) :
    jsonEscape l = l := by
  induction l with
  | nil => rfl
  | cons c t ih =>
    simp only [List.all_cons, Bool.and_eq_true] at h
    obtain ⟨hc, ht⟩ := h
    simp only [jsonPlainChar, Bool.and_eq_true, Bool.not_eq_true',
      decide_eq_false_iff_not, decide_eq_true_eq] at hc
    obtain ⟨⟨h1, h2⟩, h3⟩ := hc
    have hesc : jsonEscapeChar c = [c] := by
      unfold jsonEscapeChar
      rw [if_neg h1, if_neg h2,
        if_neg (fun e => by subst e; exact absurd h3 (by decide)),
        if_neg (fun e => by subst e; exact absurd h3 (by decide)),
        if_neg (fun e => by subst e; exact absurd h3 (by decide)),
        if_neg (fun e => by subst e; exact absurd h3 (by decide)),
        if_neg (fun e => by subst e; exact absurd h3 (by decide))]
    unfold jsonEscape at ih ⊢
    simp only [List.map_cons, List.flatten_cons, hesc, ih ht]
    rfl

/-- The JSON string-body parser inverts on plain content followed by the
closing quote. -/
theorem parseJStringBody_plain (s : List Char) (hall : s.all jsonPlainChar = true) :
    ∀ (f : Nat) (rest : List Char), s.length < f →
    parseJStringBody f (s ++ '"' :: rest) = some (s, rest) := by
  induction s with
  | nil =>
    intro f rest hf
    cases f with
    | zero => omega
    | succ f2 =>
      unfold parseJStringBody
      rw [List.nil_append]
      rfl
  | cons c t ih =>
    intro f rest hf
    simp only [List.all_cons, Bool.and_eq_true] at hall
    obtain ⟨hc, ht⟩ := hall
    simp only [jsonPlainChar, Bool.and_eq_true, Bool.not_eq_true',
      decide_eq_false_iff_not, decide_eq_true_eq] at hc
    obtain ⟨⟨h1, h2⟩, h3⟩ := hc
    cases f with
    | zero => omega
    | succ f2 =>
      unfold parseJStringBody
      rw [List.cons_append]
      split
      · rename_i heq
        exact absurd heq (by simp)
      · rename_i c2 r2 heq
        rw [List.cons.injEq] at heq
        obtain ⟨hc2, hr2⟩ := heq
        subst hc2
        subst hr2
        rw [if_neg h1, if_neg h2, if_neg (show ¬ c.toNat < 32 by omega),
          ih ht f2 rest (by simp only [List.length_cons] at hf; omega)]
        rfl

/-- Small numbers print as a single digit character. -/
theorem natDigits_small (n : Nat) (h : n < 10) : natDigits n = [digitCh n] := by
  unfold natDigits natDigitsAux
  rw [if_pos h]

/-- JSON number parsing of a bare digit run (the printed digits of `n`)
followed by a non-numeric remainder. -/
theorem parseJNumber_digits (n : Nat) (a0 : Char) (as rest : List Char)
    (hnd : natDigits n = a0 :: as)
    (hr : ∀ c, rest.head? = some c →
        (isDigitCh c = false ∧ ¬ c = '.' ∧ ¬ c = 'e' ∧ ¬ c = 'E')) :
    parseJNumber (a0 :: (as ++ rest)) = some (PyVal.int (Int.ofNat n), rest) := by
  have hall : (a0 :: as).all isDigitCh = true := by
    rw [← hnd]; exact natDigits_all n
  have ha0 : isDigitCh a0 = true := by
    simp only [List.all_cons, Bool.and_eq_true] at hall
    exact hall.1
  have hstop : rest.takeWhile isDigitCh = [] := by
    cases hrest : rest with
    | nil => rfl
    | cons c t =>
      have := (hr c (by rw [hrest]; rfl)).1
      rw [List.takeWhile_cons, this]
      simp
  have htake : (a0 :: (as ++ rest)).takeWhile isDigitCh = a0 :: as := by
    have h := takeWhile_stop isDigitCh (a0 :: as) rest hall hstop
    simp only [List.cons_append] at h
    exact h
  have hdrop : (a0 :: (as ++ rest)).drop (a0 :: as).length = rest := by
    simp only [List.length_cons, List.drop_succ_cons]
    exact List.drop_left as rest
  have hfrac : jNumFrac rest = (Option.none, rest) := by
    cases hrest : rest with
    | nil => rfl
    | cons c t =>
      have hdot := (hr c (by rw [hrest]; rfl)).2.1
      unfold jNumFrac
      split
      · rename_i heq
        exact absurd heq (by simp)
      · rename_i c2 r3 heq
        rw [List.cons.injEq] at heq
        obtain ⟨hc2, hr3⟩ := heq
        subst hc2
        subst hr3
        rw [if_neg hdot]
  have hexp : jNumExp rest = (false, rest) := by
    cases hrest : rest with
    | nil => rfl
    | cons c t =>
      have h1 := (hr c (by rw [hrest]; rfl)).2.2.1
      have h2 := (hr c (by rw [hrest]; rfl)).2.2.2
      unfold jNumExp
      split
      · rename_i heq
        exact absurd heq (by simp)
      · rename_i c2 r5 heq
        rw [List.cons.injEq] at heq
        obtain ⟨hc2, hr5⟩ := heq
        subst hc2
        subst hr5
        rw [if_neg h1, if_neg h2]
  have hfold : (a0 :: as).foldl (fun a c => a * 10 + digitVal c) 0 = n := by
    rw [← hnd]; exact natDigits_foldl n
  have hlz : ((a0 :: as).length > 1 && ((a0 :: as).headD '0' = '0')) = false := by
    by_cases h10 : n < 10
    · have : natDigits n = [digitCh n] := natDigits_small n h10
      rw [hnd] at this
      rw [List.cons.injEq] at this
      rw [this.2]
      rfl
    · have hz := natDigits_head_ne_zero n (by omega) a0 (by rw [hnd]; rfl)
      simp only [List.headD_cons]
      rw [show decide (a0 = '0') = false from decide_eq_false hz]
      simp
  unfold parseJNumber
  simp only []
  split
  · rename_i heq
    exact absurd heq (isDigitCh_ne a0 ha0 '-' (by left; decide))
  · simp only [htake, hdrop]
    rw [if_neg (by simp), if_neg (by rw [hlz]; exact Bool.false_ne_true)]
    rw [hfrac]
    simp only []
    rw [hexp]
    simp only [Option.isNone_none, Bool.not_false, Bool.and_self, if_pos rfl]
    rw [hfold]
    rfl

/-- JSON number parsing inverts integer printing (optional minus sign
and digits) before a non-numeric remainder. -/
theorem parseJNumber_intRepr (x : Int) (rest : List Char)
    (hr : ∀ c, rest.head? = some c →
        (isDigitCh c = false ∧ ¬ c = '.' ∧ ¬ c = 'e' ∧ ¬ c = 'E')) :
    parseJNumber ((pyIntRepr x).data ++ rest) = some (PyVal.int x, rest) := by
  obtain ⟨a0, as, hnd⟩ := List.exists_cons_of_ne_nil (natDigits_ne_nil x.natAbs)
  by_cases hx : x < 0
  · have hL : (pyIntRepr x).data ++ rest = '-' :: (a0 :: (as ++ rest)) := by
      rw [pyIntRepr_data, if_pos hx, hnd]
      simp [List.cons_append]
    rw [hL]
    have hall : (a0 :: as).all isDigitCh = true := by
      rw [← hnd]; exact natDigits_all x.natAbs
    have hstop : rest.takeWhile isDigitCh = [] := by
      cases hrest : rest with
      | nil => rfl
      | cons c t =>
        have := (hr c (by rw [hrest]; rfl)).1
        rw [List.takeWhile_cons, this]
        simp
    have htake : (a0 :: (as ++ rest)).takeWhile isDigitCh = a0 :: as := by
      have h := takeWhile_stop isDigitCh (a0 :: as) rest hall hstop
      simp only [List.cons_append] at h
      exact h
    have hdrop : (a0 :: (as ++ rest)).drop (a0 :: as).length = rest := by
      simp only [List.length_cons, List.drop_succ_cons]
      exact List.drop_left as rest
    have hfrac : jNumFrac rest = (Option.none, rest) := by
      cases hrest : rest with
      | nil => rfl
      | cons c t =>
        have hdot := (hr c (by rw [hrest]; rfl)).2.1
        unfold jNumFrac
        split
        · rename_i heq
          exact absurd heq (by simp)
        · rename_i c2 r3 heq
          rw [List.cons.injEq] at heq
          obtain ⟨hc2, hr3⟩ := heq
          subst hc2
          subst hr3
          rw [if_neg hdot]
    have hexp : jNumExp rest = (false, rest) := by
      cases hrest : rest with
      | nil => rfl
      | cons c t =>
        have h1 := (hr c (by rw [hrest]; rfl)).2.2.1
        have h2 := (hr c (by rw [hrest]; rfl)).2.2.2
        unfold jNumExp
        split
        · rename_i heq
          exact absurd heq (by simp)
        · rename_i c2 r5 heq
          rw [List.cons.injEq] at heq
          obtain ⟨hc2, hr5⟩ := heq
          subst hc2
          subst hr5
          rw [if_neg h1, if_neg h2]
    have hfold : (a0 :: as).foldl (fun a c => a * 10 + digitVal c) 0 = x.natAbs := by
      rw [← hnd]; exact natDigits_foldl x.natAbs
    have hlz : ((a0 :: as).length > 1 && ((a0 :: as).headD '0' = '0')) = false := by
      by_cases h10 : x.natAbs < 10
      · have h := natDigits_small x.natAbs h10
        rw [hnd] at h
        rw [List.cons.injEq] at h
        rw [h.2]
        rfl
      · have hz := natDigits_head_ne_zero x.natAbs (by omega) a0 (by rw [hnd]; rfl)
        simp only [List.headD_cons]
        rw [show decide (a0 = '0') = false from decide_eq_false hz]
        simp
    unfold parseJNumber
    simp only [if_true]
    simp only [htake, hdrop]
    rw [if_neg (by simp), if_neg (by rw [hlz]; exact Bool.false_ne_true)]
    rw [hfrac]
    simp only []
    rw [hexp]
    simp only [Option.isNone_none, Bool.not_false, Bool.and_self, if_pos rfl]
    rw [hfold]
    rw [show -Int.ofNat x.natAbs = x from by simp only [Int.ofNat_eq_coe]; omega]
    rfl
  · have hL : (pyIntRepr x).data ++ rest = a0 :: (as ++ rest) := by
      rw [pyIntRepr_data, if_neg hx, hnd]
      simp [List.cons_append]
    rw [hL, parseJNumber_digits x.natAbs a0 as rest hnd hr,
      show Int.ofNat x.natAbs = x from by simp only [Int.ofNat_eq_coe]; omega]

/-- Whitespace skipping stops at a non-whitespace head. -/
theorem skipWs_not (c : Char) (l : List Char) (h : jsonWs c = false) :
    skipWs (c :: l) = c :: l := by
  simp [skipWs, List.dropWhile_cons, h]

/-- Whitespace skipping drops a leading space. -/
theorem skipWs_sp (l : List Char) : skipWs (' ' :: l) = skipWs l := by
  simp [skipWs, List.dropWhile_cons, show jsonWs ' ' = true from by decide]

/-- The member parser ignores a leading space. -/
theorem parseJMembers_sp (f : Nat) (l : List Char) :
    parseJMembers f (' ' :: l) = parseJMembers f l := by
  cases f with
  | zero => rfl
  | succ f2 =>
    unfold parseJMembers
    rw [skipWs_sp]

/-- Object-member length is at least the member count. -/
theorem dumpsFields_len (l : List (String × PyVal)) :
    l.length ≤ (pyJsonDumpsFields l).data.length := by
  induction l with
  | nil => simp [pyJsonDumpsFields]
  | cons p rest ih =>
    cases hr : rest with
    | nil =>
      obtain ⟨k, v⟩ := p
      simp [pyJsonDumpsFields, String.data_append, List.length_append]
    | cons q t =>
      obtain ⟨k, v⟩ := p
      rw [hr] at ih
      rw [show pyJsonDumpsFields ((k, v) :: q :: t)
          = "\"" ++ String.mk (jsonEscape k.data) ++ "\": " ++ pyJsonDumps v ++ ", "
            ++ pyJsonDumpsFields (q :: t) from rfl]
      simp only [String.data_append, List.length_append, List.length_cons]
      simp only [List.length_cons] at ih ⊢
      omega

/-- Python dict insertion appends a fresh key. -/
theorem pyDictSet_append (kvs : List (String × PyVal)) (k : String) (v : PyVal)
    (h : ∀ kv ∈ kvs, ¬ kv.1 = k) : pyDictSet kvs k v = kvs ++ [(k, v)] := by
  induction kvs with
  | nil => rfl
  | cons p t ih =>
    obtain ⟨k2, v2⟩ := p
    unfold pyDictSet
    rw [show (k2 == k) = false from
      beq_eq_false_iff_ne.mpr (h (k2, v2) (List.mem_cons_self _ _))]
    simp only [Bool.false_eq_true, if_false, List.cons_append, List.cons.injEq, true_and]
    exact ih (fun kv hm => h kv (List.mem_cons_of_mem _ hm))

/-- Folding JSON members into a Python dict is the identity on
duplicate-free keys. -/
theorem dictFromPairs_nodup (l : List (String × PyVal))
    (h : (l.map Prod.fst).Nodup) : dictFromPairs l = l := by
  have haux : ∀ (l2 acc : List (String × PyVal)),
      (∀ kv ∈ l2, ∀ kv2 ∈ acc, ¬ kv2.1 = kv.1) → (l2.map Prod.fst).Nodup →
      l2.foldl (fun a kv => pyDictSet a kv.1 kv.2) acc = acc ++ l2 := by
    intro l2
    induction l2 with
    | nil => intro acc _ _; simp
    | cons p t ih =>
      intro acc hfresh hnd
      simp only [List.foldl_cons]
      rw [pyDictSet_append acc p.1 p.2
        (fun kv hm => hfresh p (List.mem_cons_self _ _) kv hm)]
      rw [List.map_cons, List.nodup_cons] at hnd
      rw [ih (acc ++ [(p.1, p.2)])
        (fun kv hm kv2 hm2 => by
          rcases List.mem_append.mp hm2 with h2 | h2
          · exact hfresh kv (List.mem_cons_of_mem _ hm) kv2 h2
          · have : kv2 = (p.1, p.2) := by simpa using h2
            rw [this]
            intro e
            exact hnd.1 (e ▸ List.mem_map_of_mem Prod.fst hm))
        hnd.2]
      simp
  exact haux l [] (fun kv _ kv2 hm2 => absurd hm2 (List.not_mem_nil kv2)) h

/-- The value parser on a space-prefixed plain JSON string literal. -/
theorem parseJValue_str (s : String) (hs : s.data.all jsonPlainChar = true)
    (f : Nat) (rest : List Char) :
    parseJValue (f + 1) (' ' :: ('"' :: (s.data ++ ('"' :: rest))))
      = some (PyVal.str s, rest) := by
  unfold parseJValue
  rw [skipWs_sp, skipWs_not '"' _ (by decide)]
  split
  · rename_i heq
    exact absurd heq (by simp)
  · rename_i c2 r2 heq
    rw [List.cons.injEq] at heq
    obtain ⟨hc2, hr2⟩ := heq
    subst hc2
    subst hr2
    rw [if_pos rfl,
      parseJStringBody_plain s.data hs ((s.data ++ ('"' :: rest)).length + 1) rest
        (by simp only [List.length_append, List.length_cons]; omega)]
    rfl

/-- The value parser on a space-prefixed printed integer. -/
theorem parseJValue_int (v : Int) (f : Nat) (rest : List Char)
    (hr : ∀ c, rest.head? = some c →
        (isDigitCh c = false ∧ ¬ c = '.' ∧ ¬ c = 'e' ∧ ¬ c = 'E')) :
    parseJValue (f + 1) (' ' :: ((pyIntRepr v).data ++ rest))
      = some (PyVal.int v, rest) := by
  obtain ⟨a0, as, ha⟩ := List.exists_cons_of_ne_nil (intRepr_ne_nil v)
  have ha0 : a0 = '-' ∨ isDigitCh a0 = true := by
    have : a0 ∈ (pyIntRepr v).data := by rw [ha]; exact List.mem_cons_self _ _
    exact intRepr_chars v a0 this
  have hnws : jsonWs a0 = false := by
    rcases ha0 with h | h
    · rw [h]; decide
    · exact isDigitCh_not_jsonWs a0 h
  have hne : ∀ d : Char, ¬ d = '-' → (d.toNat < 48 ∨ 57 < d.toNat) → ¬ a0 = d := by
    intro d h1 h2 e
    rcases ha0 with h | h
    · rw [e] at h; exact h1 h
    · exact isDigitCh_ne a0 h d h2 e
  have hL : (pyIntRepr v).data ++ rest = a0 :: (as ++ rest) := by
    rw [ha]
    simp [List.cons_append]
  unfold parseJValue
  rw [skipWs_sp, hL, skipWs_not a0 _ hnws]
  split
  · rename_i heq
    exact absurd heq (by simp)
  · rename_i c2 r2 heq
    rw [List.cons.injEq] at heq
    obtain ⟨hc2, hr2⟩ := heq
    subst hc2
    subst hr2
    rw [if_neg (hne '"' (by decide) (by left; decide)),
      if_neg (hne '{' (by decide) (by right; decide)),
      if_neg (hne '[' (by decide) (by right; decide)),
      if_neg (hne 't' (by decide) (by right; decide)),
      if_neg (hne 'f' (by decide) (by right; decide)),
      if_neg (hne 'n' (by decide) (by right; decide)),
      ← hL, parseJNumber_intRepr v rest hr]

/-- The member parser inverts the dumped members of a flat
integer-valued object with plain keys, up to the closing brace. -/
theorem parseJMembers_int : ∀ (ps : List (String × Int)), ps ≠ [] →
    (∀ kv ∈ ps, (kv.1).data.all jsonPlainChar = true) →
    ∀ (f : Nat) (rest : List Char), ps.length < f →
    parseJMembers f
      ((pyJsonDumpsFields (ps.map (fun kv => (kv.1, PyVal.int kv.2)))).data
        ++ ('}' :: rest))
      = some (ps.map (fun kv => (kv.1, PyVal.int kv.2)), rest) := by
  intro ps
  induction ps with
  | nil => intro h; exact absurd rfl h
  | cons p t ih =>
    intro _ hkp f rest hf
    obtain ⟨k, v⟩ := p
    have hk : k.data.all jsonPlainChar = true := hkp (k, v) (List.mem_cons_self _ _)
    cases t with
    | nil =>
      have hM : (pyJsonDumpsFields [(k, PyVal.int v)]).data ++ ('}' :: rest)
          = '"' :: (k.data ++ ('"' :: ':' :: ' ' ::
              ((pyIntRepr v).data ++ ('}' :: rest)))) := by
        rw [show pyJsonDumpsFields [(k, PyVal.int v)]
            = "\"" ++ String.mk (jsonEscape k.data) ++ "\": " ++ pyIntRepr v from rfl]
        rw [jsonEscape_plain k.data hk]
        simp only [String.data_append, List.append_assoc]
        rfl
      simp only [List.map_cons, List.map_nil]
      rw [hM]
      cases f with
      | zero => omega
      | succ f2 =>
        obtain ⟨f3, hf3⟩ : ∃ f3, f2 = f3 + 1 :=
          ⟨f2 - 1, by simp only [List.length_cons, List.length_nil] at hf; omega⟩
        subst hf3
        unfold parseJMembers
        rw [skipWs_not '"' _ (by decide)]
        split
        · rename_i k2 r2 heq
          rw [List.cons.injEq] at heq
          obtain ⟨_, hr2⟩ := heq
          subst hr2
          rw [parseJStringBody_plain k.data hk _ _
            (by simp only [List.length_append, List.length_cons]; omega)]
          conv_lhs => whnf
          rw [parseJValue_int v f3 ('}' :: rest)
            (fun c hc => by
              simp only [List.head?_cons, Option.some.injEq] at hc
              subst hc
              exact ⟨by decide, by decide, by decide, by decide⟩)]
          conv_lhs => whnf
        · rename_i hwild
          exact absurd rfl (hwild (k.data ++ ('"' :: ':' :: ' ' ::
            ((pyIntRepr v).data ++ ('}' :: rest)))))
    | cons q t2 =>
      obtain ⟨k2, v2⟩ := q
      have hM : (pyJsonDumpsFields ((k, PyVal.int v) :: (k2, PyVal.int v2)
              :: (t2.map (fun kv => (kv.1, PyVal.int kv.2))))).data
            ++ ('}' :: rest)
          = '"' :: (k.data ++ ('"' :: ':' :: ' ' ::
              ((pyIntRepr v).data ++ (',' :: ' ' ::
                ((pyJsonDumpsFields ((k2, PyVal.int v2)
                    :: (t2.map (fun kv => (kv.1, PyVal.int kv.2))))).data
                  ++ ('}' :: rest)))))) := by
        rw [show pyJsonDumpsFields ((k, PyVal.int v) :: (k2, PyVal.int v2)
              :: (t2.map (fun kv => (kv.1, PyVal.int kv.2))))
            = "\"" ++ String.mk (jsonEscape k.data) ++ "\": " ++ pyIntRepr v ++ ", "
              ++ pyJsonDumpsFields ((k2, PyVal.int v2)
                  :: (t2.map (fun kv => (kv.1, PyVal.int kv.2)))) from rfl]
        rw [jsonEscape_plain k.data hk]
        simp only [String.data_append, List.append_assoc]
        rfl
      have iha := ih (by simp)
        (fun kv hm => hkp kv (List.mem_cons_of_mem _ hm))
      simp only [List.map_cons] at iha
      simp only [List.map_cons]
      rw [hM]
      cases f with
      | zero => omega
      | succ f2 =>
        obtain ⟨f3, hf3⟩ : ∃ f3, f2 = f3 + 1 :=
          ⟨f2 - 1, by simp only [List.length_cons] at hf; omega⟩
        subst hf3
        unfold parseJMembers
        rw [skipWs_not '"' _ (by decide)]
        split
        · rename_i k3 r2 heq
          rw [List.cons.injEq] at heq
          obtain ⟨_, hr2⟩ := heq
          subst hr2
          rw [parseJStringBody_plain k.data hk _ _
            (by simp only [List.length_append, List.length_cons]; omega)]
          conv_lhs => whnf
          rw [parseJValue_int v f3 (',' :: ' ' ::
              ((pyJsonDumpsFields ((k2, PyVal.int v2)
                  :: (t2.map (fun kv => (kv.1, PyVal.int kv.2))))).data
                ++ ('}' :: rest)))
            (fun c hc => by
              simp only [List.head?_cons, Option.some.injEq] at hc
              subst hc
              exact ⟨by decide, by decide, by decide, by decide⟩)]
          conv_lhs => whnf
          rw [parseJMembers_sp,
            iha (f3 + 1) rest (by simp only [List.length_cons] at hf ⊢; omega)]
        · rename_i hwild
          exact absurd rfl (hwild (k.data ++ ('"' :: ':' :: ' ' ::
            ((pyIntRepr v).data ++ (',' :: ' ' ::
              ((pyJsonDumpsFields ((k2, PyVal.int v2)
                  :: (t2.map (fun kv => (kv.1, PyVal.int kv.2))))).data
                ++ ('}' :: rest)))))))

/-- The value parser on a space-prefixed empty JSON object. -/
theorem parseJValue_emptydict (f : Nat) (rest : List Char) :
    parseJValue (f + 1) (' ' :: ('{' :: ('}' :: rest)))
      = some (PyVal.dict [], rest) := by
  unfold parseJValue
  rw [skipWs_sp, skipWs_not '{' _ (by decide)]
  split
  · rename_i heq
    exact absurd heq (by simp)
  · rename_i c2 r2 heq
    rw [List.cons.injEq] at heq
    obtain ⟨hc2, hr2⟩ := heq
    subst hc2
    subst hr2
    rw [if_neg (by decide), if_pos rfl, skipWs_not '}' _ (by decide)]
    rfl

/-- The value parser on a space-prefixed dumped flat integer object. -/
theorem parseJValue_intdict (params : List (String × Int)) (hne : params ≠ [])
    (hkp : ∀ kv ∈ params, (kv.1).data.all jsonPlainChar = true)
    (f : Nat) (rest : List Char) (hf : params.length < f) :
    parseJValue (f + 1) (' ' :: ('{' ::
        ((pyJsonDumpsFields (params.map (fun kv => (kv.1, PyVal.int kv.2)))).data
          ++ ('}' :: rest))))
      = some (PyVal.dict (dictFromPairs
          (params.map (fun kv => (kv.1, PyVal.int kv.2)))), rest) := by
  obtain ⟨ftail, hfc⟩ : ∃ ftail,
      (pyJsonDumpsFields (params.map (fun kv => (kv.1, PyVal.int kv.2)))).data
        = '"' :: ftail := by
    cases params with
    | nil => exact absurd rfl hne
    | cons p0 pt =>
      obtain ⟨k1, v1⟩ := p0
      cases pt with
      | nil =>
        refine ⟨(jsonEscape k1.data) ++ ('"' :: ':' :: ' ' :: (pyIntRepr v1).data), ?_⟩
        rw [show pyJsonDumpsFields (((k1, v1) :: []).map (fun kv => (kv.1, PyVal.int kv.2)))
            = "\"" ++ String.mk (jsonEscape k1.data) ++ "\": " ++ pyIntRepr v1 from rfl]
        simp only [String.data_append, List.append_assoc]
        rfl
      | cons q qt =>
        refine ⟨(jsonEscape k1.data) ++ ('"' :: ':' :: ' ' :: ((pyIntRepr v1).data
          ++ (',' :: ' ' :: (pyJsonDumpsFields
              ((q :: qt).map (fun kv => (kv.1, PyVal.int kv.2)))).data))), ?_⟩
        rw [show pyJsonDumpsFields (((k1, v1) :: q :: qt).map (fun kv => (kv.1, PyVal.int kv.2)))
            = "\"" ++ String.mk (jsonEscape k1.data) ++ "\": " ++ pyIntRepr v1 ++ ", "
              ++ pyJsonDumpsFields ((q :: qt).map (fun kv => (kv.1, PyVal.int kv.2)))
            from rfl]
        simp only [String.data_append, List.append_assoc]
        rfl
  unfold parseJValue
  rw [skipWs_sp, skipWs_not '{' _ (by decide)]
  split
  · rename_i heq
    exact absurd heq (by simp)
  · rename_i c2 r2 heq
    rw [List.cons.injEq] at heq
    obtain ⟨hc2, hr2⟩ := heq
    subst hc2
    subst hr2
    rw [if_neg (by decide), if_pos rfl,
      show skipWs ((pyJsonDumpsFields
            (params.map (fun kv => (kv.1, PyVal.int kv.2)))).data ++ ('}' :: rest))
        = '"' :: (ftail ++ ('}' :: rest)) from by
          rw [hfc, List.cons_append, skipWs_not '"' _ (by decide)]]
    split
    · rename_i r2 heq2
      rw [List.cons.injEq] at heq2
      exact absurd heq2.1 (by decide)
    · rw [parseJMembers_int params hne hkp f rest hf]
      rfl

/-- The member parser on the dumped two-member `action`/`params`
object, given the parse of the params value. -/
theorem parseJMembers_top (t : String) (htp : t.data.all jsonPlainChar = true)
    (g : Nat) (dictBody : List Char) (dictVal : PyVal)
    (hdict : parseJValue g (' ' :: ('{' :: dictBody)) = some (dictVal, '}' :: [])) :
    parseJMembers (g + 1 + 1)
      ('"' :: 'a' :: 'c' :: 't' :: 'i' :: 'o' :: 'n' :: '"' :: ':' :: ' ' :: '"' ::
        (t.data ++ ('"' :: ',' :: ' ' :: '"' :: 'p' :: 'a' :: 'r' :: 'a' :: 'm' ::
          's' :: '"' :: ':' :: ' ' :: '{' :: dictBody)))
      = some ([("action", PyVal.str t), ("params", dictVal)], []) := by
  unfold parseJMembers
  rw [skipWs_not '"' _ (by decide)]
  split
  · rename_i k2 r2 heq
    rw [List.cons.injEq] at heq
    obtain ⟨_, hr2⟩ := heq
    subst hr2
    have hsb := parseJStringBody_plain ['a', 'c', 't', 'i', 'o', 'n'] (by decide)
      (('a' :: 'c' :: 't' :: 'i' :: 'o' :: 'n' :: '"' :: ':' :: ' ' :: '"' ::
        (t.data ++ ('"' :: ',' :: ' ' :: '"' :: 'p' :: 'a' :: 'r' :: 'a' :: 'm' ::
          's' :: '"' :: ':' :: ' ' :: '{' :: dictBody))).length + 1)
      (':' :: ' ' :: '"' :: (t.data ++ ('"' :: ',' :: ' ' :: '"' :: 'p' :: 'a' ::
        'r' :: 'a' :: 'm' :: 's' :: '"' :: ':' :: ' ' :: '{' :: dictBody)))
      (by simp only [List.length_cons, List.length_nil]; omega)
    simp only [List.cons_append, List.nil_append] at hsb
    rw [hsb]
    conv_lhs => whnf
    rw [show parseJValue (g + 1) (' ' :: ('"' :: (t.data ++ ('"' :: ',' :: ' ' ::
        '"' :: 'p' :: 'a' :: 'r' :: 'a' :: 'm' :: 's' :: '"' :: ':' :: ' ' :: '{' ::
        dictBody))))
      = some (PyVal.str t, ',' :: ' ' :: '"' :: 'p' :: 'a' :: 'r' :: 'a' :: 'm' ::
        's' :: '"' :: ':' :: ' ' :: '{' :: dictBody)
      from parseJValue_str t htp g _]
    conv_lhs => whnf
    rw [parseJMembers_sp]
    rw [show parseJMembers (g + 1)
        ('"' :: 'p' :: 'a' :: 'r' :: 'a' :: 'm' :: 's' :: '"' :: ':' :: ' ' :: '{' ::
          dictBody)
      = some ([("params", dictVal)], []) from ?hparams]
    case hparams =>
      unfold parseJMembers
      rw [skipWs_not '"' _ (by decide)]
      split
      · rename_i k3 r3 heq3
        rw [List.cons.injEq] at heq3
        obtain ⟨_, hr3⟩ := heq3
        subst hr3
        have hsb2 := parseJStringBody_plain ['p', 'a', 'r', 'a', 'm', 's'] (by decide)
          (('p' :: 'a' :: 'r' :: 'a' :: 'm' :: 's' :: '"' :: ':' :: ' ' :: '{' ::
            dictBody).length + 1)
          (':' :: ' ' :: '{' :: dictBody)
          (by simp only [List.length_cons, List.length_nil]; omega)
        simp only [List.cons_append, List.nil_append] at hsb2
        rw [hsb2]
        conv_lhs => whnf
        rw [hdict]
        conv_lhs => whnf
      · rename_i heq3
        exact absurd heq3 (by simp)
  · rename_i heq
    exact absurd heq (by simp)

/-- The value parser on the full dumped `action`/`params` object. -/
theorem parseJValue_top (t : String) (htp : t.data.all jsonPlainChar = true)
    (g : Nat) (dictBody : List Char) (dictVal : PyVal)
    (hdict : parseJValue g (' ' :: ('{' :: dictBody)) = some (dictVal, '}' :: [])) :
    parseJValue (g + 3)
      ('{' :: '"' :: 'a' :: 'c' :: 't' :: 'i' :: 'o' :: 'n' :: '"' :: ':' :: ' ' :: '"' ::
        (t.data ++ ('"' :: ',' :: ' ' :: '"' :: 'p' :: 'a' :: 'r' :: 'a' :: 'm' ::
          's' :: '"' :: ':' :: ' ' :: '{' :: dictBody)))
      = some (PyVal.dict [("action", PyVal.str t), ("params", dictVal)], []) := by
  rw [show g + 3 = (g + 1 + 1) + 1 from rfl]
  unfold parseJValue
  rw [skipWs_not '{' _ (by decide)]
  split
  · rename_i heq
    exact absurd heq (by simp)
  · rename_i c2 r2 heq
    rw [List.cons.injEq] at heq
    obtain ⟨hc2, hr2⟩ := heq
    subst hc2
    subst hr2
    rw [if_neg (by decide), if_pos rfl,
      skipWs_not '"' _ (by decide)]
    split
    · rename_i r3 heq2
      rw [List.cons.injEq] at heq2
      exact absurd heq2.1 (by decide)
    · rw [parseJMembers_top t htp g dictBody dictVal hdict]
      rfl

/-- Evaluation of `UniversalAdapter.parse_action` along a successful
direct JSON decode to a dict. -/
theorem universalParse_eval (raw : String) (kvs : List (String × PyVal))
    (h : pyJsonLoads raw = some (PyVal.dict kvs)) :
    universalParseAction raw
      = PyRes.val (some
          ⟨pyDictGetD kvs "action" (PyVal.str ""),
           pyDictGetD kvs "params" (PyVal.dict []), raw, PyVal.float "1.0",
           pyDictGetD kvs "reasoning" (PyVal.str "")⟩) := by
  unfold universalParseAction
  rw [h]

/-- Universal adapter round-trip on flat integer-parameter actions with
JSON-plain names and duplicate-free keys. -/
theorem universal_int_roundtrip (t : String) (params : List (String × Int))
    (htp : t.data.all jsonPlainChar = true)
    (hkp : ∀ kv ∈ params, (kv.1).data.all jsonPlainChar = true)
    (hnd : (params.map Prod.fst).Nodup) :
    universalParseAction (universalFormatAction t (params.map (fun kv => (kv.1, PyVal.int kv.2))))
      = PyRes.val (some
          ⟨PyVal.str t, PyVal.dict (params.map (fun kv => (kv.1, PyVal.int kv.2))),
           (universalFormatAction t (params.map (fun kv => (kv.1, PyVal.int kv.2)))), PyVal.float "1.0", PyVal.str ""⟩) := by
  have hnd2 : ((params.map (fun kv => (kv.1, PyVal.int kv.2))).map Prod.fst).Nodup := by
    rw [List.map_map]
    simpa using hnd
  by_cases hps : params = []
  · subst hps
    simp only [List.map_nil]
    have hdata : ((universalFormatAction t [])).data
        = '{' :: '"' :: 'a' :: 'c' :: 't' :: 'i' :: 'o' :: 'n' :: '"' :: ':' :: ' ' :: '"' ::
            (t.data ++ ('"' :: ',' :: ' ' :: '"' :: 'p' :: 'a' :: 'r' :: 'a' :: 'm' ::
              's' :: '"' :: ':' :: ' ' :: '{' :: ('}' :: ('}' :: [])))) := by
      simp only [universalFormatAction, pyJsonDumps, pyJsonDumpsFields,
        jsonEscape_plain t.data htp, String.data_append, List.append_assoc]
      rfl
    have hlen : 3 ≤ ((universalFormatAction t [])).data.length := by
      rw [hdata]
      simp only [List.length_cons]
      omega
    obtain ⟨n, hn⟩ : ∃ n, ((universalFormatAction t [])).data.length = n + 3 :=
      ⟨((universalFormatAction t [])).data.length - 3, by omega⟩
    have hpv : parseJValue (((universalFormatAction t [])).data.length + 1) ((universalFormatAction t [])).data
        = some (PyVal.dict [("action", PyVal.str t), ("params", PyVal.dict [])], []) := by
      rw [hn, hdata]
      exact parseJValue_top t htp (n + 1)
        ('}' :: ('}' :: [])) (PyVal.dict []) (parseJValue_emptydict n ('}' :: []))
    have hload : pyJsonLoads (universalFormatAction t [])
        = some (PyVal.dict [("action", PyVal.str t), ("params", PyVal.dict [])]) := by
      unfold pyJsonLoads
      rw [hpv]
      rfl
    rw [universalParse_eval _ _ hload]
    rfl
  · have hdata : ((universalFormatAction t (params.map (fun kv => (kv.1, PyVal.int kv.2))))).data
        = '{' :: '"' :: 'a' :: 'c' :: 't' :: 'i' :: 'o' :: 'n' :: '"' :: ':' :: ' ' :: '"' ::
            (t.data ++ ('"' :: ',' :: ' ' :: '"' :: 'p' :: 'a' :: 'r' :: 'a' :: 'm' ::
              's' :: '"' :: ':' :: ' ' :: '{' ::
                (((pyJsonDumpsFields (params.map (fun kv => (kv.1, PyVal.int kv.2))))).data ++ ('}' :: ('}' :: []))))) := by
      simp only [universalFormatAction, pyJsonDumps, pyJsonDumpsFields,
        jsonEscape_plain t.data htp, String.data_append, List.append_assoc]
      rfl
    have hflen := dumpsFields_len (params.map (fun kv => (kv.1, PyVal.int kv.2)))
    rw [List.length_map] at hflen
    have hlen : params.length + 3 < ((universalFormatAction t (params.map (fun kv => (kv.1, PyVal.int kv.2))))).data.length := by
      rw [hdata]
      simp only [List.length_cons, List.length_append, List.length_nil]
      omega
    obtain ⟨n, hn⟩ : ∃ n, ((universalFormatAction t (params.map (fun kv => (kv.1, PyVal.int kv.2))))).data.length = n + 3 :=
      ⟨((universalFormatAction t (params.map (fun kv => (kv.1, PyVal.int kv.2))))).data.length - 3, by omega⟩
    have hpv : parseJValue (((universalFormatAction t (params.map (fun kv => (kv.1, PyVal.int kv.2))))).data.length + 1) ((universalFormatAction t (params.map (fun kv => (kv.1, PyVal.int kv.2))))).data
        = some (PyVal.dict [("action", PyVal.str t),
            ("params", PyVal.dict (dictFromPairs
              (params.map (fun kv => (kv.1, PyVal.int kv.2)))))], []) := by
      rw [hn, hdata]
      exact parseJValue_top t htp (n + 1)
        (((pyJsonDumpsFields (params.map (fun kv => (kv.1, PyVal.int kv.2))))).data ++ ('}' :: ('}' :: [])))
        (PyVal.dict (dictFromPairs (params.map (fun kv => (kv.1, PyVal.int kv.2)))))
        (parseJValue_intdict params hps hkp n ('}' :: []) (by omega))
    have hload : pyJsonLoads (universalFormatAction t (params.map (fun kv => (kv.1, PyVal.int kv.2))))
        = some (PyVal.dict [("action", PyVal.str t),
            ("params", PyVal.dict (dictFromPairs
              (params.map (fun kv => (kv.1, PyVal.int kv.2)))))]) := by
      unfold pyJsonLoads
      rw [hpv]
      rfl
    rw [universalParse_eval _ _ hload,
      dictFromPairs_nodup (params.map (fun kv => (kv.1, PyVal.int kv.2))) hnd2]
    rfl

/-- C3 counterexample: the AutoGLM adapter does not round-trip its own
formatted `type` action when the text looks numeric — `type(text="5")`
parses back with the integer 5 where the original action held the
string "5". -/
theorem C3_counterexample :
    autoglmParseAction (autoglmFormatAction "type" [("text", PyVal.str "5")])
      = PyRes.val (some
          ⟨PyVal.str "type", PyVal.dict [("text", PyVal.int 5)],
           autoglmFormatAction "type" [("text", PyVal.str "5")],
           PyVal.float "1.0", PyVal.str ""⟩)
    ∧ ¬ PyVal.dict [("text", PyVal.int 5)] = PyVal.dict [("text", PyVal.str "5")] := by
  constructor
  · have h := autoglm_type_parse "5" (by decide) (by decide) (by decide)
    rw [show coerceParamValue "5" = PyVal.int 5 from rfl] at h
    exact h
  · simp

/-- C3 (amended): `A.parse_action(A.format_action(α)) == α` holds for
the universal adapter on flat actions with integer parameter values,
JSON-plain name and keys, and duplicate-free keys; for the AutoGLM
adapter it holds on integer-coordinate `click`, parameterless `back`,
and on `type`/`finish` only when the string value is nonempty and fixed
by the numeric coercion (and free of the pattern's delimiter
characters); for the Gelab adapter it holds on integer-coordinate
`click`.  (The value coercion breaks the general statement — see the
counterexample.) -/
theorem C3_amended :
    (∀ (t : String) (params : List (String × Int)),
      t.data.all jsonPlainChar = true →
      (∀ kv ∈ params, (kv.1).data.all jsonPlainChar = true) →
      (params.map Prod.fst).Nodup →
      universalParseAction
          (universalFormatAction t (params.map (fun kv => (kv.1, PyVal.int kv.2))))
        = PyRes.val (some
            ⟨PyVal.str t, PyVal.dict (params.map (fun kv => (kv.1, PyVal.int kv.2))),
             universalFormatAction t (params.map (fun kv => (kv.1, PyVal.int kv.2))),
             PyVal.float "1.0", PyVal.str ""⟩))
    ∧ (∀ x y : Int,
      autoglmParseAction (autoglmFormatAction "click" [("x", PyVal.int x), ("y", PyVal.int y)])
        = PyRes.val (some
            ⟨PyVal.str "click", PyVal.dict [("x", PyVal.int x), ("y", PyVal.int y)],
             autoglmFormatAction "click" [("x", PyVal.int x), ("y", PyVal.int y)],
             PyVal.float "1.0", PyVal.str ""⟩))
    ∧ (autoglmParseAction (autoglmFormatAction "back" [])
        = PyRes.val (some
            ⟨PyVal.str "back", PyVal.dict [], autoglmFormatAction "back" [],
             PyVal.float "1.0", PyVal.str ""⟩))
    ∧ (∀ s : String, s.data ≠ [] →
      s.data.all (fun d => !(d = '"')) = true →
      s.data.all (fun d => !(d = ')')) = true →
      coerceParamValue s = PyVal.str s →
      autoglmParseAction (autoglmFormatAction "type" [("text", PyVal.str s)])
        = PyRes.val (some
            ⟨PyVal.str "type", PyVal.dict [("text", PyVal.str s)],
             autoglmFormatAction "type" [("text", PyVal.str s)],
             PyVal.float "1.0", PyVal.str ""⟩))
    ∧ (∀ s : String, s.data ≠ [] →
      s.data.all notCommaSpaceB = true →
      s.data.all (fun d => !(d = '"')) = true →
      s.data.all (fun d => !(d = ')')) = true →
      coerceParamValue s = PyVal.str s →
      autoglmParseAction (autoglmFormatAction "finish" [("status", PyVal.str s)])
        = PyRes.val (some
            ⟨PyVal.str "finish", PyVal.dict [("status", PyVal.str s)],
             autoglmFormatAction "finish" [("status", PyVal.str s)],
             PyVal.float "1.0", PyVal.str ""⟩))
    ∧ (∀ x y : Int,
      gelabParseAction (gelabFormatAction "click" [("x", PyVal.int x), ("y", PyVal.int y)])
        = some
            ⟨PyVal.str "click", PyVal.dict [("x", PyVal.int x), ("y", PyVal.int y)],
             gelabFormatAction "click" [("x", PyVal.int x), ("y", PyVal.int y)],
             PyVal.float "1.0", PyVal.str ""⟩) :=
  ⟨fun t params htp hkp hnd => universal_int_roundtrip t params htp hkp hnd,
   fun x y => autoglm_click_roundtrip x y,
   autoglm_back_roundtrip,
   fun s h1 h2 h3 h4 => autoglm_type_roundtrip s h1 h2 h3 h4,
   fun s h1 h2 h3 h4 h5 => autoglm_finish_roundtrip s h1 h2 h3 h4 h5,
   fun x y => gelab_click_roundtrip x y⟩

/-- C3 witness: the amended round-trip at concrete inputs — the
universal adapter on `tap(x=3, y=-7)` and the AutoGLM adapter on
`type(text="hello")`. -/
theorem C3_witness :
    universalParseAction
        (universalFormatAction "tap"
          (([("x", 3), ("y", -7)] : List (String × Int)).map
            (fun kv => (kv.1, PyVal.int kv.2))))
      = PyRes.val (some
          ⟨PyVal.str "tap",
           PyVal.dict (([("x", 3), ("y", -7)] : List (String × Int)).map
             (fun kv => (kv.1, PyVal.int kv.2))),
           universalFormatAction "tap"
             (([("x", 3), ("y", -7)] : List (String × Int)).map
               (fun kv => (kv.1, PyVal.int kv.2))),
           PyVal.float "1.0", PyVal.str ""⟩)
    ∧ autoglmParseAction (autoglmFormatAction "type" [("text", PyVal.str "hello")])
      = PyRes.val (some
          ⟨PyVal.str "type", PyVal.dict [("text", PyVal.str "hello")],
           autoglmFormatAction "type" [("text", PyVal.str "hello")],
           PyVal.float "1.0", PyVal.str ""⟩) :=
  ⟨C3_amended.1 "tap" [("x", 3), ("y", -7)] (by decide) (by decide) (by decide),
   C3_amended.2.2.2.1 "hello" (by decide) (by decide) (by decide) rfl⟩
